import Mathlib

/-!
# eAthena persistence layer

A shallow embedding of `src/login/account_txt.c` (the cached-file account
backend and its versioned record codec) and of `src/char/partydb_sql.c` (the
relational party backend), followed by theorems about them.

Conventions of the embedding.

* A C string is the list of its characters up to, and excluding, the
  terminating NUL (`Str`).
* A C `int` is an `Int`.  Text-to-number conversions narrow explicitly
  (`toInt32`, `toUInt32`, the clamp of `strtol`), and so do the increments of
  the auto-increment counter (lines 149 and 204), which wrap at the largest
  `int`.  The decrement of the dirty counter (line 249) is exact: every
  successful flush resets the counter to 10, and its value leaves the range of
  `int` only after 2^31 calls of `save` in a row without one.
* Constants and sizes declared in headers that are not among the translated
  sources (`mmo.h`, `account.h`) are the fields of `Config`.
* Library calls (`sscanf`, `strtol`, `sprintf`, `fgets`) are modelled for the
  format strings that the sources use, following the C standard.
-/

namespace Eathena

/-- A C string without its terminating NUL. -/
abbrev Str := List Char

/-- Constants that the sources use but that are declared in headers outside
the translated files.  `userid_size` is `sizeof(a->userid)`, and so on;
`party_name_size` is `sizeof(p->name)`.  The two last fields record what the C language guarantees about them. -/
structure Config where
  userid_size : Nat
  pass_size : Nat
  email_size : Nat
  lastlogin_size : Nat
  last_ip_size : Nat
  ACCOUNT_REG2_NUM : Nat
  START_ACCOUNT_NUM : Int
  LONG_MAX : Int
  NAME_LENGTH : Nat
  MAX_PARTY : Nat
  party_name_size : Nat
  /-- The C standard gives `long` at least 32 bits. -/
  long_range : 2147483647 ≤ LONG_MAX
  /-- An array has at least one element. -/
  reg2_pos : 0 < ACCOUNT_REG2_NUM

/-- The values of the upstream eAthena headers on an LP64 platform; used to
instantiate the general statements at concrete inputs. -/
def upstream : Config where
  userid_size := 24
  pass_size := 33
  email_size := 40
  lastlogin_size := 24
  last_ip_size := 16
  ACCOUNT_REG2_NUM := 16
  START_ACCOUNT_NUM := 2000000
  LONG_MAX := 9223372036854775807
  NAME_LENGTH := 24
  MAX_PARTY := 12
  party_name_size := 24
  long_range := by decide
  reg2_pos := by decide

/-- Line 15: `#define AUTHS_BEFORE_SAVE 10`. -/
def AUTHS_BEFORE_SAVE : Int := 10

/-! ## C library models -/

/-- The C `isspace` in the "C" locale. -/
def isspace (c : Char) : Bool :=
  c = ' ' || c = '\t' || c = '\n' || c = '\x0b' || c = '\x0c' || c = '\r'

/-- The C `isdigit`. -/
def isdigit (c : Char) : Bool :=
  48 ≤ c.toNat && c.toNat ≤ 57

/-- Value of a run of decimal digits, most significant first. -/
def decimal (ds : Str) : Nat :=
  ds.foldl (fun acc c => 10 * acc + (c.toNat - 48)) 0

/-- Conversion of a value to a 32-bit two-complement `int`. -/
def toInt32 (v : Int) : Int :=
  (v + 2147483648) % 4294967296 - 2147483648

/-- Conversion of a value to a 32-bit `unsigned int`. -/
def toUInt32 (v : Int) : Nat :=
  (v % 4294967296).toNat

/-- Sign and digits at the head of a numeric text, after the leading white
space: `(negative, digits, characters consumed)`. -/
def scan_number (s : Str) : Bool × Str × Nat :=
  let ws := s.takeWhile isspace
  let s1 := s.dropWhile isspace
  match s1 with
  | '-' :: t => (true, t.takeWhile isdigit, ws.length + 1 + (t.takeWhile isdigit).length)
  | '+' :: t => (false, t.takeWhile isdigit, ws.length + 1 + (t.takeWhile isdigit).length)
  | _ => (false, s1.takeWhile isdigit, ws.length + (s1.takeWhile isdigit).length)

/-- The C `strtol(s, NULL, 10)`: the value of the longest numeric head of `s`
(0 when there is none), clamped to the range of `long`. -/
def strtol (cfg : Config) (s : Str) : Int :=
  let r := scan_number s
  let v : Int := if r.1 = true then - (decimal r.2.1 : Int) else (decimal r.2.1 : Int)
  if v > cfg.LONG_MAX then cfg.LONG_MAX
  else if v < - cfg.LONG_MAX - 1 then - cfg.LONG_MAX - 1
  else v

/-- The C `strtoul(s, NULL, 10)`: the magnitude is clamped to `ULONG_MAX`, and a
leading minus sign negates the result in `unsigned long` arithmetic. -/
def strtoul (cfg : Config) (s : Str) : Int :=
  let r := scan_number s
  let m : Int := decimal r.2.1
  let ulong_max : Int := 2 * cfg.LONG_MAX + 1
  if m > ulong_max then ulong_max
  else if r.1 = true then (- m) % (ulong_max + 1)
  else m

/-- The conversion `%d` of `sscanf` at the head of `s`: the `int` read and the
number of characters consumed, or `none` when no digit follows the optional
sign. -/
def scan_d (s : Str) : Option (Int × Nat) :=
  let r := scan_number s
  if r.2.1 = [] then none
  else some (toInt32 (if r.1 = true then - (decimal r.2.1 : Int) else (decimal r.2.1 : Int)), r.2.2)

/-- A scanset conversion `%w[...]` of `sscanf`: the longest head of at most `w`
characters that all satisfy `p`, and the rest of the input.  The conversion
fails when the head is empty. -/
def scan_set (p : Char → Bool) : Nat → Str → Str × Str
  | 0, s => ([], s)
  | _ + 1, [] => ([], [])
  | w + 1, c :: cs =>
    if p c then ((scan_set p w cs).1.cons c, (scan_set p w cs).2) else ([], c :: cs)

/-- Modelled from the spec: `safestrncpy(dst, src, n)` of `common/strlib.c`,
which is not among the sources; it copies at most `n - 1` characters of `src`
and terminates the copy (the spec bounds every string attribute by its field
size). -/
def safestrncpy (src : Str) (n : Nat) : Str :=
  src.take (n - 1)

/-- Decimal digits of `n`, most significant first, in front of `acc`. -/
def utoa : Nat → Nat → Str → Str
  | 0, _, acc => acc
  | fuel + 1, n, acc =>
    if n < 10 then Char.ofNat (48 + n) :: acc
    else utoa fuel (n / 10) (Char.ofNat (48 + n % 10) :: acc)

/-- The conversion `%u` of `sprintf`. -/
def fmt_u (n : Nat) : Str :=
  utoa (n + 1) n []

/-- The conversions `%d` and `%ld` of `sprintf`. -/
def fmt_d (n : Int) : Str :=
  if n < 0 then '-' :: fmt_u n.natAbs else fmt_u n.toNat

/-- Modelled from the spec: `sv_split(str, strlen(str), 0, delim, fields, 32,
SV_NOESCAPE_NOTERMINATE)` of `common/strlib.c`, which is not among the
sources: "the line is split into tab-separated fields".  The result lists
`fields[1]`, `fields[2]`, ...; its length is the returned count.  No escape
sequence and no line terminator is interpreted, so a trailing newline stays
in the last field. -/
def sv_split (delim : Char) : Str → List Str
  | [] => [[]]
  | c :: cs =>
    if c = delim then [] :: sv_split delim cs
    else
      match sv_split delim cs with
      | [] => [[c]]
      | f :: fs => (c :: f) :: fs

/-! ## Account records -/

/-- One dynamic registry entry (`struct global_reg`): key and value. -/
structure global_reg where
  str : Str
  value : Str
deriving DecidableEq

/-- The account record `struct mmo_account`.  `account_reg2` lists the first
`account_reg2_num` slots of the C array. -/
structure mmo_account where
  account_id : Int
  userid : Str
  pass : Str
  sex : Char
  email : Str
  level : Nat
  state : Nat
  unban_time : Int
  expiration_time : Int
  logincount : Int
  lastlogin : Str
  last_ip : Str
  account_reg2 : List global_reg
deriving DecidableEq

/-- The record after `memset(acc, 0, sizeof(struct mmo_account))`, which is
also what `CREATE` (a zeroing allocation) hands out. -/
def mmo_account.zero : mmo_account where
  account_id := 0
  userid := []
  pass := []
  sex := '\x00'
  email := []
  level := 0
  state := 0
  unban_time := 0
  expiration_time := 0
  logincount := 0
  lastlogin := []
  last_ip := []
  account_reg2 := []

/-! ## The versioned record codec (`mmo_auth_fromstr`, `mmo_auth_tostr`) -/

/-- Line 398: `sscanf(regs, "%31[^\t,],%255[^\t ] %n", key, value, &n)`.
The result is `some (key, value, n)` exactly when the call returns 2. -/
def sscanf_reg (regs : Str) : Option (Str × Str × Nat) :=
  match scan_set (fun c => c != '\t' && c != ',') 31 regs with
  | ([], _) => none
  | (key, ',' :: r1) =>
    match scan_set (fun c => c != '\t' && c != ' ') 255 r1 with
    | ([], _) => none
    | (value, r2) => some (key, value, regs.length - (r2.dropWhile isspace).length)
  | _ => none

/-- The outcome of the call of `sscanf` at line 402. -/
inductive void_scan where
  /-- The call does not return 1: the text does not begin with a comma, or no
  character of a value follows the comma. -/
  | no_match
  /-- The call returns 1: the value that it stores, and the count that `%n`
  stores. -/
  | stored (value : Str) (n : Nat)
  /-- The conversion matches more than 255 characters: with their terminator
  they do not fit `char value[256]`, and the call writes beyond the array,
  which the C language leaves undefined. -/
  | overflow
deriving DecidableEq

/-- Line 402: `sscanf(regs, ",%[^\t ] %n", value, &n)`.  The conversion has no
width: it matches every character up to the next tab or space and stores them
all, so that a match of more than 255 characters overflows `value`. -/
def sscanf_void (regs : Str) : void_scan :=
  match regs with
  | ',' :: r1 =>
    match scan_set (fun c => c != '\t' && c != ' ') r1.length r1 with
    | ([], _) => .no_match
    | (value, r2) =>
      if value.length ≤ 255 then .stored value (regs.length - (r2.dropWhile isspace).length)
      else .overflow
  | _ => .no_match

/-- The outcome of a run of the registry loop of lines 390-412. -/
inductive loop_run where
  /-- The bound on the number of iterations is reached before the loop
  exits. -/
  | unfinished
  /-- An iteration writes beyond `value` at line 402: from there on the
  behaviour of the function is undefined, and the run has no result. -/
  | overflow
  /-- The loop exits, with these entries in the slots `0 .. i-1`. -/
  | exit (slots : List global_reg)
deriving DecidableEq

/-- Lines 390-412, the loop that extracts the registry entries.  `i` is the
loop index, `regs` the text at `regs + n`, `acc` the slots `0 .. i-1` filled so
far.  The first argument bounds the number of iterations. -/
def regs_loop (cfg : Config) : Nat → Nat → Str → List global_reg → loop_run
  | 0, _, _, _ => .unfinished
  | fuel + 1, i, regs, acc =>
    if i < cfg.ACCOUNT_REG2_NUM then
      match sscanf_reg regs with
      | some (key, value, n) =>
        regs_loop cfg fuel (i + 1) (regs.drop n)
          (acc ++ [⟨safestrncpy key 32, safestrncpy value 256⟩])
      | none =>
        if regs.head? = some ',' then
          match sscanf_void regs with
          | .stored _ n => regs_loop cfg fuel i (regs.drop n) acc
          | .overflow => .overflow
          | .no_match => .exit acc
        else .exit acc
    else .exit acc

/-- The registry entries read from the text `regs` (lines 388-412).  Every
iteration that does not leave the loop consumes at least two characters, so
`regs.length + 1` iterations are enough.  On a text on which the loop writes
beyond `value` the C function has no defined result; the embedding gives the
record no entry there, and what is stated about such a text is stated on
`regs_loop`. -/
def parse_regs (cfg : Config) (regs : Str) : List global_reg :=
  match regs_loop cfg (regs.length + 1) 0 regs [] with
  | .exit out => out
  | _ => []

/-- Lines 306-415: parse a line into a newly allocated account record, `none`
standing for the NULL that is returned for an unmatched row.  The registry of
the record is the result of the loop of lines 390-412 where the loop has one
(see `parse_regs`). -/
def mmo_auth_fromstr (cfg : Config) (str : Str) (version : Nat) : Option mmo_account :=
  match version, sv_split '\t' str with
  | 20080409, [f1, f2, f3, f4, f5, f6, f7, f8, f9, f10, f11, f12, f13] =>
    some {
      account_id := toInt32 (strtol cfg f1)
      userid := safestrncpy f2 cfg.userid_size
      pass := safestrncpy f3 cfg.pass_size
      sex := f4.headD '\x00'
      email := safestrncpy f5 cfg.email_size
      level := toUInt32 (strtoul cfg f6)
      state := toUInt32 (strtoul cfg f7)
      unban_time := strtol cfg f8
      expiration_time := strtol cfg f9
      logincount := toInt32 (strtol cfg f10)
      lastlogin := safestrncpy f11 cfg.lastlogin_size
      last_ip := safestrncpy f12 cfg.last_ip_size
      account_reg2 := parse_regs cfg f13 }
  | 0, [f1, f2, f3, f4, f5, f6, f7, f8, _, f10, f11, _, f13, f14] =>
    some { mmo_account.zero with
      account_id := toInt32 (strtol cfg f1)
      userid := safestrncpy f2 cfg.userid_size
      pass := safestrncpy f3 cfg.pass_size
      lastlogin := safestrncpy f4 cfg.lastlogin_size
      sex := f5.headD '\x00'
      logincount := toInt32 (strtol cfg f6)
      state := toUInt32 (strtoul cfg f7)
      email := safestrncpy f8 cfg.email_size
      expiration_time := strtol cfg f10
      last_ip := safestrncpy f11 cfg.last_ip_size
      unban_time := strtol cfg f13
      account_reg2 := parse_regs cfg f14 }
  | 0, [f1, f2, f3, f4, f5, f6, f7, f8, _, f10, f11, _, f13] =>
    some { mmo_account.zero with
      account_id := toInt32 (strtol cfg f1)
      userid := safestrncpy f2 cfg.userid_size
      pass := safestrncpy f3 cfg.pass_size
      lastlogin := safestrncpy f4 cfg.lastlogin_size
      sex := f5.headD '\x00'
      logincount := toInt32 (strtol cfg f6)
      state := toUInt32 (strtoul cfg f7)
      email := safestrncpy f8 cfg.email_size
      expiration_time := strtol cfg f10
      last_ip := safestrncpy f11 cfg.last_ip_size
      account_reg2 := parse_regs cfg f13 }
  | 0, [f1, f2, f3, f4, f5, f6, f7, f8] =>
    some { mmo_account.zero with
      account_id := toInt32 (strtol cfg f1)
      userid := safestrncpy f2 cfg.userid_size
      pass := safestrncpy f3 cfg.pass_size
      lastlogin := safestrncpy f4 cfg.lastlogin_size
      sex := f5.headD '\x00'
      logincount := toInt32 (strtol cfg f6)
      state := toUInt32 (strtoul cfg f7)
      account_reg2 := parse_regs cfg f8 }
  | _, _ => none

/-- Lines 428-430: the text of the registry entries, `key,value ` for every
slot whose key is not empty. -/
def regs_tostr : List global_reg → Str
  | [] => []
  | r :: rs => if r.str ≠ [] then r.str ++ ',' :: r.value ++ ' ' :: regs_tostr rs else regs_tostr rs

/-- Lines 418-431: dump the account into a string buffer.  The result is the
buffer read as a C string: a NUL written by `%c` for `sex` ends it. -/
def mmo_auth_tostr (a : mmo_account) : Str :=
  fmt_d a.account_id ++ '\t' :: a.userid ++ '\t' :: a.pass ++ '\t' ::
    (if a.sex = '\x00' then []
     else
      a.sex :: '\t' :: a.email ++ '\t' :: fmt_u a.level ++ '\t' :: fmt_u a.state ++ '\t' ::
        fmt_d a.unban_time ++ '\t' :: fmt_d a.expiration_time ++ '\t' ::
        fmt_d a.logincount ++ '\t' :: a.lastlogin ++ '\t' :: a.last_ip ++ '\t' ::
        regs_tostr a.account_reg2)

/-! ## The cached-file backend (`AccountDB_TXT`) -/

/-- Modelled from the spec: the in-memory mapping from account id to account
record ("an in-memory keyed collection of entities"); the `DBMap` of
`common/db.h` is not among the sources.  The list holds the entries in the
order in which the iterator of the map visits them. -/
abbrev DBMap := List (Int × mmo_account)

/-- Modelled from the spec: `idb_get`, the record stored under `key`, if any
("direct lookup (by id)"). -/
def idb_get (m : DBMap) (key : Int) : Option mmo_account :=
  match m with
  | [] => none
  | e :: es => if e.1 = key then some e.2 else idb_get es key

/-- Modelled from the spec: `idb_put`, which stores `data` under `key`,
replacing the record of an entry that already has this key. -/
def idb_put (m : DBMap) (key : Int) (data : mmo_account) : DBMap :=
  match m with
  | [] => [(key, data)]
  | e :: es => if e.1 = key then (key, data) :: es else e :: idb_put es key data

/-- The map without the entries stored under `key`. -/
def idb_erase (m : DBMap) (key : Int) : DBMap :=
  match m with
  | [] => []
  | e :: es => if e.1 = key then idb_erase es key else e :: idb_erase es key

/-- Modelled from the spec: `idb_remove`, which deletes the entry stored under
`key` and returns its record ("deletes the in-memory entry; fails if
absent"). -/
def idb_remove (m : DBMap) (key : Int) : Option mmo_account × DBMap :=
  (idb_get m key, idb_erase m key)

/-- The internal structure `AccountDB_TXT` (lines 19-27), without the interface
table and the timer id, which belong to the host service. -/
structure AccountDB_TXT where
  accounts : DBMap
  next_account_id : Int
  auths_before_save : Int

/-- Modelled from the spec: the file system as the backend sees it, with
`lock_fopen` and `lock_fclose` of `common/lock.h`, which are not among the
sources ("open for exclusive write, then atomically publish on close").  The
fields are the content of the file `account_txt` (`none` when the file does not
exist), the outcome of the successive calls of `lock_fopen`, and the number of
calls of `mmo_auth_sync` made so far. -/
structure Disk where
  account_txt : Option Str
  lock_fopen_ok : Nat → Bool
  syncs : Nat

/-- The byte `s[i]` of a C string: the terminating NUL at its end. -/
def char_at (s : Str) (i : Nat) : Char :=
  s.getD i '\x00'

/-- Lines 447-460: the version line and the comment lines written at the head
of the file. -/
def sync_header : Str :=
  fmt_d 20080409 ++ '\n' :: (String.join [
    "// Accounts file: here are saved all information about the accounts.\n",
    "// Structure: ID, account name, password, last login time, sex, # of logins, state, email, error message for state 7, validity time, last (accepted) login ip, memo field, ban timestamp, repeated(register text, register value)\n",
    "// Some explanations:\n",
    "//   account name    : between 4 to 23 char for a normal account (standard client can't send less than 4 char).\n",
    "//   account password: between 4 to 23 char\n",
    "//   sex             : M or F for normal accounts, S for server accounts\n",
    "//   state           : 0: account is ok, 1 to 256: error code of packet 0x006a + 1\n",
    "//   email           : between 3 to 39 char (a@a.com is like no email)\n",
    "//   error message   : text for the state 7: 'Your are Prohibited to login until <text>'. Max 19 char\n",
    "//   valitidy time   : 0: unlimited account, <other value>: date calculated by addition of 1/1/1970 + value (number of seconds since the 1/1/1970)\n",
    "//   memo field      : max 254 char\n",
    "//   ban time        : 0: no ban, <other value>: banned until the date: date calculated by addition of 1/1/1970 + value (number of seconds since the 1/1/1970)\n"
  ]).toList

/-- Lines 464-470: one line per record, in the order of the iterator.  The
buffer `buf` of 2048 bytes is taken to hold the text of every record ("ought to
be big enough", line 467); a text that does not fit is outside the
embedding. -/
def sync_records : DBMap → Str
  | [] => []
  | e :: es => mmo_auth_tostr e.2 ++ '\n' :: sync_records es

/-- Lines 447-471: the text that a flush writes. -/
def sync_text (db : AccountDB_TXT) : Str :=
  sync_header ++ sync_records db.accounts ++ fmt_d db.next_account_id ++ "\t%newid%\n".toList

/-- Lines 434-478: dump the entire account db to disk.  When `lock_fopen`
fails nothing is written and the save counter is not reset. -/
def mmo_auth_sync (db : AccountDB_TXT) (disk : Disk) : AccountDB_TXT × Disk :=
  if disk.lock_fopen_ok disk.syncs then
    ({ db with auths_before_save := AUTHS_BEFORE_SAVE },
     { disk with account_txt := some (sync_text db), syncs := disk.syncs + 1 })
  else
    (db, { disk with syncs := disk.syncs + 1 })

/-- Lines 480-488: the periodic callback. -/
def mmo_auth_sync_timer (db : AccountDB_TXT) (disk : Disk) : AccountDB_TXT × Disk :=
  if db.auths_before_save < AUTHS_BEFORE_SAVE then mmo_auth_sync db disk else (db, disk)

/-- Line 89: `fgets(line, sizeof(line), fp)` with a buffer of `n + 1` bytes:
the line read (at most `n` characters, ending after the first newline) and
the rest of the stream. -/
def fgets : Nat → Str → Str × Str
  | 0, s => ([], s)
  | _ + 1, [] => ([], [])
  | n + 1, c :: cs =>
    if c = '\n' then ([c], cs) else ((fgets n cs).1.cons c, (fgets n cs).2)

/-- The successive results of `fgets(line, 2048, fp)` until it returns NULL at
the end of the stream.  Every call consumes a character, so `content.length`
calls exhaust the stream; the first argument bounds their number. -/
def file_lines : Nat → Str → List Str
  | 0, _ => []
  | _ + 1, [] => []
  | fuel + 1, c :: cs => (fgets 2047 (c :: cs)).1 :: file_lines fuel (fgets 2047 (c :: cs)).2

/-- Line 104: `sscanf(line, "%d\t%%newid%%%n", &account_id, &n)`.  The result
is `some (account_id, n)` exactly when the call returns 1; `n` is the count
stored by `%n` when the whole format matched, and `none` when matching stopped
before `%n`, in which case the variable `n` keeps its former value.  White
space in the input is skipped before each `%%`, as before every conversion
other than `%[`, `%c` and `%n`. -/
def sscanf_newid (line : Str) : Option (Int × Option Nat) :=
  match scan_d line with
  | none => none
  | some (account_id, k) =>
    match (line.drop k).dropWhile isspace with
    | '%' :: 'n' :: 'e' :: 'w' :: 'i' :: 'd' :: r =>
      match r.dropWhile isspace with
      | '%' :: r2 => some (account_id, some (line.length - r2.length))
      | _ => some (account_id, none)
    | _ => some (account_id, none)

/-- Lines 110-149: the end of the body of the loading loop, from the call of
the codec on.  The state is the backend and the declared format version.  The
sum of line 149 is an `int`, taken in 32-bit two-complement arithmetic like the
increment of `account_db_txt_create`. -/
def init_record (cfg : Config) (st : AccountDB_TXT × Nat) (line : Str) : AccountDB_TXT × Nat :=
  match mmo_auth_fromstr cfg line st.2 with
  | none => st
  | some acc =>
    if (idb_get st.1.accounts acc.account_id).isSome then st
    else
      let db := { st.1 with accounts := idb_put st.1.accounts acc.account_id acc }
      if db.next_account_id < acc.account_id then
        ({ db with next_account_id := toInt32 (acc.account_id + 1) }, st.2)
      else (db, st.2)

/-- Lines 91-149: the body of the loading loop, run on one line.  Both calls
of `sscanf` begin with `%d`: when the first one converts nothing, so does the
second, and neither test holds. -/
def init_line (cfg : Config) (st : AccountDB_TXT × Nat) (line : Str) : AccountDB_TXT × Nat :=
  if char_at line 0 = '/' && char_at line 1 = '/' then st
  else
    match scan_d line with
    | some (v, n) =>
      if char_at line n = '\n' then (st.1, toUInt32 v)
      else
        match sscanf_newid line with
        | some (account_id, n2) =>
          if char_at line (n2.getD n) = '\n' && account_id > st.1.next_account_id then
            ({ st.1 with next_account_id := account_id }, st.2)
          else init_record cfg st line
        | none => init_record cfg st line
    | none => init_record cfg st line

/-- The test of line 95: the line begins with the comment marker. -/
def is_comment_line (line : Str) : Bool :=
  char_at line 0 = '/' && char_at line 1 = '/'

/-- The test of line 98: the line is a format version definition. -/
def is_version_line (line : Str) : Bool :=
  match scan_d line with
  | some (_, n) => char_at line n = '\n'
  | none => false

/-- The test of line 104, made when the tests of lines 95 and 98 failed: the
line is a next-id marker whose id exceeds the counter `next`. -/
def is_newid_line (next : Int) (line : Str) : Bool :=
  match scan_d line, sscanf_newid line with
  | some (_, n), some (account_id, n2) => char_at line (n2.getD n) = '\n' && account_id > next
  | _, _ => false

/-- Lines 72-77: the backend as `account_db_txt_init` sets it up before it
opens the file. -/
def init_state (cfg : Config) : AccountDB_TXT where
  accounts := []
  next_account_id := cfg.START_ACCOUNT_NUM
  auths_before_save := AUTHS_BEFORE_SAVE

/-- Lines 89-150: the loading loop over the lines of the file. -/
def init_lines (cfg : Config) (st : AccountDB_TXT × Nat) (lines : List Str) : AccountDB_TXT × Nat :=
  lines.foldl (init_line cfg) st

/-- Lines 64-160: open the accounts file and load it.  The registration of the
periodic callback with the timer subsystem is not modelled. -/
def account_db_txt_init (cfg : Config) (disk : Disk) : Bool × AccountDB_TXT :=
  match disk.account_txt with
  | none => (false, init_state cfg)
  | some content =>
    (true, (init_lines cfg (init_state cfg, 0) (file_lines content.length content)).1)

/-- Lines 185-210: add a new entry for this account and flush.  The counter is
an `int`: the increment of line 204 is taken in 32-bit two-complement
arithmetic, in which 2147483647 is followed by -2147483648 (the C standard
leaves this overflow undefined; the builds of the server wrap). -/
def account_db_txt_create (db : AccountDB_TXT) (disk : Disk) (acc : mmo_account) :
    Bool × AccountDB_TXT × Disk :=
  let account_id := db.next_account_id
  if (idb_get db.accounts account_id).isSome then (false, db, disk)
  else
    let db1 := { db with accounts := idb_put db.accounts account_id acc }
    let db2 := { db1 with next_account_id := toInt32 (db1.next_account_id + 1) }
    (true, mmo_auth_sync db2 disk)

/-- Lines 213-229: find the entry of this account id and delete it. -/
def account_db_txt_remove (db : AccountDB_TXT) (disk : Disk) (account_id : Int) :
    Bool × AccountDB_TXT × Disk :=
  match idb_remove db.accounts account_id with
  | (none, _) => (false, db, disk)
  | (some _, accounts) => (true, mmo_auth_sync { db with accounts := accounts } disk)

/-- Lines 232-253: overwrite the stored record with the one provided.  The
`memcpy` through the pointer that `idb_get` returned replaces the record of
the entry in place. -/
def account_db_txt_save (db : AccountDB_TXT) (disk : Disk) (acc : mmo_account) :
    Bool × AccountDB_TXT × Disk :=
  let account_id := acc.account_id
  match idb_get db.accounts account_id with
  | none => (false, db, disk)
  | some _ =>
    let db1 := { db with accounts := idb_put db.accounts account_id acc }
    let db2 := { db1 with auths_before_save := db1.auths_before_save - 1 }
    if db2.auths_before_save = 0 then (true, mmo_auth_sync db2 disk) else (true, db2, disk)

/-- Lines 256-273: copy the record stored under `account_id` into the buffer of
the caller, which is zeroed when there is none. -/
def account_db_txt_load_num (db : AccountDB_TXT) (account_id : Int) : Bool × mmo_account :=
  match idb_get db.accounts account_id with
  | none => (false, mmo_account.zero)
  | some tmp => (true, tmp)

/-- Lines 282-289: the record at which the scan of the iterator stops, the
first one whose `userid` compares equal to the name. -/
def find_userid (userid : Str) : DBMap → Option mmo_account
  | [] => none
  | e :: es => if userid = e.2.userid then some e.2 else find_userid userid es

/-- Lines 276-302: look an account up by name. -/
def account_db_txt_load_str (db : AccountDB_TXT) (userid : Str) : Bool × mmo_account :=
  match find_userid userid db.accounts with
  | none => (false, mmo_account.zero)
  | some tmp => (true, tmp)

/-! ## The relational backend (`PartyDB_SQL`) -/

/-- One slot of `party.member`: the fields the backend reads and writes. -/
structure party_member where
  account_id : Int
  char_id : Int
  leader : Int
deriving DecidableEq

/-- The record `struct party`: the fields the backend reads and writes. -/
structure party where
  party_id : Int
  name : Str
  exp : Int
  item : Int
  member : List party_member
deriving DecidableEq

/-- Modelled from the spec: the update kinds of `enum party_save_flags`
(`partydb.h` is not among the sources), "bitmask, any subset may be combined in
one call": one bit per kind. -/
def PS_CREATE : Nat := 1

/-- Modelled from the spec: the update kind *basic* (see `PS_CREATE`). -/
def PS_BASIC : Nat := 2

/-- Modelled from the spec: the update kind *leader* (see `PS_CREATE`). -/
def PS_LEADER : Nat := 4

/-- Modelled from the spec: the update kind *add-member* (see `PS_CREATE`). -/
def PS_ADDMEMBER : Nat := 8

/-- Modelled from the spec: the update kind *remove-member* (see `PS_CREATE`). -/
def PS_DELMEMBER : Nat := 16

/-- The statements that the backend sends to the relational store, with the
values that it formats or binds into them.  The table names are configuration
and are left out; a name stands for its escaped form (`Sql_EscapeStringLen`
is part of the client library). -/
inductive Stmt where
  | start_transaction
  | commit
  | rollback
  | insert_party (party_id : Option Int) (name : Str) (exp item : Int)
      (leader_id leader_char : Int)
  | update_info (name : Str) (exp item party_id : Int)
  | update_leader (leader_id leader_char party_id : Int)
  | add_member (party_id account_id char_id : Int)
  | del_member (party_id account_id char_id : Int)
  | clear_members (party_id : Int)
  | delete_party (party_id : Int)
deriving DecidableEq

/-- Modelled from the spec: the connection handle `Sql*` of the relational
client library (`common/sql.h`, not among the sources), which the backend
consumes only as "execute statement / bind parameter / fetch row".  `ok n`
tells whether the statement issued at position `n` succeeds, `insert_id` is
what `SqlStmt_LastInsertId` reports, `log` lists the statements issued so far
with their outcome, oldest first. -/
structure Sql where
  ok : Nat → Bool
  insert_id : Int
  log : List (Stmt × Bool)

/-- Modelled from the spec: one statement sent through the handle
(`Sql_QueryStr`, `Sql_Query`, or the chain prepare, bind, execute of a prepared
statement, all of `common/sql.h`): its outcome and the handle afterwards. -/
def Sql_Query (h : Sql) (s : Stmt) : Bool × Sql :=
  (h.ok h.log.length, { h with log := h.log ++ [(s, h.ok h.log.length)] })

/-- The slot `p->member[index]`. -/
def party.member_at (p : party) (index : Nat) : party_member :=
  p.member.getD index ⟨0, 0, 0⟩

/-- Lines 108-134: the block `if( flag & PS_CREATE )`.  The first component is
`false` when the block leaves the `do ... while(0)` through `break`. -/
def tosql_create (h : Sql) (p : party) (flag index : Nat) : Bool × Sql × party :=
  if flag &&& PS_CREATE ≠ 0 then
    let r := Sql_Query h (.insert_party (if p.party_id ≠ -1 then some p.party_id else none)
      p.name (p.exp % 256) (p.item % 256) (p.member_at index).account_id (p.member_at index).char_id)
    if r.1 = false then (false, r.2, p)
    else if p.party_id = -1 then (true, r.2, { p with party_id := h.insert_id })
    else if p.party_id ≠ h.insert_id then (false, r.2, p)
    else (true, r.2, p)
  else (true, h, p)

/-- Lines 136-147: the block `if( flag & PS_BASIC )`. -/
def tosql_basic (cfg : Config) (h : Sql) (p : party) (flag : Nat) : Bool × Sql :=
  if flag &&& PS_BASIC ≠ 0 then
    Sql_Query h (.update_info (p.name.take cfg.NAME_LENGTH) p.exp p.item p.party_id)
  else (true, h)

/-- Lines 149-157: the block `if( flag & PS_LEADER )`. -/
def tosql_leader (h : Sql) (p : party) (flag index : Nat) : Bool × Sql :=
  if flag &&& PS_LEADER ≠ 0 then
    Sql_Query h (.update_leader (p.member_at index).account_id (p.member_at index).char_id p.party_id)
  else (true, h)

/-- Lines 159-167: the block `if( flag & PS_ADDMEMBER )`. -/
def tosql_addmember (h : Sql) (p : party) (flag index : Nat) : Bool × Sql :=
  if flag &&& PS_ADDMEMBER ≠ 0 then
    Sql_Query h (.add_member p.party_id (p.member_at index).account_id (p.member_at index).char_id)
  else (true, h)

/-- Lines 169-177: the block `if( flag & PS_DELMEMBER )`. -/
def tosql_delmember (h : Sql) (p : party) (flag index : Nat) : Bool × Sql :=
  if flag &&& PS_DELMEMBER ≠ 0 then
    Sql_Query h (.del_member p.party_id (p.member_at index).account_id (p.member_at index).char_id)
  else (true, h)

/-- Lines 105-182: the block `do ... while(0)`; the first component is the
value of `result` after it. -/
def tosql_try (cfg : Config) (h : Sql) (p : party) (flag index : Nat) : Bool × Sql × party :=
  let c := tosql_create h p flag index
  if c.1 = false then (false, c.2.1, c.2.2)
  else
    let b := tosql_basic cfg c.2.1 c.2.2 flag
    if b.1 = false then (false, b.2, c.2.2)
    else
      let l := tosql_leader b.2 c.2.2 flag index
      if l.1 = false then (false, l.2, c.2.2)
      else
        let a := tosql_addmember l.2 c.2.2 flag index
        if a.1 = false then (false, a.2, c.2.2)
        else
          let d := tosql_delmember a.2 c.2.2 flag index
          if d.1 = false then (false, d.2, c.2.2)
          else (true, d.2, c.2.2)

/-- Lines 89-194: write the selected parts of a party inside one transaction.
The result is the returned boolean, the handle and the party afterwards. -/
def mmo_party_tosql (cfg : Config) (h : Sql) (p : party) (flag index : Nat) :
    Bool × Sql × party :=
  if p.party_id = 0 then (false, h, p)
  else
    let s := Sql_Query h .start_transaction
    if s.1 = false then (false, s.2, p)
    else
      let t := tosql_try cfg s.2 p flag index
      let e := Sql_Query t.2.1 (if t.1 = true then .commit else .rollback)
      (if e.1 = false then false else t.1, e.2, t.2.2)

/-- Lines 216-220. -/
def party_db_sql_create (cfg : Config) (h : Sql) (p : party) : Bool × Sql × party :=
  mmo_party_tosql cfg h p (PS_CREATE ||| PS_ADDMEMBER) 0

/-- Lines 261-265. -/
def party_db_sql_save (cfg : Config) (h : Sql) (p : party) (flag index : Nat) :
    Bool × Sql × party :=
  mmo_party_tosql cfg h p flag index

/-- Lines 238-246: the block `do ... while(0)` of `party_db_sql_remove`. -/
def remove_try (h : Sql) (party_id : Int) : Bool × Sql :=
  let c := Sql_Query h (.clear_members party_id)
  if c.1 = false then (false, c.2)
  else
    let d := Sql_Query c.2 (.delete_party party_id)
    if d.1 = false then (false, d.2) else (true, d.2)

/-- Lines 222-259: detach the members and delete the party row inside one
transaction. -/
def party_db_sql_remove (h : Sql) (party_id : Int) : Bool × Sql :=
  let s := Sql_Query h .start_transaction
  if s.1 = false then (false, s.2)
  else
    let t := remove_try s.2 party_id
    let e := Sql_Query t.2 (if t.1 = true then .commit else .rollback)
    (if e.1 = false then false else t.1, e.2)

/-! ### The relational store -/

/-- Modelled from the spec: a row of the party table, "(id, name, flags, leader
account id, leader character id)". -/
structure party_row where
  party_id : Int
  name : Str
  exp : Int
  item : Int
  leader_id : Int
  leader_char : Int
deriving DecidableEq

/-- Modelled from the spec: a row of the character table, which "stores, per
character row, the party id it currently belongs to — 0 means none". -/
structure char_row where
  account_id : Int
  char_id : Int
  party_id : Int
deriving DecidableEq

/-- The rows of the two tables. -/
structure Tables where
  parties : List party_row
  chars : List char_row
deriving DecidableEq

/-- Modelled from the spec: the effect of a successful write on the rows of
the relational store, which is external to the sources; `insert_id` is the id
that the store generates for a row inserted without one. -/
def Tables.write (insert_id : Int) (t : Tables) : Stmt → Tables
  | .insert_party id name exp item leader_id leader_char =>
    { t with parties := t.parties ++ [⟨id.getD insert_id, name, exp, item, leader_id, leader_char⟩] }
  | .update_info name exp item party_id =>
    { t with parties := t.parties.map (fun r =>
        if r.party_id = party_id then { r with name := name, exp := exp, item := item } else r) }
  | .update_leader leader_id leader_char party_id =>
    { t with parties := t.parties.map (fun r =>
        if r.party_id = party_id then { r with leader_id := leader_id, leader_char := leader_char }
        else r) }
  | .add_member party_id account_id char_id =>
    { t with chars := t.chars.map (fun c =>
        if c.account_id = account_id ∧ c.char_id = char_id then { c with party_id := party_id }
        else c) }
  | .del_member party_id account_id char_id =>
    { t with chars := t.chars.map (fun c =>
        if c.party_id = party_id ∧ c.account_id = account_id ∧ c.char_id = char_id then
          { c with party_id := 0 }
        else c) }
  | .clear_members party_id =>
    { t with chars := t.chars.map (fun c =>
        if c.party_id = party_id then { c with party_id := 0 } else c) }
  | .delete_party party_id =>
    { t with parties := t.parties.filter (fun r => r.party_id ≠ party_id) }
  | _ => t

/-- Modelled from the spec: a store that honours transactions ("either every
constituent statement is visible or none are"): the persisted rows, and the
rows as the open transaction sees them, if one is open. -/
structure Store where
  durable : Tables
  txn : Option Tables
deriving DecidableEq

/-- Modelled from the spec: the effect of one logged statement on the store.
A failed statement has no effect.  `START TRANSACTION` first commits a
transaction that is still open; a write outside a transaction is persisted at
once. -/
def Store.step (insert_id : Int) (st : Store) (e : Stmt × Bool) : Store :=
  if e.2 = false then st
  else
    match e.1 with
    | .start_transaction => ⟨st.txn.getD st.durable, some (st.txn.getD st.durable)⟩
    | .commit => ⟨st.txn.getD st.durable, none⟩
    | .rollback => ⟨st.durable, none⟩
    | w =>
      match st.txn with
      | some t => ⟨st.durable, some (t.write insert_id w)⟩
      | none => ⟨st.durable.write insert_id w, none⟩

/-- The store after a sequence of logged statements. -/
def Store.run (insert_id : Int) (st : Store) (es : List (Stmt × Bool)) : Store :=
  es.foldl (Store.step insert_id) st

/-! ### Reading from the relational store -/

/-- The C `atoi`, which converts as `(int)strtol(s, NULL, 10)` does. -/
def atoi (cfg : Config) (s : Str) : Int :=
  toInt32 (strtol cfg s)

/-- Modelled from the spec: the outcome of a `SELECT` sent through `Sql_Query`
of `common/sql.h`, which is not among the sources ("execute statement / fetch
row"): `none` for `SQL_ERROR`, otherwise the rows of the result, each row
listing the text of its columns as `Sql_GetData` hands it out. -/
abbrev ResultSet := Option (List (List Str))

/-- Column `i` of a row (`Sql_GetData(sql_handle, i, &data, NULL)`). -/
def Sql_GetData (row : List Str) (i : Nat) : Str :=
  row.getD i []

/-- The party after `memset(p, 0, sizeof(*p))`: every slot of the member
array is zero. -/
def party.zero (cfg : Config) : party where
  party_id := 0
  name := []
  exp := 0
  item := 0
  member := List.replicate cfg.MAX_PARTY ⟨0, 0, 0⟩

/-- Lines 75-81: the loop over the rows of the member query.  The first
numeric argument is the number of slots still free, `MAX_PARTY - i`; the result
lists the slots that the loop fills. -/
def fromsql_members (cfg : Config) (leader_id leader_char : Int) :
    Nat → List (List Str) → List party_member
  | 0, _ => []
  | _ + 1, [] => []
  | n + 1, row :: rows =>
    { account_id := atoi cfg (Sql_GetData row 0)
      char_id := atoi cfg (Sql_GetData row 1)
      leader :=
        if atoi cfg (Sql_GetData row 0) = leader_id ∧ atoi cfg (Sql_GetData row 1) = leader_char
        then 1 else 0 } :: fromsql_members cfg leader_id leader_char n rows

/-- Lines 33-86: load a party.  `q1` is the outcome of the query for the party
row, `q2` the outcome of the query for the members; the result is the returned
boolean and the record `*p` after the call.  The fields `exp` and `item` hold
the value of `atoi`; their narrowing to the width that `mmo.h` declares for
them is not modelled, the header not being among the sources. -/
def mmo_party_fromsql (cfg : Config) (q1 q2 : ResultSet) : Bool × party :=
  match q1 with
  | none => (false, party.zero cfg)
  | some [] => (false, party.zero cfg)
  | some (row :: _) =>
    let p : party :=
      { party.zero cfg with
        party_id := atoi cfg (Sql_GetData row 0)
        name := safestrncpy (Sql_GetData row 1) cfg.party_name_size
        exp := atoi cfg (Sql_GetData row 2)
        item := atoi cfg (Sql_GetData row 3) }
    match q2 with
    | none => (false, p)
    | some rows =>
      (true,
       { p with
         member :=
           fromsql_members cfg (atoi cfg (Sql_GetData row 4)) (atoi cfg (Sql_GetData row 5))
             cfg.MAX_PARTY rows ++
           (p.member.drop
             (fromsql_members cfg (atoi cfg (Sql_GetData row 4)) (atoi cfg (Sql_GetData row 5))
               cfg.MAX_PARTY rows).length) })

/-- Lines 277-313: resolve a party name to an id.  `q` is the outcome of the
query of line 287 and `party_id` the cell that the pointer `party_id` refers
to (`none` for a NULL pointer).  The result is the returned boolean, the cell
after the call, and the number of messages written with `ShowError`. -/
def party_db_sql_name2id (cfg : Config) (q : ResultSet) (party_id : Option Int) :
    Bool × Option Int × Nat :=
  match q with
  | none => (false, party_id, 0)
  | some rows =>
    if rows.length > 1 then (false, party_id, 1)
    else
      match rows with
      | [] => (false, party_id, 0)
      | row :: _ => (true, party_id.map (fun _ => atoi cfg (Sql_GetData row 0)), 0)

/-- Modelled from the spec: the rows of the party table that the lookup of
line 287 matches.  `same` is the comparison of names that the store applies
("a lookup constrained by an optional case-sensitivity mode"). -/
def name_matches (same : Str → Str → Bool) (parties : List party_row) (name : Str) :
    List party_row :=
  parties.filter (fun r => same r.name name)

/-- Modelled from the spec: the result of the query of line 287,
`SELECT party_id FROM party WHERE name = 'name'`, on a store that executes it
without error; an integer column is rendered in decimal. -/
def select_party_id (same : Str → Str → Bool) (parties : List party_row) (name : Str) :
    ResultSet :=
  some ((name_matches same parties name).map (fun r => [fmt_d r.party_id]))

/-- Modelled from the spec: the text of the six columns that the query of
line 44 selects from a row of the party table. -/
def party_row.columns (r : party_row) : List Str :=
  [fmt_d r.party_id, r.name, fmt_d r.exp, fmt_d r.item, fmt_d r.leader_id, fmt_d r.leader_char]

/-- Modelled from the spec: the text of the two columns that the query of
line 68 selects from a row of the character table. -/
def char_row.columns (c : char_row) : List Str :=
  [fmt_d c.account_id, fmt_d c.char_id]

/-- Whether a value fits the C type `int`, as the value of an `INT` column
does. -/
def is_int (v : Int) : Bool :=
  decide (-2147483648 ≤ v ∧ v ≤ 2147483647)

/-- The slot of the member array that a loaded character row fills, for a
party row whose stored leader is `(leader_id, leader_char)`. -/
def loaded_member (leader_id leader_char : Int) (c : char_row) : party_member where
  account_id := c.account_id
  char_id := c.char_id
  leader := if c.account_id = leader_id ∧ c.char_id = leader_char then 1 else 0

/-! ## Sample data -/

/-- A disk without the accounts file, on which every `lock_fopen` succeeds. -/
def empty_disk : Disk where
  account_txt := none
  lock_fopen_ok := fun _ => true
  syncs := 0

/-- An account as a caller hands it to `create`: the id is the "unassigned"
value -1. -/
def new_account : mmo_account :=
  { mmo_account.zero with
    account_id := -1
    userid := "alice".toList
    pass := "secret".toList
    sex := 'F'
    email := "a@a.com".toList
    lastlogin := "-".toList
    last_ip := "-".toList }

/-- A backend that holds one account, stored under its own id 2000000. -/
def one_account_db : AccountDB_TXT where
  accounts := [(2000000, { new_account with account_id := 2000000 })]
  next_account_id := 2000001
  auths_before_save := AUTHS_BEFORE_SAVE

/-- An accounts file with the version line and one record, whose id is the
initial value 2000000 of the auto-increment counter. -/
def colliding_file : Disk :=
  { empty_disk with
    account_txt :=
      some "20080409\n2000000\talice\tsecret\tF\ta@a.com\t0\t0\t0\t0\t0\t-\t-\t\n".toList }

/-- The accounts file of the load scenario. -/
def scenario_file : Str :=
  "20080409\n// comment\n1001\tuser1\tpass1\tM\tu1@x.com\t0\t0\t0\t0\t3\t2024-01-01\t1.2.3.4\tkk,vv \n1002\t%newid%\n".toList

/-- First line of the scenario: the format version. -/
def scenario_version : Str := "20080409\n".toList

/-- Second line of the scenario: a comment. -/
def scenario_comment : Str := "// comment\n".toList

/-- Third line of the scenario: the record of account 1001. -/
def scenario_record : Str :=
  "1001\tuser1\tpass1\tM\tu1@x.com\t0\t0\t0\t0\t3\t2024-01-01\t1.2.3.4\tkk,vv \n".toList

/-- Fourth line of the scenario: the next-id marker. -/
def scenario_newid : Str := "1002\t%newid%\n".toList

/-- A disk that holds the accounts file of the load scenario. -/
def scenario_disk : Disk :=
  { empty_disk with account_txt := some scenario_file }

/-- The upstream constants, with the auto-increment counter starting at 1. -/
def small_start : Config :=
  { upstream with START_ACCOUNT_NUM := 1 }

/-! ## The transaction discipline of the party backend -/

/-- Whether a statement is a write (neither `START TRANSACTION` nor `COMMIT`
nor `ROLLBACK`). -/
def Stmt.is_write : Stmt → Bool
  | .start_transaction => false
  | .commit => false
  | .rollback => false
  | _ => true

/-- The writes of lines 136-177 that the mask `flag` selects for the party
`p`, in the order of the source. -/
def tail_writes (cfg : Config) (p : party) (flag index : Nat) : List Stmt :=
  (if flag &&& PS_BASIC ≠ 0 then
    [Stmt.update_info (p.name.take cfg.NAME_LENGTH) p.exp p.item p.party_id]
   else []) ++
  (if flag &&& PS_LEADER ≠ 0 then
    [Stmt.update_leader (p.member_at index).account_id (p.member_at index).char_id p.party_id]
   else []) ++
  (if flag &&& PS_ADDMEMBER ≠ 0 then
    [Stmt.add_member p.party_id (p.member_at index).account_id (p.member_at index).char_id]
   else []) ++
  (if flag &&& PS_DELMEMBER ≠ 0 then
    [Stmt.del_member p.party_id (p.member_at index).account_id (p.member_at index).char_id]
   else [])

/-- The writes that the mask `flag` selects for the party `p`, in the order of
the source: the insertion first; the writes after it use the generated id
`insert_id` when the party came with the unassigned id -1. -/
def selected_writes (cfg : Config) (p : party) (flag index : Nat) (insert_id : Int) :
    List Stmt :=
  if flag &&& PS_CREATE ≠ 0 then
    Stmt.insert_party (if p.party_id ≠ -1 then some p.party_id else none) p.name (p.exp % 256)
        (p.item % 256) (p.member_at index).account_id (p.member_at index).char_id ::
      tail_writes cfg (if p.party_id = -1 then { p with party_id := insert_id } else p) flag index
  else tail_writes cfg p flag index

/-- Lines 129-133: the party is created with an explicit id and the store
reports another one. -/
def id_mismatch (p : party) (flag : Nat) (insert_id : Int) : Bool :=
  flag &&& PS_CREATE ≠ 0 && p.party_id ≠ -1 && p.party_id ≠ insert_id

/-- The statements `ws` executed in order from position `pos` of the handle,
stopping at the first one that fails: the log entries, and whether every one
succeeded. -/
def attempt (ok : Nat → Bool) : Nat → List Stmt → List (Stmt × Bool) × Bool
  | _, [] => ([], true)
  | pos, w :: ws =>
    if ok pos = true then ((w, true) :: (attempt ok (pos + 1) ws).1, (attempt ok (pos + 1) ws).2)
    else ([(w, false)], false)

/-- The same, on a handle: the result and the handle afterwards. -/
def exec_writes (h : Sql) : List Stmt → Bool × Sql
  | [] => (true, h)
  | w :: ws => if (Sql_Query h w).1 = false then (false, (Sql_Query h w).2)
               else exec_writes (Sql_Query h w).2 ws

/-- The transaction discipline in the words of the claim: `START TRANSACTION`
first, the selected writes in order up to the first that fails, then `COMMIT`
if every selected write succeeded and `ROLLBACK` otherwise; the call returns
true if and only if every selected write and the `COMMIT` succeeded.  The
result is the log of the call and the returned boolean. -/
def claimed_transaction (ok : Nat → Bool) (pos : Nat) (ws : List Stmt) :
    List (Stmt × Bool) × Bool :=
  ((Stmt.start_transaction, ok pos) :: (attempt ok (pos + 1) ws).1 ++
    [(if (attempt ok (pos + 1) ws).2 = true then Stmt.commit else Stmt.rollback,
      ok (pos + 1 + (attempt ok (pos + 1) ws).1.length))],
   (attempt ok (pos + 1) ws).2 && ok (pos + 1 + (attempt ok (pos + 1) ws).1.length))

/-- The writes attempted inside the transaction and whether all of them went
through: as `attempt`, except that an id mismatch stops the block right after
the insertion and counts as a failure. -/
def attempted (ok : Nat → Bool) (pos : Nat) (ws : List Stmt) (mismatch : Bool) :
    List (Stmt × Bool) × Bool :=
  if mismatch = true then ((attempt ok pos (ws.take 1)).1, false) else attempt ok pos ws

/-- The transaction discipline of the code: when `START TRANSACTION` fails
nothing else is issued and the call returns false; otherwise the writes are
attempted, then `COMMIT` is issued if all of them went through and `ROLLBACK` if
not, and the call returns true if and only if all of them went through and the
`COMMIT` succeeded. -/
def transaction (ok : Nat → Bool) (pos : Nat) (ws : List Stmt) (mismatch : Bool) :
    List (Stmt × Bool) × Bool :=
  if ok pos = false then ([(Stmt.start_transaction, false)], false)
  else
    ((Stmt.start_transaction, true) :: (attempted ok (pos + 1) ws mismatch).1 ++
      [(if (attempted ok (pos + 1) ws mismatch).2 = true then Stmt.commit else Stmt.rollback,
        ok (pos + 1 + (attempted ok (pos + 1) ws mismatch).1.length))],
     (attempted ok (pos + 1) ws mismatch).2 &&
       ok (pos + 1 + (attempted ok (pos + 1) ws mismatch).1.length))

/-- A handle on which every statement succeeds and the store reports
`insert_id` as the generated id. -/
def all_ok (insert_id : Int) : Sql where
  ok := fun _ => true
  insert_id := insert_id
  log := []

/-- A handle on which every statement fails. -/
def none_ok : Sql where
  ok := fun _ => false
  insert_id := 0
  log := []

/-- A party with the explicit id 5 and one member. -/
def sample_party : party where
  party_id := 5
  name := "abc".toList
  exp := 1
  item := 0
  member := [⟨10, 20, 1⟩]

/-- A store with no party, one character, and no transaction open. -/
def sample_store : Store where
  durable := ⟨[], [⟨10, 20, 0⟩]⟩
  txn := none

/-! ## The round trip of the codec -/

/-- A fixed string field that the codec carries unchanged: it holds no tab and
fits the field with its terminator. -/
def field_ok (s : Str) (size : Nat) : Bool :=
  s.all (fun c => c != '\t') && decide (s.length < size)

/-- A registry slot that the codec carries unchanged or drops: its key is
empty (the slot is not written), or its key holds no tab and no comma, has at
most 31 characters and does not begin with white space, and its value is not
empty, holds no tab and no space, and has at most 255 characters. -/
def reg_ok (r : global_reg) : Bool :=
  decide (r.str = []) ||
  (r.str.all (fun c => c != '\t' && c != ',') && decide (r.str.length ≤ 31) &&
    !(isspace (r.str.headD ' ')) &&
    decide (r.value ≠ []) && r.value.all (fun c => c != '\t' && c != ' ') &&
    decide (r.value.length ≤ 255))

/-- The records that the codec round-trips: every field fits its C type or its
buffer, and the text of no field interferes with the separators of the line. -/
def codec_ok (cfg : Config) (a : mmo_account) : Bool :=
  field_ok a.userid cfg.userid_size && field_ok a.pass cfg.pass_size &&
  field_ok a.email cfg.email_size && field_ok a.lastlogin cfg.lastlogin_size &&
  field_ok a.last_ip cfg.last_ip_size &&
  a.sex != '\t' && a.sex != '\x00' &&
  decide (-2147483648 ≤ a.account_id ∧ a.account_id ≤ 2147483647) &&
  decide (-2147483648 ≤ a.logincount ∧ a.logincount ≤ 2147483647) &&
  decide (a.level < 4294967296) && decide (a.state < 4294967296) &&
  decide (- cfg.LONG_MAX - 1 ≤ a.unban_time ∧ a.unban_time ≤ cfg.LONG_MAX) &&
  decide (- cfg.LONG_MAX - 1 ≤ a.expiration_time ∧ a.expiration_time ≤ cfg.LONG_MAX) &&
  a.account_reg2.all reg_ok && decide (a.account_reg2.length ≤ cfg.ACCOUNT_REG2_NUM)

/-- The registry slots that `mmo_auth_tostr` writes: those whose key is not
empty. -/
def written_regs (rs : List global_reg) : List global_reg :=
  rs.filter (fun r => decide (r.str ≠ []))

/-- The precondition of the round trip in the words of the claim: the string
fields of the record (the registry keys and values included) contain no tab
and no newline and fit their field bounds. -/
def stated_ok (cfg : Config) (a : mmo_account) : Bool :=
  let plain := fun (s : Str) => s.all (fun c => c != '\t' && c != '\n')
  plain a.userid && decide (a.userid.length < cfg.userid_size) &&
  plain a.pass && decide (a.pass.length < cfg.pass_size) &&
  plain a.email && decide (a.email.length < cfg.email_size) &&
  plain a.lastlogin && decide (a.lastlogin.length < cfg.lastlogin_size) &&
  plain a.last_ip && decide (a.last_ip.length < cfg.last_ip_size) &&
  a.account_reg2.all (fun r =>
    plain r.str && decide (r.str.length ≤ 31) && plain r.value && decide (r.value.length ≤ 255)) &&
  decide (a.account_reg2.length ≤ cfg.ACCOUNT_REG2_NUM)

/-- An account with three registry slots, the second of which has an empty
key. -/
def rich_account : mmo_account :=
  { new_account with
    account_id := 2000000
    logincount := 3
    account_reg2 := [⟨"str2".toList, "9".toList⟩, ⟨[], "x".toList⟩, ⟨"str3".toList, "1".toList⟩] }

/-- An account with one registry entry whose value holds a space. -/
def spaced_account : mmo_account :=
  { new_account with
    account_id := 2000000
    account_reg2 := [⟨"k".toList, "c d".toList⟩] }

/-! ## Sequences of operations on the cached-file backend -/

/-- An operation performed on the backend after `init`: a call of `create`,
`save` or `remove` through the interface, or a call of the periodic callback
by the timer subsystem. -/
inductive Op where
  | create (acc : mmo_account)
  | save (acc : mmo_account)
  | remove (account_id : Int)
  | timer

/-- The backend and the disk after one operation. -/
def Op.run (st : AccountDB_TXT × Disk) : Op → AccountDB_TXT × Disk
  | .create acc => (account_db_txt_create st.1 st.2 acc).2
  | .save acc => (account_db_txt_save st.1 st.2 acc).2
  | .remove account_id => (account_db_txt_remove st.1 st.2 account_id).2
  | .timer => mmo_auth_sync_timer st.1 st.2

/-- Whether the operation changes the in-memory state: a `create`, `save` or
`remove` that returns true. -/
def Op.changes (st : AccountDB_TXT × Disk) : Op → Bool
  | .create acc => (account_db_txt_create st.1 st.2 acc).1
  | .save acc => (account_db_txt_save st.1 st.2 acc).1
  | .remove account_id => (account_db_txt_remove st.1 st.2 account_id).1
  | .timer => false

/-- Whether the operation is a `save` that returns true. -/
def Op.saves (st : AccountDB_TXT × Disk) : Op → Bool
  | .save acc => (account_db_txt_save st.1 st.2 acc).1
  | _ => false

/-- Whether the operation calls `mmo_auth_sync`. -/
def Op.attempts_flush (st : AccountDB_TXT × Disk) (op : Op) : Bool :=
  decide ((op.run st).2.syncs = st.2.syncs + 1)

/-- Whether the operation calls `mmo_auth_sync` and the call writes the file. -/
def Op.flushes (st : AccountDB_TXT × Disk) (op : Op) : Bool :=
  op.attempts_flush st && st.2.lock_fopen_ok st.2.syncs

/-- The backend and the disk, with the bookkeeping that the claims about the
flush speak of: `unflushed` counts the changes of the in-memory state that no
successful flush has written yet, `unflushed_saves` the successful calls of
`save` among them. -/
structure Tracked where
  db : AccountDB_TXT
  disk : Disk
  unflushed : Nat
  unflushed_saves : Nat

/-- One operation on a tracked backend.  A flush that succeeds writes the
whole in-memory state, the change of the operation itself included; otherwise
a change adds to the unflushed ones. -/
def Tracked.step (t : Tracked) (op : Op) : Tracked where
  db := (op.run (t.db, t.disk)).1
  disk := (op.run (t.db, t.disk)).2
  unflushed :=
    if op.flushes (t.db, t.disk) = true then 0
    else if op.changes (t.db, t.disk) = true then t.unflushed + 1
    else t.unflushed
  unflushed_saves :=
    if op.flushes (t.db, t.disk) = true then 0
    else if op.saves (t.db, t.disk) = true then t.unflushed_saves + 1
    else t.unflushed_saves

/-- The tracked backend right after `account_db_txt_init`: the in-memory state
is the one loaded from the file. -/
def Tracked.init (cfg : Config) (disk : Disk) : Tracked where
  db := (account_db_txt_init cfg disk).2
  disk := disk
  unflushed := 0
  unflushed_saves := 0

/-- The state reached from `init` by a sequence of operations. -/
def reached (cfg : Config) (disk : Disk) (ops : List Op) : Tracked :=
  ops.foldl Tracked.step (Tracked.init cfg disk)

/-- A disk with an empty accounts file, on which every `lock_fopen`
succeeds. -/
def blank_disk : Disk where
  account_txt := some []
  lock_fopen_ok := fun _ => true
  syncs := 0

/-! ## Sample data of the party backend -/

/-- The comparison of names byte for byte (the `BINARY` mode of the lookup). -/
def same_bytes (a b : Str) : Bool :=
  decide (a = b)

/-- A party table in which two parties share the name `abc`. -/
def duplicate_parties : List party_row :=
  [⟨5, "abc".toList, 0, 0, 10, 20⟩, ⟨7, "abc".toList, 1, 0, 11, 21⟩]

/-- A party with the unassigned id -1 and one member, as a caller hands it to
`create`. -/
def fresh_party : party where
  party_id := -1
  name := "abc".toList
  exp := 1
  item := 0
  member := [⟨10, 20, 1⟩]

/-- A store whose only party has id 7, with its one member, and no
transaction open. -/
def party7_store : Store where
  durable := ⟨[⟨7, "abc".toList, 1, 0, 10, 20⟩], [⟨10, 20, 7⟩]⟩
  txn := none

/-- Three character rows linked to party 5. -/
def linked_chars : List char_row :=
  [⟨10, 20, 5⟩, ⟨11, 21, 5⟩, ⟨10, 22, 5⟩]

/-- The row of party 5, whose stored leader is (11, 21). -/
def party5_row : party_row :=
  ⟨5, "abc".toList, 1, 0, 11, 21⟩

/-! ## Sample data of the loading loop -/

/-- A second record line for the id 1001 of the scenario, with another
login. -/
def duplicate_record : Str :=
  "1001\tuser2\tpass2\tF\tu2@x.com\t0\t0\t0\t0\t0\t-\t-\t\n".toList

/-- A disk whose accounts file holds the version line and two record lines for
the id 1001. -/
def duplicate_disk : Disk :=
  { empty_disk with account_txt := some (scenario_version ++ scenario_record ++ duplicate_record) }

/-- The account that the record line of the scenario describes. -/
def scenario_account : mmo_account where
  account_id := 1001
  userid := "user1".toList
  pass := "pass1".toList
  sex := 'M'
  email := "u1@x.com".toList
  level := 0
  state := 0
  unban_time := 0
  expiration_time := 0
  logincount := 3
  lastlogin := "2024-01-01".toList
  last_ip := "1.2.3.4".toList
  account_reg2 := [⟨"kk".toList, "vv".toList⟩]

/-- A line with three fields, which no layout describes. -/
def short_record : Str := "1001\tuser1\tpass1\n".toList

/-- A next-id marker above the initial value 2000000 of the counter. -/
def marker_line : Str := "2000005\t%newid%\n".toList

/-- A disk whose accounts file holds the version line and the next-id marker
2000005. -/
def marker_disk : Disk :=
  { empty_disk with account_txt := some (scenario_version ++ marker_line) }

/-- A disk whose accounts file holds only a next-id marker with the largest
value of an `int`. -/
def int_max_disk : Disk :=
  { empty_disk with account_txt := some "2147483647\t%newid%\n".toList }

/-! ## Registry texts and the canonical line -/

/-- The text of a sequence of space-terminated groups, `key,value` followed by
one space for each; a group whose key is empty is the malformed group
`,value`. -/
def groups_text : List global_reg → Str
  | [] => []
  | g :: gs => g.str ++ ',' :: g.value ++ ' ' :: groups_text gs

/-- A group in the words of the claim: well-formed, with a non-empty key of at
most 31 bytes and a non-empty value of at most 255 bytes, neither containing
tab, space or comma, or malformed, with an empty key and a value as before. -/
def group_stated_ok (g : global_reg) : Bool :=
  (decide (g.str = []) ||
    (decide (g.str.length ≤ 31) && g.str.all (fun c => c != '\t' && c != ' ' && c != ','))) &&
  decide (g.value ≠ []) && decide (g.value.length ≤ 255) &&
  g.value.all (fun c => c != '\t' && c != ' ' && c != ',')

/-- A group that the registry loop reads as it stands: as `group_stated_ok`,
and the key does not begin with a white-space character. -/
def group_ok (g : global_reg) : Bool :=
  group_stated_ok g && !(isspace (g.str.headD ','))

/-- The well-formed groups of a sequence: those with a non-empty key. -/
def well_formed (gs : List global_reg) : List global_reg :=
  gs.filter (fun g => decide (g.str ≠ []))

/-- The groups `str2,9`, `,9` and `str3,1`. -/
def example_groups : List global_reg :=
  [⟨"str2".toList, "9".toList⟩, ⟨[], "9".toList⟩, ⟨"str3".toList, "1".toList⟩]

/-- Two groups, the key of the second beginning with a carriage return. -/
def spaced_groups : List global_reg :=
  [⟨"a".toList, "1".toList⟩, ⟨"\rb".toList, "2".toList⟩]

/-- The registry text of the comment of line 401. -/
def example_regs : Str :=
  "str2,9 ,9 str3,1".toList

/-- The canonical line in the words of the specification: the twelve fixed
fields in their declared order, each followed by a tab, then `key,value` and a
space for each registry entry whose key is not empty, then a newline. -/
def canonical_line (a : mmo_account) : Str :=
  [fmt_d a.account_id, a.userid, a.pass, [a.sex], a.email, fmt_u a.level, fmt_u a.state,
    fmt_d a.unban_time, fmt_d a.expiration_time, fmt_d a.logincount, a.lastlogin,
    a.last_ip].flatMap (fun f => f ++ ['\t']) ++
  (a.account_reg2.filter (fun r => decide (r.str ≠ []))).flatMap
    (fun r => r.str ++ [','] ++ r.value ++ [' ']) ++
  ['\n']

/-- No field of the record holds a tab. -/
def tab_free (a : mmo_account) : Bool :=
  a.userid.all (fun c => c != '\t') && a.pass.all (fun c => c != '\t') && a.sex != '\t' &&
  a.email.all (fun c => c != '\t') && a.lastlogin.all (fun c => c != '\t') &&
  a.last_ip.all (fun c => c != '\t') &&
  a.account_reg2.all (fun r => r.str.all (fun c => c != '\t') && r.value.all (fun c => c != '\t'))

/-- An account whose `sex` character is NUL, as in a zeroed record. -/
def sexless_account : mmo_account :=
  { new_account with sex := '\x00' }

/-! ## Registry texts and the buffer of line 402 -/

/-- A handle on which the third statement fails and every other statement
succeeds; the store reports `insert_id` as the generated id. -/
def link_fails (insert_id : Int) : Sql where
  ok := fun n => decide (n ≠ 2)
  insert_id := insert_id
  log := []

/-! ## Flush and reload -/

/-- The text of a sequence of lines, each followed by a newline. -/
def unlines (bodies : List Str) : Str :=
  bodies.flatMap (fun b => b ++ ['\n'])

/-- The comment lines of lines 449-460, without their newline. -/
def comment_bodies : List Str := [
  "// Accounts file: here are saved all information about the accounts.".toList,
  "// Structure: ID, account name, password, last login time, sex, # of logins, state, email, error message for state 7, validity time, last (accepted) login ip, memo field, ban timestamp, repeated(register text, register value)".toList,
  "// Some explanations:".toList,
  "//   account name    : between 4 to 23 char for a normal account (standard client can't send less than 4 char).".toList,
  "//   account password: between 4 to 23 char".toList,
  "//   sex             : M or F for normal accounts, S for server accounts".toList,
  "//   state           : 0: account is ok, 1 to 256: error code of packet 0x006a + 1".toList,
  "//   email           : between 3 to 39 char (a@a.com is like no email)".toList,
  "//   error message   : text for the state 7: 'Your are Prohibited to login until <text>'. Max 19 char".toList,
  "//   valitidy time   : 0: unlimited account, <other value>: date calculated by addition of 1/1/1970 + value (number of seconds since the 1/1/1970)".toList,
  "//   memo field      : max 254 char".toList,
  "//   ban time        : 0: no ban, <other value>: banned until the date: date calculated by addition of 1/1/1970 + value (number of seconds since the 1/1/1970)".toList]

/-- The lines that a flush writes, without their newline: the version line,
the comment lines, one line per record, and the next-id marker. -/
def sync_bodies (db : AccountDB_TXT) : List Str :=
  "20080409".toList :: comment_bodies ++ db.accounts.map (fun e => mmo_auth_tostr e.2) ++
    [fmt_d db.next_account_id ++ "\t%newid%".toList]

/-- A line of the accounts file that `fgets` returns whole: it holds no
newline and, with its newline, fits the buffer of 2048 bytes. -/
def line_ok (body : Str) : Bool :=
  body.all (fun c => c != '\n') && decide (body.length < 2047)

/-- The record as a flush writes it: without the registry slots whose key is
empty. -/
def flushed (a : mmo_account) : mmo_account :=
  { a with account_reg2 := written_regs a.account_reg2 }

/-- The records that a flush followed by a reload hands back: those that the
codec round-trips and whose line `fgets` returns whole. -/
def reload_ok (cfg : Config) (a : mmo_account) : Bool :=
  codec_ok cfg a && line_ok (mmo_auth_tostr a)

/-- Lines 148-149: the counter after a record with this id is recorded. -/
def bump (c id : Int) : Int :=
  if c < id then toInt32 (id + 1) else c

/-- The auto-increment counter after the loading loop has read the text of a
flush: raised by the records in the order of the file, then by the next-id
marker. -/
def reload_counter (cfg : Config) (db : AccountDB_TXT) : Int :=
  if db.next_account_id > (db.accounts.map Prod.fst).foldl bump cfg.START_ACCOUNT_NUM then
    db.next_account_id
  else (db.accounts.map Prod.fst).foldl bump cfg.START_ACCOUNT_NUM

/-- The backend and the declared version after the loading loop of
`account_db_txt_init` has read the text that `mmo_auth_sync` writes for
`db`. -/
def reloaded (cfg : Config) (db : AccountDB_TXT) : AccountDB_TXT × Nat :=
  init_lines cfg (init_state cfg, 0) (file_lines (sync_text db).length (sync_text db))

/-- A disk whose accounts file holds the next-id marker 2000005 first, then the
version line and the record of the account 2000005. -/
def marker_first_disk : Disk :=
  { empty_disk with
    account_txt :=
      some "2000005\t%newid%\n20080409\n2000005\talice\tsecret\tF\ta@a.com\t0\t0\t0\t0\t0\t-\t-\t\n".toList }

/-! # Theorems -/

/-! ## The in-memory map -/

theorem idb_get_put_same (m : DBMap) (k : Int) (v : mmo_account) :
    idb_get (idb_put m k v) k = some v := by
  induction m with
  | nil => simp [idb_put, idb_get]
  | cons e es ih =>
    by_cases h : e.1 = k
    · simp [idb_put, idb_get, h]
    · simp [idb_put, idb_get, h, ih]

theorem idb_get_put_other (m : DBMap) (k j : Int) (v : mmo_account) (hj : j ≠ k) :
    idb_get (idb_put m k v) j = idb_get m j := by
  induction m with
  | nil => simp [idb_put, idb_get, Ne.symm hj]
  | cons e es ih =>
    by_cases h : e.1 = k
    · have h2 : ¬ e.1 = j := fun h3 => hj (h3.symm.trans h)
      simp [idb_put, idb_get, h, h2, Ne.symm hj]
    · by_cases h2 : e.1 = j
      · simp [idb_put, idb_get, h, h2, hj]
      · simp [idb_put, idb_get, h, h2, ih]

theorem idb_get_erase_same (m : DBMap) (k : Int) :
    idb_get (idb_erase m k) k = none := by
  induction m with
  | nil => simp [idb_erase, idb_get]
  | cons e es ih =>
    by_cases h : e.1 = k
    · simp [idb_erase, h, ih]
    · simp [idb_erase, h, idb_get, ih]

theorem idb_get_erase_other (m : DBMap) (k j : Int) (hj : j ≠ k) :
    idb_get (idb_erase m k) j = idb_get m j := by
  induction m with
  | nil => simp [idb_erase, idb_get]
  | cons e es ih =>
    by_cases h : e.1 = k
    · have h2 : ¬ e.1 = j := fun h3 => hj (h3.symm.trans h)
      simp [idb_erase, h, idb_get, h2, ih, Ne.symm hj]
    · by_cases h2 : e.1 = j
      · simp [idb_erase, h, idb_get, h2, hj]
      · simp [idb_erase, h, idb_get, h2, ih]

theorem sync_accounts (db : AccountDB_TXT) (disk : Disk) :
    (mmo_auth_sync db disk).1.accounts = db.accounts := by
  unfold mmo_auth_sync
  split <;> rfl

theorem sync_next_account_id (db : AccountDB_TXT) (disk : Disk) :
    (mmo_auth_sync db disk).1.next_account_id = db.next_account_id := by
  unfold mmo_auth_sync
  split <;> rfl

/-- C3 as amended (account create then load).  With `k` the auto-increment
counter of the backend, an `int`: `create(E)` returns false exactly when id
`k` is already occupied, and then leaves the map and the counter unchanged;
when it returns true, `load_num(k)` reports found and returns a record equal
to `E` in every field other than the id, and the records stored under all
other ids are unchanged.  The counter becomes `k + 1` when `k` is below
2147483647, the largest `int`; at `k` = 2147483647 the increment of line 204
overflows and leaves the counter at -2147483648. -/
theorem create_then_load (db : AccountDB_TXT) (disk : Disk) (E : mmo_account)
    (hint : is_int db.next_account_id = true) :
    ((account_db_txt_create db disk E).1 = false ↔
      (idb_get db.accounts db.next_account_id).isSome = true) ∧
    ((account_db_txt_create db disk E).1 = false →
      (account_db_txt_create db disk E).2.1.accounts = db.accounts ∧
      (account_db_txt_create db disk E).2.1.next_account_id = db.next_account_id) ∧
    ((account_db_txt_create db disk E).1 = true →
      (account_db_txt_load_num (account_db_txt_create db disk E).2.1 db.next_account_id).1 = true ∧
      (account_db_txt_load_num (account_db_txt_create db disk E).2.1 db.next_account_id).2.userid
        = E.userid ∧
      (account_db_txt_load_num (account_db_txt_create db disk E).2.1 db.next_account_id).2.pass
        = E.pass ∧
      (account_db_txt_load_num (account_db_txt_create db disk E).2.1 db.next_account_id).2.sex
        = E.sex ∧
      (account_db_txt_load_num (account_db_txt_create db disk E).2.1 db.next_account_id).2.email
        = E.email ∧
      (account_db_txt_load_num (account_db_txt_create db disk E).2.1 db.next_account_id).2.level
        = E.level ∧
      (account_db_txt_load_num (account_db_txt_create db disk E).2.1 db.next_account_id).2.state
        = E.state ∧
      (account_db_txt_load_num (account_db_txt_create db disk E).2.1
        db.next_account_id).2.unban_time = E.unban_time ∧
      (account_db_txt_load_num (account_db_txt_create db disk E).2.1
        db.next_account_id).2.expiration_time = E.expiration_time ∧
      (account_db_txt_load_num (account_db_txt_create db disk E).2.1
        db.next_account_id).2.logincount = E.logincount ∧
      (account_db_txt_load_num (account_db_txt_create db disk E).2.1
        db.next_account_id).2.lastlogin = E.lastlogin ∧
      (account_db_txt_load_num (account_db_txt_create db disk E).2.1
        db.next_account_id).2.last_ip = E.last_ip ∧
      (account_db_txt_load_num (account_db_txt_create db disk E).2.1
        db.next_account_id).2.account_reg2 = E.account_reg2 ∧
      (db.next_account_id < 2147483647 →
        (account_db_txt_create db disk E).2.1.next_account_id = db.next_account_id + 1) ∧
      (db.next_account_id = 2147483647 →
        (account_db_txt_create db disk E).2.1.next_account_id = -2147483648) ∧
      ∀ j, j ≠ db.next_account_id →
        idb_get (account_db_txt_create db disk E).2.1.accounts j = idb_get db.accounts j) := by
  have hr : -2147483648 ≤ db.next_account_id ∧ db.next_account_id ≤ 2147483647 := by
    simpa [is_int] using hint
  cases hk : idb_get db.accounts db.next_account_id with
  | some x => simp [account_db_txt_create, hk]
  | none =>
    simp only [account_db_txt_create, hk, Option.isSome_none, Bool.false_eq_true, if_false,
      account_db_txt_load_num, sync_accounts, sync_next_account_id, idb_get_put_same]
    refine ⟨by simp, by simp, fun _ => ?_⟩
    simp only [true_and]
    refine ⟨?_, ?_, ?_⟩
    · intro hlt
      unfold toInt32
      omega
    · intro heq
      rw [heq]
      decide
    · intro j hj
      exact idb_get_put_other _ _ _ _ hj

/-- Instance of `create_then_load`: creating `new_account` in the freshly
initialised backend succeeds, the loaded record carries its login name, and the
counter goes from 2000000 to 2000001. -/
theorem create_then_load_witness :
    (account_db_txt_create (init_state upstream) empty_disk new_account).1 = true ∧
    (account_db_txt_load_num
      (account_db_txt_create (init_state upstream) empty_disk new_account).2.1
      (init_state upstream).next_account_id).2.userid = new_account.userid ∧
    (account_db_txt_create (init_state upstream) empty_disk new_account).2.1.next_account_id
      = 2000001 :=
  ⟨by decide,
   ((create_then_load (init_state upstream) empty_disk new_account (by decide)).2.2
      (by decide)).2.1,
   (((create_then_load (init_state upstream) empty_disk new_account (by decide)).2.2
      (by decide)).2.2.2.2.2.2.2.2.2.2.2.2.2.1 (by decide)).trans (by decide)⟩

/-- C3 as stated fails at the largest `int`.  `account_db_txt_init` reads the
counter 2147483647 from a file that holds the next-id marker
`2147483647<TAB>%newid%`; on this state `create` finds the id free, stores the
record under it and returns true, and the increment of line 204 leaves the
counter at -2147483648, which is not `k + 1`. -/
theorem create_then_load_counterexample :
    (account_db_txt_init upstream int_max_disk).1 = true ∧
    (account_db_txt_init upstream int_max_disk).2.next_account_id = 2147483647 ∧
    (account_db_txt_create (account_db_txt_init upstream int_max_disk).2 int_max_disk
      new_account).1 = true ∧
    (account_db_txt_load_num
      (account_db_txt_create (account_db_txt_init upstream int_max_disk).2 int_max_disk
        new_account).2.1 2147483647).1 = true ∧
    (account_db_txt_create (account_db_txt_init upstream int_max_disk).2 int_max_disk
      new_account).2.1.next_account_id = -2147483648 ∧
    (account_db_txt_create (account_db_txt_init upstream int_max_disk).2 int_max_disk
      new_account).2.1.next_account_id
      ≠ (account_db_txt_init upstream int_max_disk).2.next_account_id + 1 := by
  decide

/-- C4 (the record that `create` stores keeps the id field of its input).
The backend is freshly initialised with counter 2000000 and the caller passes
an account whose id field is -1.  `create` succeeds, but the record loaded back
from id 2000000 still has the id field -1, the flush writes a line for it that
starts with `-1`, and that line parses back to a record with id -1. -/
theorem create_keeps_input_id :
    (account_db_txt_create (init_state upstream) empty_disk new_account).1 = true ∧
    (account_db_txt_load_num
      (account_db_txt_create (init_state upstream) empty_disk new_account).2.1 2000000)
      = (true, new_account) ∧
    new_account.account_id = -1 ∧
    (account_db_txt_create (init_state upstream) empty_disk new_account).2.2.account_txt
      = some (sync_header ++
          "-1\talice\tsecret\tF\ta@a.com\t0\t0\t0\t0\t0\t-\t-\t\n2000001\t%newid%\n".toList) ∧
    (mmo_auth_fromstr upstream
      "-1\talice\tsecret\tF\ta@a.com\t0\t0\t0\t0\t0\t-\t-\t\n".toList 20080409).map
        (fun a => a.account_id) = some (-1) := by
  refine ⟨by decide, by decide, by decide, ?_, by decide⟩
  have h : sync_records [((2000000 : Int), new_account)] ++ fmt_d 2000001 ++ "\t%newid%\n".toList
      = "-1\talice\tsecret\tF\ta@a.com\t0\t0\t0\t0\t0\t-\t-\t\n2000001\t%newid%\n".toList := by
    decide
  have ht : toInt32 2000001 = 2000001 := by decide
  rw [← h]
  simp [account_db_txt_create, init_state, mmo_auth_sync, empty_disk, sync_text, idb_get,
    idb_put, upstream, ht]

/-- C5 (account save then load).  When the id `k` of the record is present,
`save(acc)` returns true, a following `load_num(k)` reports found with a record
equal to `acc`, and the records under all other ids and the auto-increment
counter are unchanged; when it is absent, `save` returns false and leaves the
map, the auto-increment counter and the dirty counter unchanged. -/
theorem save_then_load (db : AccountDB_TXT) (disk : Disk) (acc : mmo_account) :
    ((idb_get db.accounts acc.account_id).isSome = true →
      (account_db_txt_save db disk acc).1 = true ∧
      account_db_txt_load_num (account_db_txt_save db disk acc).2.1 acc.account_id = (true, acc) ∧
      (∀ j, j ≠ acc.account_id →
        idb_get (account_db_txt_save db disk acc).2.1.accounts j = idb_get db.accounts j) ∧
      (account_db_txt_save db disk acc).2.1.next_account_id = db.next_account_id) ∧
    ((idb_get db.accounts acc.account_id).isSome = false →
      (account_db_txt_save db disk acc).1 = false ∧
      (account_db_txt_save db disk acc).2.1 = db) := by
  cases hk : idb_get db.accounts acc.account_id with
  | none => simp [account_db_txt_save, hk]
  | some x =>
    simp only [account_db_txt_save, hk, Option.isSome_some, Bool.true_eq_false, false_implies,
      and_true, true_implies]
    split
    · simp only [account_db_txt_load_num, sync_accounts, sync_next_account_id, idb_get_put_same,
        true_and]
      exact ⟨fun j hj => idb_get_put_other _ _ _ _ hj, trivial⟩
    · simp only [account_db_txt_load_num, idb_get_put_same, true_and]
      exact ⟨fun j hj => idb_get_put_other _ _ _ _ hj, trivial⟩

/-- Instance of `save_then_load`: saving a change of the stored account, and
saving an account that is not stored. -/
theorem save_then_load_witness :
    account_db_txt_load_num
      (account_db_txt_save one_account_db empty_disk
        { new_account with account_id := 2000000, logincount := 7 }).2.1 2000000
      = (true, { new_account with account_id := 2000000, logincount := 7 }) ∧
    (account_db_txt_save one_account_db empty_disk new_account).1 = false :=
  ⟨((save_then_load one_account_db empty_disk
      { new_account with account_id := 2000000, logincount := 7 }).1 (by decide)).2.1,
   ((save_then_load one_account_db empty_disk new_account).2 (by decide)).1⟩

/-- C6 (account remove then load).  `remove(k)` returns true if and only if
`k` is present; after a successful `remove(k)`, `load_num(k)` reports not-found
and hands back an all-zero record, while every other id still loads the same
record as before; when `k` is absent, `remove` leaves the state unchanged. -/
theorem remove_then_load (db : AccountDB_TXT) (disk : Disk) (k : Int) :
    ((account_db_txt_remove db disk k).1 = true ↔ (idb_get db.accounts k).isSome = true) ∧
    ((account_db_txt_remove db disk k).1 = true →
      account_db_txt_load_num (account_db_txt_remove db disk k).2.1 k
        = (false, mmo_account.zero) ∧
      ∀ j, j ≠ k →
        account_db_txt_load_num (account_db_txt_remove db disk k).2.1 j
          = account_db_txt_load_num db j) ∧
    ((idb_get db.accounts k).isSome = false →
      (account_db_txt_remove db disk k).2.1 = db ∧
      (account_db_txt_remove db disk k).2.2 = disk) := by
  cases hk : idb_get db.accounts k with
  | none => simp [account_db_txt_remove, idb_remove, hk]
  | some x =>
    simp only [account_db_txt_remove, idb_remove, hk, Option.isSome_some, Bool.true_eq_false,
      false_implies, and_true, true_implies, true_and, account_db_txt_load_num, sync_accounts,
      idb_get_erase_same]
    intro j hj
    rw [idb_get_erase_other _ _ _ hj]

/-- Instance of `remove_then_load`: removing the stored account. -/
theorem remove_then_load_witness :
    account_db_txt_load_num (account_db_txt_remove one_account_db empty_disk 2000000).2.1 2000000
      = (false, mmo_account.zero) :=
  ((remove_then_load one_account_db empty_disk 2000000).2.1 (by decide)).1

/-! ## The flush threshold -/

/-- C7 (auto-increment after init) fails on the code.  The file holds the
version line and one record whose id is 2000000, the initial value of the
counter: `init` returns true, the record is stored under id 2000000, the
counter is still 2000000, and the next `create` collides and returns false. -/
theorem init_counter_not_past_loaded_id :
    (account_db_txt_init upstream colliding_file).1 = true ∧
    (idb_get (account_db_txt_init upstream colliding_file).2.accounts 2000000).isSome = true ∧
    (account_db_txt_init upstream colliding_file).2.next_account_id = 2000000 ∧
    (account_db_txt_create (account_db_txt_init upstream colliding_file).2 colliding_file
      new_account).1 = false := by
  decide

theorem init_line_eq (cfg : Config) (st : AccountDB_TXT × Nat) (line : Str) :
    init_line cfg st line =
      if is_comment_line line = true then st
      else if is_version_line line = true then
        (st.1, toUInt32 (((scan_d line).map (fun r => r.1)).getD 0))
      else if is_newid_line st.1.next_account_id line = true then
        ({ st.1 with next_account_id := ((sscanf_newid line).map (fun r => r.1)).getD 0 }, st.2)
      else init_record cfg st line := by
  unfold init_line is_comment_line is_version_line is_newid_line
  by_cases hc : (char_at line 0 = '/' && char_at line 1 = '/') = true
  · simp only [hc, if_true]
  · simp only [hc, if_false]
    cases hd : scan_d line with
    | none => simp
    | some r =>
      obtain ⟨v, n⟩ := r
      by_cases hv : char_at line n = '\n'
      · simp [hv]
      · cases hn : sscanf_newid line with
        | none => simp [hv]
        | some q =>
          obtain ⟨id, n2⟩ := q
          simp [hv]

theorem strtol_in_range (cfg : Config) (s : Str) (v : Int)
    (hv : (if (scan_number s).1 = true then - ((decimal (scan_number s).2.1 : Nat) : Int)
      else (decimal (scan_number s).2.1 : Int)) = v)
    (h1 : v ≤ 2147483647) (h2 : -2147483648 ≤ v) :
    strtol cfg s = v := by
  have := cfg.long_range
  unfold strtol
  simp only [hv]
  split_ifs <;> omega

theorem regs_loop_succ (cfg : Config) (fuel i : Nat) (regs : Str) (acc : List global_reg) :
    regs_loop cfg (fuel + 1) i regs acc =
    if i < cfg.ACCOUNT_REG2_NUM then
      match sscanf_reg regs with
      | some (key, value, n) =>
        regs_loop cfg fuel (i + 1) (regs.drop n)
          (acc ++ [⟨safestrncpy key 32, safestrncpy value 256⟩])
      | none =>
        if regs.head? = some ',' then
          match sscanf_void regs with
          | .stored _ n => regs_loop cfg fuel i (regs.drop n) acc
          | .overflow => .overflow
          | .no_match => .exit acc
        else .exit acc
    else .exit acc := rfl

theorem parse_regs_exit (cfg : Config) (regs : Str) (out : List global_reg)
    (h : regs_loop cfg (regs.length + 1) 0 regs [] = loop_run.exit out) :
    parse_regs cfg regs = out := by
  unfold parse_regs
  rw [h]

theorem scenario_lines : file_lines scenario_file.length scenario_file =
    [scenario_version, scenario_comment, scenario_record, scenario_newid] := by
  decide

theorem parse_regs_scenario (cfg : Config) :
    parse_regs cfg "kk,vv \n".toList = [⟨"kk".toList, "vv".toList⟩] := by
  have h := cfg.reg2_pos
  have e1 : sscanf_reg "kk,vv \n".toList = some ("kk".toList, "vv".toList, 7) := by decide
  have e2 : sscanf_reg [] = none := by decide
  have e3 : ("kk,vv \n".toList).drop 7 = [] := by decide
  have e4 : safestrncpy "kk".toList 32 = "kk".toList := by decide
  have e5 : safestrncpy "vv".toList 256 = "vv".toList := by decide
  have e6 : ("kk,vv \n".toList).length + 1 = 6 + 1 + 1 := by decide
  apply parse_regs_exit
  rw [e6, regs_loop_succ, if_pos h, e1]
  simp only [e3, e4, e5]
  rw [regs_loop_succ, e2]
  simp

theorem scenario_split : sv_split '\t' scenario_record =
    ["1001".toList, "user1".toList, "pass1".toList, "M".toList, "u1@x.com".toList, "0".toList,
      "0".toList, "0".toList, "0".toList, "3".toList, "2024-01-01".toList, "1.2.3.4".toList,
      "kk,vv \n".toList] := by
  decide

theorem fromstr_scenario (cfg : Config) (hsize : 5 < cfg.userid_size) :
    ∃ acc, mmo_auth_fromstr cfg scenario_record 20080409 = some acc ∧ acc.account_id = 1001 ∧
      acc.userid = "user1".toList ∧ acc.account_reg2 = [⟨"kk".toList, "vv".toList⟩] := by
  have hid : strtol cfg "1001".toList = 1001 :=
    strtol_in_range cfg _ 1001 (by decide) (by decide) (by decide)
  have hu : safestrncpy "user1".toList cfg.userid_size = "user1".toList := by
    unfold safestrncpy
    apply List.take_of_length_le
    simp
    omega
  unfold mmo_auth_fromstr
  rw [scenario_split]
  refine ⟨_, rfl, ?_, hu, parse_regs_scenario cfg⟩
  simp only [hid]; decide

theorem init_record_none (cfg : Config) (st : AccountDB_TXT × Nat) (line : Str)
    (h : mmo_auth_fromstr cfg line st.2 = none) : init_record cfg st line = st := by
  unfold init_record
  rw [h]

theorem init_record_some (cfg : Config) (st : AccountDB_TXT × Nat) (line : Str)
    (acc : mmo_account) (h : mmo_auth_fromstr cfg line st.2 = some acc)
    (hfree : idb_get st.1.accounts acc.account_id = none) :
    init_record cfg st line =
      if st.1.next_account_id < acc.account_id then
        ({ st.1 with accounts := idb_put st.1.accounts acc.account_id acc,
                     next_account_id := toInt32 (acc.account_id + 1) }, st.2)
      else ({ st.1 with accounts := idb_put st.1.accounts acc.account_id acc }, st.2) := by
  unfold init_record
  rw [h]
  simp [hfree]

theorem version_line_facts :
    is_comment_line scenario_version = false ∧
    is_version_line scenario_version = true ∧
    toUInt32 (((scan_d scenario_version).map (fun r => r.1)).getD 0) = 20080409 := by
  decide

theorem comment_line_facts : is_comment_line scenario_comment = true := by
  decide

theorem record_line_facts :
    is_comment_line scenario_record = false ∧
    is_version_line scenario_record = false ∧
    scan_d scenario_record = some (1001, 4) ∧
    sscanf_newid scenario_record = some (1001, none) ∧
    char_at scenario_record 4 = '\t' := by
  decide

theorem newid_line_facts :
    is_comment_line scenario_newid = false ∧
    is_version_line scenario_newid = false ∧
    scan_d scenario_newid = some (1002, 4) ∧
    sscanf_newid scenario_newid = some (1002, some 12) ∧
    char_at scenario_newid 12 = '\n' ∧
    sv_split '\t' scenario_newid = ["1002".toList, "%newid%\n".toList] := by
  decide

theorem init_lines_cons (cfg : Config) (st : AccountDB_TXT × Nat) (l : Str) (ls : List Str) :
    init_lines cfg st (l :: ls) = init_lines cfg (init_line cfg st l) ls := rfl

theorem init_lines_nil (cfg : Config) (st : AccountDB_TXT × Nat) :
    init_lines cfg st [] = st := rfl

theorem init_scenario (cfg : Config) (hsize : 5 < cfg.userid_size) :
    ∃ acc, init_lines cfg (init_state cfg, 0) (file_lines scenario_file.length scenario_file)
        = ({ accounts := [(1001, acc)],
             next_account_id := max cfg.START_ACCOUNT_NUM 1002,
             auths_before_save := AUTHS_BEFORE_SAVE }, 20080409) ∧
      acc.account_id = 1001 ∧ acc.userid = "user1".toList ∧
      acc.account_reg2 = [⟨"kk".toList, "vv".toList⟩] := by
  obtain ⟨acc, hacc, h1, h2, h3⟩ := fromstr_scenario cfg hsize
  refine ⟨acc, ?_, h1, h2, h3⟩
  have l1 : ∀ db v, init_line cfg (db, v) scenario_version = (db, 20080409) := by
    intro db v
    rw [init_line_eq, version_line_facts.1, version_line_facts.2.1, version_line_facts.2.2]
    simp
  have l2 : ∀ st, init_line cfg st scenario_comment = st := by
    intro st
    rw [init_line_eq, comment_line_facts]
    simp
  have l3 : init_line cfg (init_state cfg, 20080409) scenario_record =
      ({ accounts := [(1001, acc)],
         next_account_id := if cfg.START_ACCOUNT_NUM < 1001 then 1002 else cfg.START_ACCOUNT_NUM,
         auths_before_save := AUTHS_BEFORE_SAVE }, 20080409) := by
    obtain ⟨f1, f2, f3, f4, f5⟩ := record_line_facts
    have n1 : is_newid_line (init_state cfg).next_account_id scenario_record = false := by
      unfold is_newid_line
      rw [f3, f4]
      simp [f5]
    rw [init_line_eq, f1, f2]
    simp only [n1, Bool.false_eq_true, if_false]
    rw [init_record_some cfg _ _ acc hacc (by rw [h1]; rfl)]
    simp only [h1, init_state, idb_put]
    split <;> rfl
  have l4 : ∀ (db : AccountDB_TXT), init_line cfg (db, 20080409) scenario_newid =
      ({ db with next_account_id :=
          if db.next_account_id < 1002 then 1002 else db.next_account_id }, 20080409) := by
    intro db
    obtain ⟨f1, f2, f3, f4, f5, f6⟩ := newid_line_facts
    have e4 : mmo_auth_fromstr cfg scenario_newid (db, 20080409).2 = none := by
      show mmo_auth_fromstr cfg scenario_newid 20080409 = none
      unfold mmo_auth_fromstr
      rw [f6]
    have n4 : is_newid_line db.next_account_id scenario_newid
        = decide (db.next_account_id < 1002) := by
      unfold is_newid_line
      rw [f3, f4]
      simp [f5]
    rw [init_line_eq, f1, f2]
    simp only [n4, Bool.false_eq_true, if_false, f4, init_record_none cfg _ _ e4]
    by_cases h : db.next_account_id < 1002
    · simp [h]
    · simp [h]
  rw [scenario_lines, init_lines_cons, l1, init_lines_cons, l2, init_lines_cons, l3,
    init_lines_cons, l4, init_lines_nil]
  simp only
  congr 2
  split_ifs <;> omega

theorem init_of_file (cfg : Config) (disk : Disk) (content : Str)
    (h : disk.account_txt = some content) :
    account_db_txt_init cfg disk
      = (true, (init_lines cfg (init_state cfg, 0) (file_lines content.length content)).1) := by
  unfold account_db_txt_init
  rw [h]

/-- C8 as amended (load scenario).  For every build whose login field holds
the five characters of `user1`, initialising the backend from the scenario file
succeeds and yields exactly one account, with id 1001, login `user1` and
exactly one registry entry (key `kk`, value `vv`); the next-free-id counter is
the larger of `START_ACCOUNT_NUM` and 1002. -/
theorem load_scenario (cfg : Config) (disk : Disk) (hsize : 5 < cfg.userid_size)
    (hfile : disk.account_txt = some scenario_file) :
    (account_db_txt_init cfg disk).1 = true ∧
    (account_db_txt_init cfg disk).2.next_account_id = max cfg.START_ACCOUNT_NUM 1002 ∧
    ∃ acc, (account_db_txt_init cfg disk).2.accounts = [(1001, acc)] ∧
      acc.account_id = 1001 ∧ acc.userid = "user1".toList ∧
      acc.account_reg2 = [⟨"kk".toList, "vv".toList⟩] := by
  obtain ⟨acc, hinit, h1, h2, h3⟩ := init_scenario cfg hsize
  rw [init_of_file cfg disk scenario_file hfile, hinit]
  exact ⟨rfl, rfl, acc, rfl, h1, h2, h3⟩

/-- Instance of `load_scenario`: when the counter starts at 1, the scenario
leaves it at 1002. -/
theorem load_scenario_witness :
    (account_db_txt_init small_start scenario_disk).1 = true ∧
    (account_db_txt_init small_start scenario_disk).2.next_account_id = 1002 :=
  ⟨(load_scenario small_start scenario_disk (by decide) rfl).1,
   (load_scenario small_start scenario_disk (by decide) rfl).2.1.trans (by decide)⟩

/-- C8 as stated fails: with the upstream value 2000000 of `START_ACCOUNT_NUM`
the scenario loads account 1001 but leaves the next-free-id counter at 2000000,
not at 1002. -/
theorem load_scenario_counterexample :
    (account_db_txt_init upstream scenario_disk).1 = true ∧
    (account_db_txt_init upstream scenario_disk).2.accounts.map (fun e => e.1) = [1001] ∧
    (account_db_txt_init upstream scenario_disk).2.next_account_id = 2000000 ∧
    (account_db_txt_init upstream scenario_disk).2.next_account_id ≠ 1002 := by
  decide

theorem newid_line_raises (next : Int) (line : Str) (h : is_newid_line next line = true) :
    next < ((sscanf_newid line).map (fun r => r.1)).getD 0 := by
  unfold is_newid_line at h
  split at h
  · next id2 n account_id n2 h1 h2 =>
    simp only [Bool.and_eq_true, decide_eq_true_eq] at h
    rw [h2]
    exact h.2
  · exact absurd h (by decide)

theorem fromstr_isSome_iff (cfg : Config) (str : Str) (version : Nat) :
    (mmo_auth_fromstr cfg str version).isSome = true ↔
      (version = 20080409 ∧ (sv_split '\t' str).length = 13) ∨
      (version = 0 ∧ (sv_split '\t' str).length = 14) ∨
      (version = 0 ∧ (sv_split '\t' str).length = 13) ∨
      (version = 0 ∧ (sv_split '\t' str).length = 8) := by
  unfold mmo_auth_fromstr
  split
  · next h => simp [h]
  · next h => simp [h]
  · next h => simp [h]
  · next h => simp [h]
  · next h1 h2 h3 h4 =>
    simp only [Option.isSome_none, Bool.false_eq_true, false_iff, not_or, not_and]
    refine ⟨?_, ?_, ?_, ?_⟩
    · intro hv hl
      match hs : sv_split '\t' str, hl with
      | [f1, f2, f3, f4, f5, f6, f7, f8, f9, f10, f11, f12, f13], _ =>
        exact h1 _ _ _ _ _ _ _ _ _ _ _ _ _ hv hs
    · intro hv hl
      match hs : sv_split '\t' str, hl with
      | [f1, f2, f3, f4, f5, f6, f7, f8, f9, f10, f11, f12, f13, f14], _ =>
        exact h2 _ _ _ _ _ _ _ _ _ _ _ _ _ _ hv hs
    · intro hv hl
      match hs : sv_split '\t' str, hl with
      | [f1, f2, f3, f4, f5, f6, f7, f8, f9, f10, f11, f12, f13], _ =>
        exact h3 _ _ _ _ _ _ _ _ _ _ _ _ _ hv hs
    · intro hv hl
      match hs : sv_split '\t' str, hl with
      | [f1, f2, f3, f4, f5, f6, f7, f8], _ =>
        exact h4 _ _ _ _ _ _ _ _ hv hs

/-- C9 as amended (unsupported layouts yield no record).  `mmo_auth_fromstr`
returns a record if and only if the pair (declared version, number of
tab-separated fields) is one of (20080409, 13), (0, 14), (0, 13), (0, 8).  For a
line with any other pair the loading loop stores no record: it leaves the map
and the dirty counter unchanged and continues with the next line.  The
auto-increment counter is unchanged too, with one exception: a line that the
loop reads as a next-id marker above the counter (line 104) raises the counter
to the id of the marker.  A line that is neither such a marker nor a format
version definition leaves the whole state of the loop, the declared version
included, unchanged. -/
theorem unsupported_layout (cfg : Config) (str : Str) (version : Nat) :
    ((mmo_auth_fromstr cfg str version).isSome = true ↔
      (version = 20080409 ∧ (sv_split '\t' str).length = 13) ∨
      (version = 0 ∧ (sv_split '\t' str).length = 14) ∨
      (version = 0 ∧ (sv_split '\t' str).length = 13) ∨
      (version = 0 ∧ (sv_split '\t' str).length = 8)) ∧
    (∀ (db : AccountDB_TXT) (rest : List Str),
      mmo_auth_fromstr cfg str version = none →
      (init_line cfg (db, version) str).1.accounts = db.accounts ∧
      (init_line cfg (db, version) str).1.auths_before_save = db.auths_before_save ∧
      (init_line cfg (db, version) str).1.next_account_id =
        (if is_comment_line str = false ∧ is_version_line str = false ∧
            is_newid_line db.next_account_id str = true then
          ((sscanf_newid str).map (fun r => r.1)).getD 0
        else db.next_account_id) ∧
      (is_comment_line str = false → is_version_line str = false →
        is_newid_line db.next_account_id str = true →
        db.next_account_id < (init_line cfg (db, version) str).1.next_account_id) ∧
      (is_version_line str = false → is_newid_line db.next_account_id str = false →
        init_line cfg (db, version) str = (db, version)) ∧
      init_lines cfg (db, version) (str :: rest)
        = init_lines cfg (init_line cfg (db, version) str) rest) := by
  refine ⟨fromstr_isSome_iff cfg str version, ?_⟩
  intro db rest hnone
  have hline : init_line cfg (db, version) str =
      if is_comment_line str = true then (db, version)
      else if is_version_line str = true then
        (db, toUInt32 (((scan_d str).map (fun r => r.1)).getD 0))
      else if is_newid_line db.next_account_id str = true then
        ({ db with next_account_id := ((sscanf_newid str).map (fun r => r.1)).getD 0 }, version)
      else (db, version) := by
    rw [init_line_eq, init_record_none cfg (db, version) str hnone]
  refine ⟨?_, ?_, ?_, ?_, ?_, by rw [init_lines_cons]⟩
  · rw [hline]
    cases is_comment_line str <;> cases is_version_line str <;>
      cases is_newid_line db.next_account_id str <;> simp
  · rw [hline]
    cases is_comment_line str <;> cases is_version_line str <;>
      cases is_newid_line db.next_account_id str <;> simp
  · rw [hline]
    cases is_comment_line str <;> cases is_version_line str <;>
      cases is_newid_line db.next_account_id str <;> simp
  · intro hc hv hn
    rw [hline, hc, hv, hn]
    simpa using newid_line_raises db.next_account_id str hn
  · intro hv hn
    rw [hline, hv, hn]
    simp

/-- Instance of `unsupported_layout`: under version 20080409 a line with three
fields yields no record and the loop skips it; the line `2000005<TAB>%newid%`
has two fields and yields no record either, and the loop, whose counter is
2000000, keeps the map and sets the counter to 2000005. -/
theorem unsupported_layout_witness :
    mmo_auth_fromstr upstream short_record 20080409 = none ∧
    init_line upstream (one_account_db, 20080409) short_record = (one_account_db, 20080409) ∧
    (init_line upstream (init_state upstream, 20080409) marker_line).1.accounts = [] ∧
    (init_line upstream (init_state upstream, 20080409) marker_line).1.next_account_id
      = 2000005 :=
  ⟨by decide,
   ((unsupported_layout upstream short_record 20080409).2
      one_account_db [] (by decide)).2.2.2.2.1 (by decide) (by decide),
   ((unsupported_layout upstream marker_line 20080409).2
      (init_state upstream) [] (by decide)).1,
   (((unsupported_layout upstream marker_line 20080409).2
      (init_state upstream) [] (by decide)).2.2.1).trans (by decide)⟩

/-- C9 as stated fails on a next-id marker.  Under the declared version
20080409 the line `2000005<TAB>%newid%` has two tab-separated fields, a pair
that no layout describes, and `mmo_auth_fromstr` returns no record for it; yet
the loading loop, whose counter is 2000000, does not leave the counter
unchanged: the test of line 104 takes the line first and raises the counter to
2000005, as `account_db_txt_init` does on a file that holds the version line
and this marker. -/
theorem unsupported_layout_counterexample :
    (sv_split '\t' marker_line).length = 2 ∧
    mmo_auth_fromstr upstream marker_line 20080409 = none ∧
    (init_state upstream).next_account_id = 2000000 ∧
    (init_line upstream (init_state upstream, 20080409) marker_line).1.next_account_id
      = 2000005 ∧
    (account_db_txt_init upstream marker_disk).1 = true ∧
    (account_db_txt_init upstream marker_disk).2.accounts = [] ∧
    (account_db_txt_init upstream marker_disk).2.next_account_id = 2000005 := by
  decide

/-! ## The party transaction -/

theorem exec_writes_spec (ws : List Stmt) : ∀ (h : Sql),
    (exec_writes h ws).1 = (attempt h.ok h.log.length ws).2 ∧
    (exec_writes h ws).2.log = h.log ++ (attempt h.ok h.log.length ws).1 ∧
    (exec_writes h ws).2.ok = h.ok ∧ (exec_writes h ws).2.insert_id = h.insert_id := by
  induction ws with
  | nil => intro h; simp [exec_writes, attempt]
  | cons w ws ih =>
    intro h
    cases hk : h.ok h.log.length with
    | false => simp [exec_writes, attempt, Sql_Query, hk]
    | true =>
      have := ih (Sql_Query h w).2
      simp only [Sql_Query, List.length_append, List.length_singleton, hk] at this
      simp [exec_writes, attempt, Sql_Query, hk, this]

theorem exec_writes_nil (h : Sql) : exec_writes h [] = (true, h) := rfl

theorem exec_writes_cons (h : Sql) (w : Stmt) (ws : List Stmt) :
    exec_writes h (w :: ws) =
      if (Sql_Query h w).1 = false then (false, (Sql_Query h w).2)
      else exec_writes (Sql_Query h w).2 ws := rfl

theorem tosql_try_eq (cfg : Config) (h : Sql) (p : party) (flag index : Nat) :
    tosql_try cfg h p flag index =
      if (tosql_create h p flag index).1 = false then
        (false, (tosql_create h p flag index).2.1, (tosql_create h p flag index).2.2)
      else
        ((exec_writes (tosql_create h p flag index).2.1
            (tail_writes cfg (tosql_create h p flag index).2.2 flag index)).1,
         (exec_writes (tosql_create h p flag index).2.1
            (tail_writes cfg (tosql_create h p flag index).2.2 flag index)).2,
         (tosql_create h p flag index).2.2) := by
  unfold tosql_try
  generalize tosql_create h p flag index = c
  unfold tail_writes tosql_basic tosql_leader tosql_addmember tosql_delmember
  by_cases c2 : flag &&& PS_BASIC = 0 <;> by_cases c3 : flag &&& PS_LEADER = 0 <;>
  by_cases c4 : flag &&& PS_ADDMEMBER = 0 <;> by_cases c5 : flag &&& PS_DELMEMBER = 0 <;>
  simp only [c2, c3, c4, c5, ne_eq, if_true, if_false, not_true_eq_false, not_false_eq_true,
    List.append_nil, List.nil_append, List.singleton_append, List.cons_append,
    exec_writes_cons, exec_writes_nil] <;>
  (split_ifs <;> simp_all)

theorem tosql_create_unselected (h : Sql) (p : party) (flag index : Nat)
    (c1 : flag &&& PS_CREATE = 0) : tosql_create h p flag index = (true, h, p) := by
  simp [tosql_create, c1]

theorem finish_spec (h hh : Sql) (t : Bool) (entries : List (Stmt × Bool)) (_pp : party)
    (hok : hh.ok = h.ok) (hlog : hh.log = h.log ++ (Stmt.start_transaction, true) :: entries) :
    ((if (Sql_Query hh (if t = true then Stmt.commit else Stmt.rollback)).1 = false then false
        else t) = (t && h.ok (h.log.length + 1 + entries.length))) ∧
    (Sql_Query hh (if t = true then Stmt.commit else Stmt.rollback)).2.log
      = h.log ++ ((Stmt.start_transaction, true) :: entries ++
          [(if t = true then Stmt.commit else Stmt.rollback,
            h.ok (h.log.length + 1 + entries.length))]) := by
  have hl : hh.log.length = h.log.length + 1 + entries.length := by
    rw [hlog]; simp; omega
  simp only [Sql_Query, hok, hl]
  rw [hlog]
  generalize h.ok (h.log.length + 1 + entries.length) = b
  constructor
  · cases t <;> cases b <;> rfl
  · simp

theorem tosql_refines (cfg : Config) (h : Sql) (p : party) (flag index : Nat)
    (hid : p.party_id ≠ 0) :
    (mmo_party_tosql cfg h p flag index).1
      = (transaction h.ok h.log.length (selected_writes cfg p flag index h.insert_id)
          (id_mismatch p flag h.insert_id)).2 ∧
    (mmo_party_tosql cfg h p flag index).2.1.log
      = h.log ++ (transaction h.ok h.log.length (selected_writes cfg p flag index h.insert_id)
          (id_mismatch p flag h.insert_id)).1 := by
  unfold mmo_party_tosql
  simp only [hid, if_false]
  rw [tosql_try_eq]
  cases hs : h.ok h.log.length with
  | false => simp [Sql_Query, hs, transaction]
  | true =>
    have hs1 : (Sql_Query h Stmt.start_transaction).1 = true := by simp [Sql_Query, hs]
    have hs2 : (Sql_Query h Stmt.start_transaction).2
        = { h with log := h.log ++ [(Stmt.start_transaction, true)] } := by
      simp [Sql_Query, hs]
    simp only [hs1, hs2, Bool.true_eq_false, if_false]
    by_cases c1 : flag &&& PS_CREATE = 0
    · rw [tosql_create_unselected _ _ _ _ c1]
      simp only [Bool.true_eq_false, if_false]
      obtain ⟨e1, e2, e3, e4⟩ := exec_writes_spec (tail_writes cfg p flag index)
        { h with log := h.log ++ [(Stmt.start_transaction, true)] }
      simp only [List.length_append, List.length_singleton] at e1 e2
      have hf := finish_spec h _ (attempt h.ok (h.log.length + 1) (tail_writes cfg p flag index)).2
        (attempt h.ok (h.log.length + 1) (tail_writes cfg p flag index)).1 p e3
        (by rw [e2]; simp)
      rw [e1]
      simp only [transaction, hs, Bool.true_eq_false, if_false, selected_writes, c1, ne_eq,
        not_true_eq_false, id_mismatch, attempted, decide_False, Bool.false_and]
      exact hf
    · cases hi : h.ok (h.log.length + 1) with
      | false =>
        have hc : tosql_create { h with log := h.log ++ [(Stmt.start_transaction, true)] } p flag
            index = (false, { h with log := h.log ++ [(Stmt.start_transaction, true)] ++
              [(Stmt.insert_party (if p.party_id ≠ -1 then some p.party_id else none) p.name
                (p.exp % 256) (p.item % 256) (p.member_at index).account_id
                (p.member_at index).char_id, false)] }, p) := by
          simp [tosql_create, c1, Sql_Query, hi]
        rw [hc]
        simp only [if_true]
        have hf := finish_spec h { h with log := h.log ++ [(Stmt.start_transaction, true)] ++
              [(Stmt.insert_party (if p.party_id ≠ -1 then some p.party_id else none) p.name
                (p.exp % 256) (p.item % 256) (p.member_at index).account_id
                (p.member_at index).char_id, false)] } false
          [(Stmt.insert_party (if p.party_id ≠ -1 then some p.party_id else none) p.name
                (p.exp % 256) (p.item % 256) (p.member_at index).account_id
                (p.member_at index).char_id, false)] p rfl (by simp)
        have ha : attempted h.ok (h.log.length + 1)
            (selected_writes cfg p flag index h.insert_id) (id_mismatch p flag h.insert_id)
            = ([(Stmt.insert_party (if p.party_id ≠ -1 then some p.party_id else none) p.name
                (p.exp % 256) (p.item % 256) (p.member_at index).account_id
                (p.member_at index).char_id, false)], false) := by
          unfold attempted selected_writes
          split <;> simp [c1, attempt, hi]
        simp only [transaction, hs, Bool.true_eq_false, if_false, ha]
        exact hf
      | true =>
        have key : ∀ pp : party,
            ((if (Sql_Query (exec_writes { h with log := h.log ++ [(Stmt.start_transaction, true)] ++
                  [(Stmt.insert_party (if p.party_id ≠ -1 then some p.party_id else none) p.name
                    (p.exp % 256) (p.item % 256) (p.member_at index).account_id
                    (p.member_at index).char_id, true)] } (tail_writes cfg pp flag index)).2
                (if (exec_writes { h with log := h.log ++ [(Stmt.start_transaction, true)] ++
                  [(Stmt.insert_party (if p.party_id ≠ -1 then some p.party_id else none) p.name
                    (p.exp % 256) (p.item % 256) (p.member_at index).account_id
                    (p.member_at index).char_id, true)] } (tail_writes cfg pp flag index)).1 = true
                  then Stmt.commit else Stmt.rollback)).1 = false then false
              else (exec_writes { h with log := h.log ++ [(Stmt.start_transaction, true)] ++
                  [(Stmt.insert_party (if p.party_id ≠ -1 then some p.party_id else none) p.name
                    (p.exp % 256) (p.item % 256) (p.member_at index).account_id
                    (p.member_at index).char_id, true)] } (tail_writes cfg pp flag index)).1)
              = (transaction h.ok h.log.length
                  (Stmt.insert_party (if p.party_id ≠ -1 then some p.party_id else none) p.name
                    (p.exp % 256) (p.item % 256) (p.member_at index).account_id
                    (p.member_at index).char_id :: tail_writes cfg pp flag index) false).2) ∧
            (Sql_Query (exec_writes { h with log := h.log ++ [(Stmt.start_transaction, true)] ++
                  [(Stmt.insert_party (if p.party_id ≠ -1 then some p.party_id else none) p.name
                    (p.exp % 256) (p.item % 256) (p.member_at index).account_id
                    (p.member_at index).char_id, true)] } (tail_writes cfg pp flag index)).2
                (if (exec_writes { h with log := h.log ++ [(Stmt.start_transaction, true)] ++
                  [(Stmt.insert_party (if p.party_id ≠ -1 then some p.party_id else none) p.name
                    (p.exp % 256) (p.item % 256) (p.member_at index).account_id
                    (p.member_at index).char_id, true)] } (tail_writes cfg pp flag index)).1 = true
                  then Stmt.commit else Stmt.rollback)).2.log
              = h.log ++ (transaction h.ok h.log.length
                  (Stmt.insert_party (if p.party_id ≠ -1 then some p.party_id else none) p.name
                    (p.exp % 256) (p.item % 256) (p.member_at index).account_id
                    (p.member_at index).char_id :: tail_writes cfg pp flag index) false).1 := by
          intro pp
          obtain ⟨e1, e2, e3, e4⟩ := exec_writes_spec (tail_writes cfg pp flag index)
            { h with log := h.log ++ [(Stmt.start_transaction, true)] ++
                  [(Stmt.insert_party (if p.party_id ≠ -1 then some p.party_id else none) p.name
                    (p.exp % 256) (p.item % 256) (p.member_at index).account_id
                    (p.member_at index).char_id, true)] }
          simp only [List.length_append, List.length_singleton] at e1 e2
          have hf := finish_spec h _
            (attempt h.ok (h.log.length + 1 + 1) (tail_writes cfg pp flag index)).2
            ((Stmt.insert_party (if p.party_id ≠ -1 then some p.party_id else none) p.name
                    (p.exp % 256) (p.item % 256) (p.member_at index).account_id
                    (p.member_at index).char_id, true) ::
              (attempt h.ok (h.log.length + 1 + 1) (tail_writes cfg pp flag index)).1) p e3
            (by rw [e2]; simp)
          rw [e1]
          simp only [transaction, hs, Bool.true_eq_false, if_false, attempted, attempt, hi, if_true]
          exact hf
        by_cases hneg : p.party_id = -1
        · have hc : tosql_create { h with log := h.log ++ [(Stmt.start_transaction, true)] } p flag
              index = (true, { h with log := h.log ++ [(Stmt.start_transaction, true)] ++
                [(Stmt.insert_party (if p.party_id ≠ -1 then some p.party_id else none) p.name
                  (p.exp % 256) (p.item % 256) (p.member_at index).account_id
                  (p.member_at index).char_id, true)] }, { p with party_id := h.insert_id }) := by
            simp [tosql_create, c1, Sql_Query, hi, hneg]
          rw [hc]
          simp only [Bool.true_eq_false, if_false]
          have hw : selected_writes cfg p flag index h.insert_id
              = Stmt.insert_party (if p.party_id ≠ -1 then some p.party_id else none) p.name
                  (p.exp % 256) (p.item % 256) (p.member_at index).account_id
                  (p.member_at index).char_id ::
                  tail_writes cfg { p with party_id := h.insert_id } flag index := by
            simp [selected_writes, c1, hneg]
          have hm : id_mismatch p flag h.insert_id = false := by
            simp [id_mismatch, hneg]
          rw [hw, hm]
          exact key _
        · by_cases hmis : p.party_id = h.insert_id
          · have hc : tosql_create { h with log := h.log ++ [(Stmt.start_transaction, true)] } p
                flag index = (true, { h with log := h.log ++ [(Stmt.start_transaction, true)] ++
                  [(Stmt.insert_party (if p.party_id ≠ -1 then some p.party_id else none) p.name
                    (p.exp % 256) (p.item % 256) (p.member_at index).account_id
                    (p.member_at index).char_id, true)] }, p) := by
              have hneg2 : ¬ h.insert_id = -1 := fun e => hneg (hmis.trans e)
              simp [tosql_create, c1, Sql_Query, hi, hneg, hmis, hneg2]
            rw [hc]
            simp only [Bool.true_eq_false, if_false]
            have hw : selected_writes cfg p flag index h.insert_id
                = Stmt.insert_party (if p.party_id ≠ -1 then some p.party_id else none) p.name
                    (p.exp % 256) (p.item % 256) (p.member_at index).account_id
                    (p.member_at index).char_id :: tail_writes cfg p flag index := by
              simp [selected_writes, c1, hneg]
            have hm : id_mismatch p flag h.insert_id = false := by
              simp [id_mismatch, hmis]
            rw [hw, hm]
            exact key _
          · have hc : tosql_create { h with log := h.log ++ [(Stmt.start_transaction, true)] } p
                flag index = (false, { h with log := h.log ++ [(Stmt.start_transaction, true)] ++
                  [(Stmt.insert_party (if p.party_id ≠ -1 then some p.party_id else none) p.name
                    (p.exp % 256) (p.item % 256) (p.member_at index).account_id
                    (p.member_at index).char_id, true)] }, p) := by
              simp [tosql_create, c1, Sql_Query, hi, hneg, hmis]
            rw [hc]
            simp only [if_true]
            have hf := finish_spec h { h with log := h.log ++ [(Stmt.start_transaction, true)] ++
                  [(Stmt.insert_party (if p.party_id ≠ -1 then some p.party_id else none) p.name
                    (p.exp % 256) (p.item % 256) (p.member_at index).account_id
                    (p.member_at index).char_id, true)] } false
              [(Stmt.insert_party (if p.party_id ≠ -1 then some p.party_id else none) p.name
                    (p.exp % 256) (p.item % 256) (p.member_at index).account_id
                    (p.member_at index).char_id, true)] p rfl (by simp)
            have ha : attempted h.ok (h.log.length + 1)
                (selected_writes cfg p flag index h.insert_id) (id_mismatch p flag h.insert_id)
                = ([(Stmt.insert_party (if p.party_id ≠ -1 then some p.party_id else none) p.name
                    (p.exp % 256) (p.item % 256) (p.member_at index).account_id
                    (p.member_at index).char_id, true)], false) := by
              have hm : id_mismatch p flag h.insert_id = true := by
                simp [id_mismatch, hneg, hmis, c1]
              simp [attempted, hm, selected_writes, c1, attempt, hi]
            simp only [transaction, hs, Bool.true_eq_false, if_false, ha]
            exact hf

theorem remove_refines (h : Sql) (party_id : Int) :
    (party_db_sql_remove h party_id).1
      = (transaction h.ok h.log.length
          [Stmt.clear_members party_id, Stmt.delete_party party_id] false).2 ∧
    (party_db_sql_remove h party_id).2.log
      = h.log ++ (transaction h.ok h.log.length
          [Stmt.clear_members party_id, Stmt.delete_party party_id] false).1 := by
  have htry : ∀ hh : Sql, remove_try hh party_id
      = exec_writes hh [Stmt.clear_members party_id, Stmt.delete_party party_id] := by
    intro hh
    simp only [remove_try, exec_writes_cons, exec_writes_nil]
  simp only [party_db_sql_remove, htry]
  cases hs : h.ok h.log.length with
  | false => simp [Sql_Query, hs, transaction]
  | true =>
    have hs1 : (Sql_Query h Stmt.start_transaction).1 = true := by simp [Sql_Query, hs]
    have hs2 : (Sql_Query h Stmt.start_transaction).2
        = { h with log := h.log ++ [(Stmt.start_transaction, true)] } := by
      simp [Sql_Query, hs]
    simp only [hs1, hs2, Bool.true_eq_false, if_false]
    obtain ⟨e1, e2, e3, e4⟩ :=
      exec_writes_spec [Stmt.clear_members party_id, Stmt.delete_party party_id]
        { h with log := h.log ++ [(Stmt.start_transaction, true)] }
    simp only [List.length_append, List.length_singleton] at e1 e2
    have hf := finish_spec h _
      (attempt h.ok (h.log.length + 1)
        [Stmt.clear_members party_id, Stmt.delete_party party_id]).2
      (attempt h.ok (h.log.length + 1)
        [Stmt.clear_members party_id, Stmt.delete_party party_id]).1
      ⟨0, [], 0, 0, []⟩ e3 (by rw [e2]; simp)
    rw [e1]
    simp only [transaction, hs, Bool.true_eq_false, if_false, attempted]
    exact hf

theorem step_write (insert_id : Int) (d t : Tables) (w : Stmt) (hw : w.is_write = true) :
    Store.step insert_id ⟨d, some t⟩ (w, true) = ⟨d, some (t.write insert_id w)⟩ := by
  cases w <;> first | rfl | exact absurd hw (by decide)

theorem step_failed (insert_id : Int) (st : Store) (w : Stmt) :
    Store.step insert_id st (w, false) = st := by
  simp [Store.step]

theorem run_in_txn (insert_id : Int) (es : List (Stmt × Bool)) :
    ∀ (d t : Tables), (∀ e ∈ es, e.1.is_write = true) →
      ∃ t2, Store.run insert_id ⟨d, some t⟩ es = ⟨d, some t2⟩ := by
  induction es with
  | nil => intro d t _; exact ⟨t, rfl⟩
  | cons e es ih =>
    intro d t hw
    have he : e.1.is_write = true := hw e (List.mem_cons_self _ _)
    obtain ⟨w, b⟩ := e
    cases b with
    | false =>
      obtain ⟨t2, ht2⟩ := ih d t (fun x hx => hw x (List.mem_cons_of_mem _ hx))
      refine ⟨t2, ?_⟩
      unfold Store.run at ht2 ⊢
      rw [List.foldl_cons, step_failed]
      exact ht2
    | true =>
      obtain ⟨t2, ht2⟩ := ih d (t.write insert_id w)
        (fun x hx => hw x (List.mem_cons_of_mem _ hx))
      refine ⟨t2, ?_⟩
      unfold Store.run at ht2 ⊢
      rw [List.foldl_cons, step_write insert_id d t w he]
      exact ht2

theorem attempt_writes (ok : Nat → Bool) (ws : List Stmt) :
    ∀ pos, (∀ w ∈ ws, w.is_write = true) → ∀ e ∈ (attempt ok pos ws).1, e.1.is_write = true := by
  induction ws with
  | nil => intro pos _ e he; simp [attempt] at he
  | cons w ws ih =>
    intro pos hw e he
    have h1 : w.is_write = true := hw w (List.mem_cons_self _ _)
    by_cases hk : ok pos = true
    · simp only [attempt, hk, if_true, List.mem_cons] at he
      rcases he with he | he
      · rw [he]; exact h1
      · exact ih (pos + 1) (fun x hx => hw x (List.mem_cons_of_mem _ hx)) e he
    · simp only [attempt, hk, if_false, List.mem_singleton, Bool.false_eq_true] at he
      rw [he]; exact h1

theorem attempted_writes (ok : Nat → Bool) (ws : List Stmt) (pos : Nat) (mismatch : Bool)
    (hw : ∀ w ∈ ws, w.is_write = true) :
    ∀ e ∈ (attempted ok pos ws mismatch).1, e.1.is_write = true := by
  unfold attempted
  split
  · exact attempt_writes ok (ws.take 1) pos (fun w h => hw w (List.mem_of_mem_take h))
  · exact attempt_writes ok ws pos hw

theorem transaction_durable (insert_id : Int) (ok : Nat → Bool) (pos : Nat) (ws : List Stmt)
    (mismatch : Bool) (st : Store) (hw : ∀ w ∈ ws, w.is_write = true) (htx : st.txn = none)
    (hres : (transaction ok pos ws mismatch).2 = false) :
    (Store.run insert_id st (transaction ok pos ws mismatch).1).durable = st.durable := by
  unfold transaction at hres ⊢
  cases hs : ok pos with
  | false =>
    simp only [if_true]
    unfold Store.run
    rw [List.foldl_cons, step_failed]
    rfl
  | true =>
    rw [hs] at hres
    simp only [Bool.true_eq_false, if_false] at hres ⊢
    obtain ⟨t2, ht2⟩ := run_in_txn insert_id (attempted ok (pos + 1) ws mismatch).1
      st.durable st.durable (attempted_writes ok ws (pos + 1) mismatch hw)
    have h0 : Store.step insert_id st (Stmt.start_transaction, true)
        = ⟨st.durable, some st.durable⟩ := by
      simp [Store.step, htx]
    unfold Store.run at ht2 ⊢
    rw [List.cons_append, List.foldl_cons, h0, List.foldl_append, ht2, List.foldl_cons,
      List.foldl_nil]
    cases hf : ok (pos + 1 + (attempted ok (pos + 1) ws mismatch).1.length) with
    | false => rw [step_failed]
    | true =>
      rw [hf] at hres
      simp only [Bool.and_true] at hres
      simp [Store.step, hres]

theorem selected_writes_are_writes (cfg : Config) (p : party) (flag index : Nat)
    (insert_id : Int) : ∀ w ∈ selected_writes cfg p flag index insert_id, w.is_write = true := by
  have htail : ∀ pp : party, ∀ w ∈ tail_writes cfg pp flag index, w.is_write = true := by
    intro pp w hw
    unfold tail_writes at hw
    simp only [List.mem_append] at hw
    rcases hw with ((hw | hw) | hw) | hw <;>
    · split_ifs at hw
      · rw [List.mem_singleton.mp hw]; rfl
      · exact absurd hw (List.not_mem_nil _)
  intro w hw
  unfold selected_writes at hw
  by_cases hc : flag &&& PS_CREATE ≠ 0
  · rw [if_pos hc] at hw
    rcases List.mem_cons.mp hw with hw | hw
    · rw [hw]; rfl
    · exact htail _ w hw
  · rw [if_neg hc] at hw
    exact htail _ w hw

/-- C2 as amended (transactional atomicity of the party backend).  For every
party with a non-zero id, every update mask and every pattern of statement
outcomes, `mmo_party_tosql` follows the discipline `transaction`: it issues
`START TRANSACTION` first and, when that fails, nothing else, returning false;
otherwise it executes the selected writes in the fixed order of the source,
stopping at the first one that fails or, when a party is created with an
explicit id, right after an insertion whose generated id differs from it; it
then issues `COMMIT` if every selected write went through and `ROLLBACK`
otherwise, and returns true if and only if every selected write went through
and the `COMMIT` succeeded.  `party_db_sql_remove` follows the same discipline
with its two writes.  Hence, over a store that honours transactions and has
none open, a call that returns false leaves the persisted rows as they were. -/
theorem party_transaction_atomic (cfg : Config) (h : Sql) (p : party) (flag index : Nat)
    (party_id : Int) (st : Store) (hid : p.party_id ≠ 0) (htx : st.txn = none) :
    ((mmo_party_tosql cfg h p flag index).1
        = (transaction h.ok h.log.length (selected_writes cfg p flag index h.insert_id)
            (id_mismatch p flag h.insert_id)).2 ∧
      (mmo_party_tosql cfg h p flag index).2.1.log
        = h.log ++ (transaction h.ok h.log.length (selected_writes cfg p flag index h.insert_id)
            (id_mismatch p flag h.insert_id)).1 ∧
      ((mmo_party_tosql cfg h p flag index).1 = false →
        (Store.run h.insert_id st
          ((mmo_party_tosql cfg h p flag index).2.1.log.drop h.log.length)).durable
          = st.durable)) ∧
    ((party_db_sql_remove h party_id).1
        = (transaction h.ok h.log.length
            [Stmt.clear_members party_id, Stmt.delete_party party_id] false).2 ∧
      (party_db_sql_remove h party_id).2.log
        = h.log ++ (transaction h.ok h.log.length
            [Stmt.clear_members party_id, Stmt.delete_party party_id] false).1 ∧
      ((party_db_sql_remove h party_id).1 = false →
        (Store.run h.insert_id st
          ((party_db_sql_remove h party_id).2.log.drop h.log.length)).durable
          = st.durable)) := by
  obtain ⟨a1, a2⟩ := tosql_refines cfg h p flag index hid
  obtain ⟨b1, b2⟩ := remove_refines h party_id
  refine ⟨⟨a1, a2, ?_⟩, ⟨b1, b2, ?_⟩⟩
  · intro hres
    rw [a2, List.drop_left]
    exact transaction_durable h.insert_id h.ok h.log.length _ _ st
      (selected_writes_are_writes cfg p flag index h.insert_id) htx (a1 ▸ hres)
  · intro hres
    rw [b2, List.drop_left]
    refine transaction_durable h.insert_id h.ok h.log.length _ _ st ?_ htx (b1 ▸ hres)
    intro w hw
    rcases List.mem_cons.mp hw with hw | hw
    · rw [hw]; rfl
    · rw [List.mem_singleton.mp hw]; rfl

/-- Instance of `party_transaction_atomic`: creating the party with explicit
id 5 while the store reports the generated id 6 returns false, and the persisted
rows of `sample_store` are as before. -/
theorem party_transaction_atomic_witness :
    (mmo_party_tosql upstream (all_ok 6) sample_party PS_CREATE 0).1 = false ∧
    (Store.run (all_ok 6).insert_id sample_store
      ((mmo_party_tosql upstream (all_ok 6) sample_party PS_CREATE 0).2.1.log.drop
        (all_ok 6).log.length)).durable = sample_store.durable :=
  ⟨by decide,
   (party_transaction_atomic upstream (all_ok 6) sample_party PS_CREATE 0 5 sample_store
      (by decide) rfl).1.2.2 (by decide)⟩

/-- C2 as stated fails.  With every statement succeeding, the creation of a
party with explicit id 5 for which the store reports the generated id 6 issues
`ROLLBACK` and returns false, although the claim gives `COMMIT` and true when
every selected write succeeded; and when `START TRANSACTION` fails the code
issues nothing else, neither the writes nor `ROLLBACK`. -/
theorem party_transaction_counterexample :
    (mmo_party_tosql upstream (all_ok 6) sample_party PS_CREATE 0).2.1.log
      = [(Stmt.start_transaction, true),
         (Stmt.insert_party (some 5) "abc".toList 1 0 10 20, true),
         (Stmt.rollback, true)] ∧
    (mmo_party_tosql upstream (all_ok 6) sample_party PS_CREATE 0).1 = false ∧
    claimed_transaction (all_ok 6).ok 0 (selected_writes upstream sample_party PS_CREATE 0 6)
      = ([(Stmt.start_transaction, true),
          (Stmt.insert_party (some 5) "abc".toList 1 0 10 20, true),
          (Stmt.commit, true)], true) ∧
    (mmo_party_tosql upstream none_ok sample_party PS_LEADER 0).2.1.log
      = [(Stmt.start_transaction, false)] ∧
    (claimed_transaction none_ok.ok 0 (selected_writes upstream sample_party PS_LEADER 0 0)).1
      = [(Stmt.start_transaction, false), (Stmt.update_leader 10 20 5, false),
         (Stmt.rollback, false)] := by
  decide

/-! ## The round trip of the codec -/

theorem digit_char (d : Nat) (hd : d < 10) :
    (Char.ofNat (48 + d)).toNat - 48 = d ∧ isdigit (Char.ofNat (48 + d)) = true ∧
    isspace (Char.ofNat (48 + d)) = false ∧ Char.ofNat (48 + d) ≠ '-' ∧
    Char.ofNat (48 + d) ≠ '+' ∧ Char.ofNat (48 + d) ≠ '\t' := by
  interval_cases d <;> decide

theorem decimal_append (ds : Str) (c : Char) :
    decimal (ds ++ [c]) = 10 * decimal ds + (c.toNat - 48) := by
  simp [decimal, List.foldl_append]

theorem utoa_spec : ∀ (fuel n : Nat) (acc : Str), n < fuel →
    ∃ ds, utoa fuel n acc = ds ++ acc ∧ ds ≠ [] ∧ (∀ c ∈ ds, isdigit c = true) ∧
      decimal ds = n := by
  intro fuel
  induction fuel with
  | zero => intro n acc h; omega
  | succ fuel ih =>
    intro n acc h
    by_cases h10 : n < 10
    · obtain ⟨a, b, _⟩ := digit_char n h10
      refine ⟨[Char.ofNat (48 + n)], ?_, by simp, ?_, ?_⟩
      · simp [utoa, h10]
      · intro c hc
        rw [List.mem_singleton.mp hc]; exact b
      · simp [decimal, a]
    · obtain ⟨ds, e1, e2, e3, e4⟩ := ih (n / 10) (Char.ofNat (48 + n % 10) :: acc) (by omega)
      obtain ⟨a, b, _⟩ := digit_char (n % 10) (by omega)
      refine ⟨ds ++ [Char.ofNat (48 + n % 10)], ?_, by simp, ?_, ?_⟩
      · simp [utoa, h10, e1]
      · intro c hc
        rcases List.mem_append.mp hc with hc | hc
        · exact e3 c hc
        · rw [List.mem_singleton.mp hc]; exact b
      · rw [decimal_append, e4, a]; omega

theorem fmt_u_spec (n : Nat) :
    fmt_u n ≠ [] ∧ (∀ c ∈ fmt_u n, isdigit c = true) ∧ decimal (fmt_u n) = n := by
  obtain ⟨ds, e1, e2, e3, e4⟩ := utoa_spec (n + 1) n [] (by omega)
  unfold fmt_u
  rw [e1, List.append_nil]
  exact ⟨e2, e3, e4⟩

theorem isdigit_props (c : Char) (h : isdigit c = true) :
    isspace c = false ∧ c ≠ '-' ∧ c ≠ '+' ∧ c ≠ '\t' := by
  unfold isdigit at h
  simp only [Bool.and_eq_true, decide_eq_true_eq] at h
  refine ⟨?_, ?_, ?_, ?_⟩
  · unfold isspace
    simp only [Bool.or_eq_false_iff, decide_eq_false_iff_not]
    refine ⟨⟨⟨⟨⟨?_, ?_⟩, ?_⟩, ?_⟩, ?_⟩, ?_⟩ <;> (intro hc; rw [hc] at h; revert h; decide)
  all_goals (intro hc; rw [hc] at h; revert h; decide)

theorem takeWhile_all (p : Char → Bool) (s : Str) (h : ∀ c ∈ s, p c = true) :
    s.takeWhile p = s := by
  induction s with
  | nil => rfl
  | cons c cs ih =>
    have hc : p c = true := h c (List.mem_cons_self _ _)
    simp only [List.takeWhile, hc]
    rw [ih (fun x hx => h x (List.mem_cons_of_mem _ hx))]

theorem scan_number_digits (ds : Str) (hne : ds ≠ []) (hd : ∀ c ∈ ds, isdigit c = true) :
    scan_number ds = (false, ds, ds.length) := by
  obtain ⟨c, cs, rfl⟩ := List.exists_cons_of_ne_nil hne
  have hc : isdigit c = true := hd c (List.mem_cons_self _ _)
  obtain ⟨h1, h2, h3, _⟩ := isdigit_props c hc
  have htw : (c :: cs).takeWhile isdigit = c :: cs := takeWhile_all isdigit _ hd
  have ht : (c :: cs).takeWhile isspace = [] := by simp [List.takeWhile, h1]
  have hdr : (c :: cs).dropWhile isspace = c :: cs := by simp [List.dropWhile, h1]
  unfold scan_number
  rw [ht, hdr]
  dsimp only
  split
  · next t heq => exact absurd (List.cons.inj heq).1 h2
  · next t heq => exact absurd (List.cons.inj heq).1 h3
  · rw [htw]; simp

theorem scan_number_minus (ds : Str) (hd : ∀ c ∈ ds, isdigit c = true) :
    scan_number ('-' :: ds) = (true, ds, 1 + ds.length) := by
  have htw : ds.takeWhile isdigit = ds := takeWhile_all isdigit _ hd
  have hsp : isspace '-' = false := by decide
  have ht : ('-' :: ds).takeWhile isspace = [] := by simp [List.takeWhile, hsp]
  have hdr : ('-' :: ds).dropWhile isspace = '-' :: ds := by simp [List.dropWhile, hsp]
  unfold scan_number
  rw [ht, hdr]
  simp only [htw, List.length_nil]

theorem scan_number_fmt_d (n : Int) :
    (scan_number (fmt_d n)).1 = decide (n < 0) ∧
    decimal (scan_number (fmt_d n)).2.1 = n.natAbs := by
  unfold fmt_d
  by_cases hn : n < 0
  · obtain ⟨e1, e2, e3⟩ := fmt_u_spec n.natAbs
    simp only [hn, if_true, scan_number_minus _ e2, e3, decide_True, and_self]
  · obtain ⟨e1, e2, e3⟩ := fmt_u_spec n.toNat
    simp only [hn, if_false, scan_number_digits _ e1 e2, e3, decide_False, true_and]
    omega

theorem strtol_fmt_d (cfg : Config) (n : Int) (h1 : - cfg.LONG_MAX - 1 ≤ n)
    (h2 : n ≤ cfg.LONG_MAX) : strtol cfg (fmt_d n) = n := by
  obtain ⟨e1, e2⟩ := scan_number_fmt_d n
  unfold strtol
  simp only [e1, e2, decide_eq_true_eq]
  split_ifs <;> omega

theorem strtoul_fmt_u (cfg : Config) (n : Nat) (h : n < 4294967296) :
    toUInt32 (strtoul cfg (fmt_u n)) = n := by
  obtain ⟨e1, e2, e3⟩ := fmt_u_spec n
  have := cfg.long_range
  unfold strtoul toUInt32
  simp only [scan_number_digits _ e1 e2, e3, Bool.false_eq_true, if_false]
  split_ifs <;> omega

theorem toInt32_id (n : Int) (h1 : -2147483648 ≤ n) (h2 : n ≤ 2147483647) : toInt32 n = n := by
  unfold toInt32
  omega

theorem fmt_d_no_tab (n : Int) : ∀ c ∈ fmt_d n, c ≠ '\t' := by
  intro c hc
  unfold fmt_d at hc
  split_ifs at hc
  · rcases List.mem_cons.mp hc with hc | hc
    · rw [hc]; decide
    · exact (isdigit_props c ((fmt_u_spec _).2.1 c hc)).2.2.2
  · exact (isdigit_props c ((fmt_u_spec _).2.1 c hc)).2.2.2

theorem fmt_u_no_tab (n : Nat) : ∀ c ∈ fmt_u n, c ≠ '\t' := by
  intro c hc
  exact (isdigit_props c ((fmt_u_spec _).2.1 c hc)).2.2.2

theorem sv_split_field (f rest : Str) (hf : ∀ c ∈ f, c ≠ '\t') :
    sv_split '\t' (f ++ '\t' :: rest) = f :: sv_split '\t' rest := by
  induction f with
  | nil => simp [sv_split]
  | cons c cs ih =>
    have hc : c ≠ '\t' := hf c (List.mem_cons_self _ _)
    have := ih (fun x hx => hf x (List.mem_cons_of_mem _ hx))
    simp [sv_split, hc, this]

theorem sv_split_last (f : Str) (hf : ∀ c ∈ f, c ≠ '\t') : sv_split '\t' f = [f] := by
  induction f with
  | nil => simp [sv_split]
  | cons c cs ih =>
    have hc : c ≠ '\t' := hf c (List.mem_cons_self _ _)
    have := ih (fun x hx => hf x (List.mem_cons_of_mem _ hx))
    simp [sv_split, hc, this]

theorem scan_set_exact (p : Char → Bool) (s rest : Str) :
    ∀ (w : Nat), s.length ≤ w → (∀ c ∈ s, p c = true) →
      (∀ c, rest.head? = some c → p c = false) → scan_set p w (s ++ rest) = (s, rest) := by
  induction s with
  | nil =>
    intro w _ _ hrest
    cases w with
    | zero => simp [scan_set]
    | succ w =>
      cases rest with
      | nil => simp [scan_set]
      | cons c cs =>
        have : p c = false := hrest c rfl
        simp [scan_set, this]
  | cons c cs ih =>
    intro w hlen hs hrest
    cases w with
    | zero => simp at hlen
    | succ w =>
      have hc : p c = true := hs c (List.mem_cons_self _ _)
      have := ih w (by simpa using hlen) (fun x hx => hs x (List.mem_cons_of_mem _ hx)) hrest
      simp [scan_set, hc, this]

theorem dropWhile_clean (tail : Str) (ht : ∀ c, tail.head? = some c → isspace c = false) :
    tail.dropWhile isspace = tail := by
  cases tail with
  | nil => rfl
  | cons c cs =>
    have : isspace c = false := ht c rfl
    simp [List.dropWhile, this]

theorem sscanf_reg_entry (key value tail : Str)
    (hk0 : key ≠ []) (hk1 : ∀ c ∈ key, (c != '\t' && c != ',') = true) (hk2 : key.length ≤ 31)
    (hv0 : value ≠ []) (hv1 : ∀ c ∈ value, (c != '\t' && c != ' ') = true)
    (hv2 : value.length ≤ 255)
    (ht : ∀ c, tail.head? = some c → isspace c = false) :
    sscanf_reg (key ++ ',' :: (value ++ ' ' :: tail))
      = some (key, value, (key ++ ',' :: (value ++ ' ' :: tail)).length - tail.length) := by
  have s1 : scan_set (fun c => c != '\t' && c != ',') 31 (key ++ ',' :: (value ++ ' ' :: tail))
      = (key, ',' :: (value ++ ' ' :: tail)) :=
    scan_set_exact _ key _ 31 hk2 hk1 (by intro c hc; simp at hc; subst hc; decide)
  have s2 : scan_set (fun c => c != '\t' && c != ' ') 255 (value ++ ' ' :: tail)
      = (value, ' ' :: tail) :=
    scan_set_exact _ value _ 255 hv2 hv1 (by intro c hc; simp at hc; subst hc; decide)
  have s3 : (' ' :: tail).dropWhile isspace = tail := by
    have hsp : isspace ' ' = true := by decide
    simp only [List.dropWhile, hsp]
    exact dropWhile_clean tail ht
  obtain ⟨k, ks, rfl⟩ := List.exists_cons_of_ne_nil hk0
  obtain ⟨v, vs, rfl⟩ := List.exists_cons_of_ne_nil hv0
  unfold sscanf_reg
  rw [s1]
  simp only [s2, s3]

theorem regs_tostr_clean (rs : List global_reg) (hrs : ∀ r ∈ rs, reg_ok r = true) :
    ∀ c, (regs_tostr rs).head? = some c → isspace c = false := by
  induction rs with
  | nil => intro c hc; simp [regs_tostr] at hc
  | cons r rest ih =>
    intro c hc
    have hr := hrs r (List.mem_cons_self _ _)
    by_cases hk : r.str = []
    · simp only [regs_tostr, hk, ne_eq, not_true_eq_false, if_false] at hc
      exact ih (fun x hx => hrs x (List.mem_cons_of_mem _ hx)) c hc
    · obtain ⟨str, value⟩ := r
      obtain ⟨k, ks, hks⟩ := List.exists_cons_of_ne_nil hk
      simp only at hks
      subst hks
      simp only [regs_tostr, ne_eq, reduceCtorEq, not_false_eq_true, if_true, List.cons_append,
        List.head?_cons, Option.some.injEq] at hc
      simp only [reg_ok, reduceCtorEq, decide_False, Bool.false_or, Bool.and_eq_true,
        List.headD_cons, Bool.not_eq_true', decide_eq_true_eq] at hr
      rw [← hc]
      exact hr.1.1.1.2

theorem regs_loop_tostr (cfg : Config) (rs : List global_reg) :
    ∀ (fuel i : Nat) (acc : List global_reg), (∀ r ∈ rs, reg_ok r = true) →
      i + (written_regs rs).length ≤ cfg.ACCOUNT_REG2_NUM →
      (regs_tostr rs).length < fuel →
      regs_loop cfg fuel i (regs_tostr rs) acc = loop_run.exit (acc ++ written_regs rs) := by
  induction rs with
  | nil =>
    intro fuel i acc _ _ hfuel
    obtain ⟨f, rfl⟩ : ∃ f, fuel = f + 1 := ⟨fuel - 1, by omega⟩
    have e : sscanf_reg [] = none := by decide
    rw [regs_loop_succ]
    simp [regs_tostr, written_regs, e]
  | cons r rest ih =>
    intro fuel i acc hrs hnum hfuel
    have hr := hrs r (List.mem_cons_self _ _)
    have hrest : ∀ x ∈ rest, reg_ok x = true := fun x hx => hrs x (List.mem_cons_of_mem _ hx)
    by_cases hk : r.str = []
    · have e1 : regs_tostr (r :: rest) = regs_tostr rest := by simp [regs_tostr, hk]
      have e2 : written_regs (r :: rest) = written_regs rest := by simp [written_regs, hk]
      rw [e2] at hnum
      rw [e1] at hfuel
      rw [e1, e2]
      exact ih fuel i acc hrest hnum hfuel
    · have e1 : regs_tostr (r :: rest)
          = r.str ++ ',' :: (r.value ++ ' ' :: regs_tostr rest) := by
        simp [regs_tostr, hk]
      have e2 : written_regs (r :: rest) = r :: written_regs rest := by
        simp [written_regs, hk]
      simp only [reg_ok, hk, decide_False, Bool.false_or, Bool.and_eq_true, List.all_eq_true,
        decide_eq_true_eq, Bool.not_eq_true'] at hr
      obtain ⟨⟨⟨⟨⟨hk1, hk2⟩, _⟩, hv0⟩, hv1⟩, hv2⟩ := hr
      rw [e1] at hfuel ⊢
      rw [e2] at hnum ⊢
      obtain ⟨f, rfl⟩ : ∃ f, fuel = f + 1 := ⟨fuel - 1, by omega⟩
      have hi : i < cfg.ACCOUNT_REG2_NUM := by
        simp only [List.length_cons] at hnum; omega
      have hs := sscanf_reg_entry r.str r.value (regs_tostr rest) hk
        (fun c hc => (Bool.and_eq_true _ _).mpr (hk1 c hc)) hk2 hv0
        (fun c hc => (Bool.and_eq_true _ _).mpr (hv1 c hc)) hv2
        (regs_tostr_clean rest hrest)
      have hdrop : (r.str ++ ',' :: (r.value ++ ' ' :: regs_tostr rest)).drop
          ((r.str ++ ',' :: (r.value ++ ' ' :: regs_tostr rest)).length
            - (regs_tostr rest).length) = regs_tostr rest := by
        have : (r.str ++ ',' :: (r.value ++ ' ' :: regs_tostr rest))
            = (r.str ++ ',' :: (r.value ++ [' '])) ++ regs_tostr rest := by simp
        rw [this, List.length_append, Nat.add_sub_cancel, List.drop_left]
      have hc1 : safestrncpy r.str 32 = r.str := by
        unfold safestrncpy; exact List.take_of_length_le (by omega)
      have hc2 : safestrncpy r.value 256 = r.value := by
        unfold safestrncpy; exact List.take_of_length_le (by omega)
      rw [regs_loop_succ, if_pos hi, hs]
      simp only [hdrop, hc1, hc2]
      rw [ih f (i + 1) _ hrest (by simp only [List.length_cons] at hnum; omega)
        (by simp only [List.length_append, List.length_cons] at hfuel; omega)]
      simp

theorem parse_regs_tostr (cfg : Config) (rs : List global_reg)
    (hrs : ∀ r ∈ rs, reg_ok r = true) (hlen : rs.length ≤ cfg.ACCOUNT_REG2_NUM) :
    parse_regs cfg (regs_tostr rs) = written_regs rs := by
  have hw : (written_regs rs).length ≤ rs.length := List.length_filter_le _ _
  apply parse_regs_exit
  rw [regs_loop_tostr cfg rs _ 0 [] hrs (by omega) (by omega)]
  simp

theorem regs_tostr_no_tab (rs : List global_reg) (hrs : ∀ r ∈ rs, reg_ok r = true) :
    ∀ c ∈ regs_tostr rs, c ≠ '\t' := by
  induction rs with
  | nil => intro c hc; simp [regs_tostr] at hc
  | cons r rest ih =>
    intro c hc
    have hr := hrs r (List.mem_cons_self _ _)
    have hrest : ∀ x ∈ rest, reg_ok x = true := fun x hx => hrs x (List.mem_cons_of_mem _ hx)
    by_cases hk : r.str = []
    · simp only [regs_tostr, hk, ne_eq, not_true_eq_false, if_false] at hc
      exact ih hrest c hc
    · simp only [reg_ok, hk, decide_False, Bool.false_or, Bool.and_eq_true, List.all_eq_true,
        decide_eq_true_eq, Bool.not_eq_true', bne_iff_ne, ne_eq] at hr
      obtain ⟨⟨⟨⟨⟨hk1, _⟩, _⟩, _⟩, hv1⟩, _⟩ := hr
      simp only [regs_tostr, hk, ne_eq, not_false_eq_true, if_true, List.mem_append,
        List.mem_cons] at hc
      rcases hc with (hc | hc | hc) | hc | hc
      · exact (hk1 c hc).1
      · rw [hc]; decide
      · exact (hv1 c hc).1
      · rw [hc]; decide
      · exact ih hrest c hc

theorem sv_split_char (c : Char) (rest : Str) (hc : c ≠ '\t') :
    sv_split '\t' (c :: '\t' :: rest) = [c] :: sv_split '\t' rest := by
  have := sv_split_field [c] rest (by intro x hx; rw [List.mem_singleton.mp hx]; exact hc)
  simpa using this

theorem written_regs_eq (rs : List global_reg) (hrs : ∀ r ∈ rs, reg_ok r = true) :
    written_regs rs = rs.filter (fun r => decide (r.str ≠ []) && decide (r.value ≠ [])) := by
  unfold written_regs
  apply List.filter_congr
  intro r hr
  have h := hrs r hr
  by_cases hk : r.str = []
  · simp [hk]
  · simp only [reg_ok, hk, decide_False, Bool.false_or, Bool.and_eq_true, decide_eq_true_eq] at h
    simp [hk, h.1.1.2]

theorem tostr_split (cfg : Config) (a : mmo_account) (h : codec_ok cfg a = true) :
    sv_split '\t' (mmo_auth_tostr a) =
      [fmt_d a.account_id, a.userid, a.pass, [a.sex], a.email, fmt_u a.level, fmt_u a.state,
        fmt_d a.unban_time, fmt_d a.expiration_time, fmt_d a.logincount, a.lastlogin, a.last_ip,
        regs_tostr a.account_reg2] := by
  simp only [codec_ok, field_ok, Bool.and_eq_true, decide_eq_true_eq, List.all_eq_true,
    bne_iff_ne, ne_eq] at h
  obtain ⟨⟨⟨⟨⟨⟨⟨⟨⟨⟨⟨⟨⟨⟨⟨hu, _⟩, ⟨hp, _⟩⟩, ⟨he, _⟩⟩, ⟨hl, _⟩⟩, ⟨hi, _⟩⟩, hs1⟩, hs2⟩, _⟩, _⟩, _⟩, _⟩,
    _⟩, _⟩, hr⟩, _⟩ := h
  unfold mmo_auth_tostr
  rw [if_neg hs2]
  simp only [List.append_assoc, List.cons_append]
  rw [sv_split_field _ _ (fmt_d_no_tab _), sv_split_field _ _ hu, sv_split_field _ _ hp,
    sv_split_char _ _ hs1, sv_split_field _ _ he, sv_split_field _ _ (fmt_u_no_tab _),
    sv_split_field _ _ (fmt_u_no_tab _), sv_split_field _ _ (fmt_d_no_tab _),
    sv_split_field _ _ (fmt_d_no_tab _), sv_split_field _ _ (fmt_d_no_tab _),
    sv_split_field _ _ hl, sv_split_field _ _ hi,
    sv_split_last _ (regs_tostr_no_tab _ hr)]

theorem safestrncpy_fits (s : Str) (n : Nat) (h : s.length < n) : safestrncpy s n = s := by
  unfold safestrncpy
  exact List.take_of_length_le (by omega)

/-- C1 as amended (codec round-trip).  For every account record accepted by
`codec_ok` (every field fits its C type or buffer; the fixed strings hold no
tab; `sex` is neither a tab nor NUL; every registry slot with a non-empty key
has a key without tab or comma that does not begin with white space and a
non-empty value without tab or space), parsing the canonical serialization
under version 20080409 returns a record with the same twelve fixed fields,
whose registry list is exactly the registry entries of the original that have a
non-empty key and a non-empty value, in their original order. -/
theorem codec_round_trip (cfg : Config) (a : mmo_account) (h : codec_ok cfg a = true) :
    mmo_auth_fromstr cfg (mmo_auth_tostr a) 20080409
      = some
        { a with
          account_reg2 :=
            a.account_reg2.filter (fun r => decide (r.str ≠ []) && decide (r.value ≠ [])) } := by
  have hsplit := tostr_split cfg a h
  simp only [codec_ok, field_ok, Bool.and_eq_true, decide_eq_true_eq, List.all_eq_true] at h
  obtain ⟨⟨⟨⟨⟨⟨⟨⟨⟨⟨⟨⟨⟨⟨⟨_, hu⟩, ⟨_, hp⟩⟩, ⟨_, he⟩⟩, ⟨_, hl⟩⟩, ⟨_, hi⟩⟩, _⟩, _⟩, hid⟩, hlc⟩, hlv⟩,
    hst⟩, hub⟩, hex⟩, hr⟩, hn⟩ := h
  unfold mmo_auth_fromstr
  rw [hsplit]
  simp only [strtol_fmt_d cfg a.unban_time hub.1 hub.2,
    strtol_fmt_d cfg a.expiration_time hex.1 hex.2,
    strtol_fmt_d cfg a.account_id (by have := cfg.long_range; omega)
      (by have := cfg.long_range; omega),
    strtol_fmt_d cfg a.logincount (by have := cfg.long_range; omega)
      (by have := cfg.long_range; omega),
    toInt32_id a.account_id hid.1 hid.2, toInt32_id a.logincount hlc.1 hlc.2,
    strtoul_fmt_u cfg a.level hlv, strtoul_fmt_u cfg a.state hst,
    safestrncpy_fits _ _ hu, safestrncpy_fits _ _ hp, safestrncpy_fits _ _ he,
    safestrncpy_fits _ _ hl, safestrncpy_fits _ _ hi,
    parse_regs_tostr cfg a.account_reg2 hr hn, written_regs_eq a.account_reg2 hr,
    List.headD_cons]

/-- Instance of `codec_round_trip`: `rich_account` is accepted by `codec_ok`,
and its serialization parses back to it without the slot whose key is
empty. -/
theorem codec_round_trip_witness :
    codec_ok upstream rich_account = true ∧
    mmo_auth_fromstr upstream (mmo_auth_tostr rich_account) 20080409
      = some
        { rich_account with
          account_reg2 :=
            rich_account.account_reg2.filter
              (fun r => decide (r.str ≠ []) && decide (r.value ≠ [])) } :=
  ⟨by decide, codec_round_trip upstream rich_account (by decide)⟩

/-- C1 as stated fails: the strings of `spaced_account` hold no tab and no
newline and fit their bounds, its only registry entry (`k`, `c d`) has a
non-empty key and a non-empty value, yet parsing its serialization returns the
registry entry (`k`, `c`): the value is cut at the space. -/
theorem codec_round_trip_counterexample :
    stated_ok upstream spaced_account = true ∧
    spaced_account.account_reg2.filter (fun r => decide (r.str ≠ []) && decide (r.value ≠ []))
      = [⟨"k".toList, "c d".toList⟩] ∧
    (mmo_auth_fromstr upstream (mmo_auth_tostr spaced_account) 20080409).map
      (fun b => b.account_reg2) = some [⟨"k".toList, "c".toList⟩] := by
  decide

/-! ## The flush discipline -/

theorem atoi_fmt_d (cfg : Config) (n : Int) (h : is_int n = true) : atoi cfg (fmt_d n) = n := by
  unfold is_int at h
  simp only [decide_eq_true_eq] at h
  have := cfg.long_range
  unfold atoi
  rw [strtol_fmt_d cfg n (by omega) (by omega), toInt32_id n h.1 h.2]

/-- C12 as amended (party name lookup).  For every party table whose ids fit the
type `int`, every comparison of names and every name: when exactly one row
matches, `party_db_sql_name2id` returns true and stores the id of that row
through the pointer; when no row matches it returns false and leaves the cell
untouched; when more than one row matches it also returns false and leaves the
cell untouched, never handing out a first match: the returned result is the
one of the not-found case, and the only difference is the message that it
writes with `ShowError`. -/
theorem name2id_outcomes (cfg : Config) (same : Str → Str → Bool) (parties : List party_row)
    (name : Str) (party_id : Option Int) (hint : ∀ r ∈ parties, is_int r.party_id = true) :
    (∀ r, name_matches same parties name = [r] →
      party_db_sql_name2id cfg (select_party_id same parties name) party_id
        = (true, party_id.map (fun _ => r.party_id), 0)) ∧
    (name_matches same parties name = [] →
      party_db_sql_name2id cfg (select_party_id same parties name) party_id
        = (false, party_id, 0)) ∧
    (1 < (name_matches same parties name).length →
      party_db_sql_name2id cfg (select_party_id same parties name) party_id
        = (false, party_id, 1)) := by
  refine ⟨?_, ?_, ?_⟩
  · intro r hr
    have hmem : r ∈ parties := by
      have : r ∈ name_matches same parties name := by rw [hr]; exact List.mem_singleton.mpr rfl
      exact (List.mem_filter.mp this).1
    simp [party_db_sql_name2id, select_party_id, hr, Sql_GetData, atoi_fmt_d cfg _ (hint r hmem)]
  · intro hr
    simp [party_db_sql_name2id, select_party_id, hr]
  · intro hr
    simp [party_db_sql_name2id, select_party_id, hr]

/-- Instance of `name2id_outcomes`: in a table where the parties 5 and 7 are
both named `abc`, the lookup of `abc` returns false, leaves the cell at 0 and
logs one error. -/
theorem name2id_outcomes_witness :
    (∀ r ∈ duplicate_parties, is_int r.party_id = true) ∧
    1 < (name_matches same_bytes duplicate_parties "abc".toList).length ∧
    party_db_sql_name2id upstream (select_party_id same_bytes duplicate_parties "abc".toList)
      (some 0) = (false, some 0, 1) :=
  ⟨by decide, by decide,
   (name2id_outcomes upstream same_bytes duplicate_parties "abc".toList (some 0)
      (by decide)).2.2 (by decide)⟩

/-- C12 as stated fails.  With two parties named `abc` the lookup is ambiguous,
with an empty table it finds nothing, and the two calls hand back the same
result: the same boolean `false` and the same untouched cell. -/
theorem name2id_counterexample :
    1 < (name_matches same_bytes duplicate_parties "abc".toList).length ∧
    name_matches same_bytes [] "abc".toList = [] ∧
    (party_db_sql_name2id upstream (select_party_id same_bytes duplicate_parties "abc".toList)
      (some 0)).1
      = (party_db_sql_name2id upstream (select_party_id same_bytes [] "abc".toList) (some 0)).1 ∧
    (party_db_sql_name2id upstream (select_party_id same_bytes duplicate_parties "abc".toList)
      (some 0)).2.1
      = (party_db_sql_name2id upstream (select_party_id same_bytes [] "abc".toList)
          (some 0)).2.1 := by
  decide

theorem create_flags :
    ((PS_CREATE ||| PS_ADDMEMBER) &&& PS_CREATE ≠ 0) ∧
    ((PS_CREATE ||| PS_ADDMEMBER) &&& PS_BASIC = 0) ∧
    ((PS_CREATE ||| PS_ADDMEMBER) &&& PS_LEADER = 0) ∧
    ((PS_CREATE ||| PS_ADDMEMBER) &&& PS_ADDMEMBER ≠ 0) ∧
    ((PS_CREATE ||| PS_ADDMEMBER) &&& PS_DELMEMBER = 0) := by
  decide

theorem create_trace (cfg : Config) (h : Sql) (p : party)
    (hid : p.party_id ≠ 0) (hstart : h.ok h.log.length = true)
    (hins : h.ok (h.log.length + 1) = true) :
    (p.party_id = -1 →
      (party_db_sql_create cfg h p).2.2 = { p with party_id := h.insert_id } ∧
      (party_db_sql_create cfg h p).2.1.log = h.log ++
        [(Stmt.start_transaction, true),
         (Stmt.insert_party none p.name (p.exp % 256) (p.item % 256)
            (p.member_at 0).account_id (p.member_at 0).char_id, true),
         (Stmt.add_member h.insert_id (p.member_at 0).account_id (p.member_at 0).char_id,
            h.ok (h.log.length + 2)),
         (if h.ok (h.log.length + 2) = true then Stmt.commit else Stmt.rollback,
            h.ok (h.log.length + 3))] ∧
      (party_db_sql_create cfg h p).1 = (h.ok (h.log.length + 2) && h.ok (h.log.length + 3))) ∧
    (p.party_id ≠ -1 → p.party_id ≠ h.insert_id →
      (party_db_sql_create cfg h p).1 = false ∧
      (party_db_sql_create cfg h p).2.2 = p ∧
      (party_db_sql_create cfg h p).2.1.log = h.log ++
        [(Stmt.start_transaction, true),
         (Stmt.insert_party (some p.party_id) p.name (p.exp % 256) (p.item % 256)
            (p.member_at 0).account_id (p.member_at 0).char_id, true),
         (Stmt.rollback, h.ok (h.log.length + 2))]) ∧
    (p.party_id ≠ -1 → p.party_id = h.insert_id →
      (party_db_sql_create cfg h p).2.2 = p ∧
      (party_db_sql_create cfg h p).2.1.log = h.log ++
        [(Stmt.start_transaction, true),
         (Stmt.insert_party (some p.party_id) p.name (p.exp % 256) (p.item % 256)
            (p.member_at 0).account_id (p.member_at 0).char_id, true),
         (Stmt.add_member p.party_id (p.member_at 0).account_id (p.member_at 0).char_id,
            h.ok (h.log.length + 2)),
         (if h.ok (h.log.length + 2) = true then Stmt.commit else Stmt.rollback,
            h.ok (h.log.length + 3))] ∧
      (party_db_sql_create cfg h p).1 = (h.ok (h.log.length + 2) && h.ok (h.log.length + 3))) := by
  obtain ⟨f1, f2, f3, f4, f5⟩ := create_flags
  refine ⟨?_, ?_, ?_⟩
  · intro hneg
    cases ha : h.ok (h.log.length + 2) <;> cases hc : h.ok (h.log.length + 3) <;>
    simp [party_db_sql_create, mmo_party_tosql, tosql_try, tosql_create, tosql_basic,
      tosql_leader, tosql_addmember, tosql_delmember, Sql_Query, hid, hstart, hins, f1, f2, f3,
      f4, f5, hneg, ha, hc, party.member_at]
  · intro hneg hmis
    cases ha : h.ok (h.log.length + 2) <;>
    simp [party_db_sql_create, mmo_party_tosql, tosql_try, tosql_create, tosql_basic,
      tosql_leader, tosql_addmember, tosql_delmember, Sql_Query, hid, hstart, hins, f1, f2, f3,
      f4, f5, hneg, hmis, ha, party.member_at]
  · intro hneg hmis
    have hneg2 : ¬ h.insert_id = -1 := fun e => hneg (hmis.trans e)
    cases ha : h.ok (h.log.length + 2) <;> cases hc : h.ok (h.log.length + 3) <;>
    simp [party_db_sql_create, mmo_party_tosql, tosql_try, tosql_create, tosql_basic,
      tosql_leader, tosql_addmember, tosql_delmember, Sql_Query, hid, hstart, hins, f1, f2, f3,
      f4, f5, hneg, hneg2, ← hmis, ha, hc, party.member_at]

/-- C13 (party create id assignment).  For every party passed to
`party_db_sql_create` whose `START TRANSACTION` and insert statement succeed:
the insert binds the account id and the character id of member 0 as leader (and
the party id, or NULL for the unassigned id -1); if the id was -1 the generated
insert id is written into the party, otherwise the party is handed back as it
was; if an explicit id differs from the generated one the call issues
`ROLLBACK` right after the insert and returns false; in the other cases the
statement that links the character row of member 0 to the (assigned) party id
follows the insert inside the same transaction, which is committed exactly when
that statement succeeds, and the call returns true exactly when the link and
the `COMMIT` succeed.  On a store that honours transactions, the persisted rows
after a call that returns true are those after the insert and the link, and
after a call that returns false they are those before the call. -/
theorem create_id_assignment (cfg : Config) (h : Sql) (p : party)
    (hid : p.party_id ≠ 0) (hstart : h.ok h.log.length = true)
    (hins : h.ok (h.log.length + 1) = true) :
    (party_db_sql_create cfg h p).2.1.log.take (h.log.length + 2) = h.log ++
      [(Stmt.start_transaction, true),
       (Stmt.insert_party (if p.party_id ≠ -1 then some p.party_id else none) p.name
          (p.exp % 256) (p.item % 256) (p.member_at 0).account_id (p.member_at 0).char_id,
        true)] ∧
    (p.party_id = -1 →
      (party_db_sql_create cfg h p).2.2 = { p with party_id := h.insert_id }) ∧
    (p.party_id ≠ -1 → (party_db_sql_create cfg h p).2.2 = p) ∧
    (p.party_id ≠ -1 → p.party_id ≠ h.insert_id →
      (party_db_sql_create cfg h p).1 = false ∧
      (party_db_sql_create cfg h p).2.1.log.drop (h.log.length + 2)
        = [(Stmt.rollback, h.ok (h.log.length + 2))]) ∧
    (p.party_id = -1 ∨ p.party_id = h.insert_id →
      (party_db_sql_create cfg h p).2.1.log.drop (h.log.length + 2)
        = [(Stmt.add_member (party_db_sql_create cfg h p).2.2.party_id
              (p.member_at 0).account_id (p.member_at 0).char_id, h.ok (h.log.length + 2)),
           (if h.ok (h.log.length + 2) = true then Stmt.commit else Stmt.rollback,
              h.ok (h.log.length + 3))] ∧
      (party_db_sql_create cfg h p).1
        = (h.ok (h.log.length + 2) && h.ok (h.log.length + 3))) ∧
    (∀ st : Store, st.txn = none →
      (Store.run h.insert_id st
        ((party_db_sql_create cfg h p).2.1.log.drop h.log.length)).durable =
        if (party_db_sql_create cfg h p).1 = true then
          (st.durable.write h.insert_id
            (Stmt.insert_party (if p.party_id ≠ -1 then some p.party_id else none) p.name
              (p.exp % 256) (p.item % 256) (p.member_at 0).account_id
              (p.member_at 0).char_id)).write h.insert_id
            (Stmt.add_member (party_db_sql_create cfg h p).2.2.party_id
              (p.member_at 0).account_id (p.member_at 0).char_id)
        else st.durable) := by
  obtain ⟨t1, t2, t3⟩ := create_trace cfg h p hid hstart hins
  by_cases hneg : p.party_id = -1
  · obtain ⟨e1, e2, e3⟩ := t1 hneg
    rw [e1, e2, e3]
    refine ⟨?_, ?_, ?_, ?_, ?_, ?_⟩
    · simp [hneg, List.take_append]
    · intro _; rfl
    · intro hc; exact absurd hneg hc
    · intro hc; exact absurd hneg hc
    · intro _; simp
    · intro st htx
      obtain ⟨d, tx⟩ := st
      simp only at htx
      subst htx
      cases ha : h.ok (h.log.length + 2) <;> cases hc : h.ok (h.log.length + 3) <;>
      simp [Store.run, Store.step, hneg, Tables.write]
  · by_cases hmis : p.party_id = h.insert_id
    · obtain ⟨e1, e2, e3⟩ := t3 hneg hmis
      rw [e1, e2, e3]
      refine ⟨?_, ?_, ?_, ?_, ?_, ?_⟩
      · simp [hneg, List.take_append]
      · intro hc; exact absurd hc hneg
      · intro _; rfl
      · intro _ hc; exact absurd hmis hc
      · intro _; simp
      · intro st htx
        obtain ⟨d, tx⟩ := st
        simp only at htx
        subst htx
        cases ha : h.ok (h.log.length + 2) <;> cases hc : h.ok (h.log.length + 3) <;>
        simp [Store.run, Store.step, hneg, Tables.write]
    · obtain ⟨e1, e2, e3⟩ := t2 hneg hmis
      rw [e1, e2, e3]
      refine ⟨?_, ?_, ?_, ?_, ?_, ?_⟩
      · simp [hneg, List.take_append]
      · intro hc; exact absurd hc hneg
      · intro _; rfl
      · intro _ _; simp
      · intro hc
        rcases hc with hc | hc
        · exact absurd hc hneg
        · exact absurd hc hmis
      · intro st htx
        obtain ⟨d, tx⟩ := st
        simp only at htx
        subst htx
        cases ha : h.ok (h.log.length + 2) <;>
        simp [Store.run, Store.step, hneg, Tables.write]

/-- Instance of `create_id_assignment`: a party with the unassigned id -1 and
one member (account 10, character 20), created through a handle on which every
statement succeeds and the store generates the id 7, comes back with id 7, and
the store holds the party row with leader (10, 20) and the character row linked
to party 7. -/
theorem create_id_assignment_witness :
    fresh_party.party_id ≠ 0 ∧
    (party_db_sql_create upstream (all_ok 7) fresh_party).1 = true ∧
    (party_db_sql_create upstream (all_ok 7) fresh_party).2.2.party_id = 7 ∧
    (Store.run 7 sample_store (party_db_sql_create upstream (all_ok 7) fresh_party).2.1.log).durable
      = ⟨[⟨7, "abc".toList, 1, 0, 10, 20⟩], [⟨10, 20, 7⟩]⟩ ∧
    (party_db_sql_create upstream (all_ok 7) fresh_party).2.2
      = { fresh_party with party_id := 7 } :=
  ⟨by decide, by decide, by decide, by decide,
   (create_id_assignment upstream (all_ok 7) fresh_party (by decide) rfl rfl).2.1 rfl⟩

theorem remove_trace (h : Sql) (party_id : Int) :
    ((party_db_sql_remove h party_id).1 = true ↔
      h.ok h.log.length = true ∧ h.ok (h.log.length + 1) = true ∧
      h.ok (h.log.length + 2) = true ∧ h.ok (h.log.length + 3) = true) ∧
    ((party_db_sql_remove h party_id).1 = true →
      (party_db_sql_remove h party_id).2.log = h.log ++
        [(Stmt.start_transaction, true), (Stmt.clear_members party_id, true),
         (Stmt.delete_party party_id, true), (Stmt.commit, true)]) := by
  cases h0 : h.ok h.log.length <;> cases h1 : h.ok (h.log.length + 1) <;>
  cases h2 : h.ok (h.log.length + 2) <;> cases h3 : h.ok (h.log.length + 3) <;>
  simp [party_db_sql_remove, remove_try, Sql_Query, h0, h1, h2, h3]

/-- C14 as amended (party remove on a missing id).  `party_db_sql_remove`
returns true if and only if `START TRANSACTION`, the two statements of the
block and `COMMIT` all succeed, whether or not a row of the party table has the
id.  On a store that honours transactions and holds no party row with this id,
a call that returns true leaves the party table as it was and resets the party
id of the character rows that carried the id. -/
theorem remove_missing_id (h : Sql) (party_id : Int) (st : Store) (htx : st.txn = none)
    (hmissing : ∀ r ∈ st.durable.parties, r.party_id ≠ party_id) :
    ((party_db_sql_remove h party_id).1 = true ↔
      h.ok h.log.length = true ∧ h.ok (h.log.length + 1) = true ∧
      h.ok (h.log.length + 2) = true ∧ h.ok (h.log.length + 3) = true) ∧
    ((party_db_sql_remove h party_id).1 = true →
      (Store.run h.insert_id st
        ((party_db_sql_remove h party_id).2.log.drop h.log.length)).durable.parties
        = st.durable.parties ∧
      (Store.run h.insert_id st
        ((party_db_sql_remove h party_id).2.log.drop h.log.length)).durable.chars
        = st.durable.chars.map
            (fun c => if c.party_id = party_id then { c with party_id := 0 } else c)) := by
  obtain ⟨t1, t2⟩ := remove_trace h party_id
  refine ⟨t1, ?_⟩
  intro hres
  rw [t2 hres]
  obtain ⟨d, tx⟩ := st
  simp only at htx hmissing
  subst htx
  simp only [List.drop_left, Store.run, List.foldl_cons, List.foldl_nil, Store.step,
    Bool.true_eq_false, if_false, Option.getD_none, Tables.write]
  refine ⟨?_, rfl⟩
  apply List.filter_eq_self.mpr
  intro r hr
  simpa using hmissing r hr

/-- Instance of `remove_missing_id`: on a store whose only party has id 7, the
removal of party 5 through a handle on which every statement succeeds returns
true and leaves the party table as it was. -/
theorem remove_missing_id_witness :
    party7_store.txn = none ∧
    (∀ r ∈ party7_store.durable.parties, r.party_id ≠ 5) ∧
    (party_db_sql_remove (all_ok 0) 5).1 = true ∧
    (Store.run 0 party7_store (party_db_sql_remove (all_ok 0) 5).2.log).durable.parties
      = party7_store.durable.parties :=
  ⟨rfl, by decide, by decide,
   ((remove_missing_id (all_ok 0) 5 party7_store rfl (by decide)).2 (by decide)).1⟩

/-- C14 as stated fails.  The store holds no party row with id 5 and every
statement executes without a statement-level error, yet
`party_db_sql_remove` returns true for the id 5: the code does not look at the
number of rows that the `DELETE` affected. -/
theorem remove_missing_id_counterexample :
    (∀ r ∈ party7_store.durable.parties, r.party_id ≠ 5) ∧
    (party_db_sql_remove (all_ok 0) 5).2.log
      = [(Stmt.start_transaction, true), (Stmt.clear_members 5, true),
         (Stmt.delete_party 5, true), (Stmt.commit, true)] ∧
    (party_db_sql_remove (all_ok 0) 5).1 = true := by
  decide

theorem fromsql_members_rows (cfg : Config) (leader_id leader_char : Int) :
    ∀ (n : Nat) (links : List char_row),
      (∀ c ∈ links, is_int c.account_id = true ∧ is_int c.char_id = true) →
      fromsql_members cfg leader_id leader_char n (links.map char_row.columns)
        = (links.take n).map (loaded_member leader_id leader_char) := by
  intro n
  induction n with
  | zero => intro links _; simp [fromsql_members]
  | succ n ih =>
    intro links hl
    cases links with
    | nil => simp [fromsql_members]
    | cons c cs =>
      obtain ⟨h1, h2⟩ := hl c (List.mem_cons_self _ _)
      have := ih cs (fun x hx => hl x (List.mem_cons_of_mem _ hx))
      simp [fromsql_members, char_row.columns, Sql_GetData, atoi_fmt_d cfg _ h1,
        atoi_fmt_d cfg _ h2, this, loaded_member]

theorem one_leader (leader_id leader_char : Int) :
    ∀ (links : List char_row), (links.map (fun c => c.char_id)).Nodup →
      ((links.map (loaded_member leader_id leader_char)).filter
        (fun m => decide (m.leader = 1))).length ≤ 1 := by
  intro links
  induction links with
  | nil => intro _; simp
  | cons c cs ih =>
    intro hnd
    rw [List.map_cons, List.nodup_cons] at hnd
    obtain ⟨hc, hcs⟩ := hnd
    by_cases hm : c.account_id = leader_id ∧ c.char_id = leader_char
    · have hrest : (cs.map (loaded_member leader_id leader_char)).filter
          (fun m => decide (m.leader = 1)) = [] := by
        apply List.filter_eq_nil_iff.mpr
        intro m hmem
        obtain ⟨x, hx, rfl⟩ := List.mem_map.mp hmem
        have hne : ¬ (x.account_id = leader_id ∧ x.char_id = leader_char) := by
          intro hx2
          apply hc
          apply List.mem_map.mpr
          exact ⟨x, hx, hx2.2.trans hm.2.symm⟩
        simp [loaded_member, hne]
      simp [List.filter, loaded_member, hm, hrest]
    · have e : (loaded_member leader_id leader_char c).leader = 0 := by
        simp [loaded_member, hm]
      have := ih hcs
      simpa [List.filter_cons, e] using this

/-- C15 (leader flag of a loaded party).  For every party row whose stored
leader pair fits the type `int` and every list of character rows linked to it
(ids within `int`, at most one row per character id), `mmo_party_fromsql`
succeeds; it fills the first `min(MAX_PARTY, number of rows)` slots of the
member array with the pairs of the rows, in order, the leader flag of a slot
being 1 if and only if its (account id, character id) pair equals the leader
pair of the party row; the remaining slots are zero; and at most one slot of
the loaded party has the leader flag set. -/
theorem fromsql_leader_flag (cfg : Config) (row : party_row) (links : List char_row)
    (hleader : is_int row.leader_id = true ∧ is_int row.leader_char = true)
    (hlinks : ∀ c ∈ links, is_int c.account_id = true ∧ is_int c.char_id = true)
    (hnodup : (links.map (fun c => c.char_id)).Nodup) :
    (mmo_party_fromsql cfg (some [row.columns]) (some (links.map char_row.columns))).1 = true ∧
    (mmo_party_fromsql cfg (some [row.columns]) (some (links.map char_row.columns))).2.member
      = (links.take cfg.MAX_PARTY).map (loaded_member row.leader_id row.leader_char) ++
        List.replicate (cfg.MAX_PARTY - min cfg.MAX_PARTY links.length) ⟨0, 0, 0⟩ ∧
    (mmo_party_fromsql cfg (some [row.columns])
      (some (links.map char_row.columns))).2.member.length = cfg.MAX_PARTY ∧
    (∀ c : char_row, (loaded_member row.leader_id row.leader_char c).account_id = c.account_id ∧
      (loaded_member row.leader_id row.leader_char c).char_id = c.char_id ∧
      ((loaded_member row.leader_id row.leader_char c).leader = 1 ↔
        (c.account_id = row.leader_id ∧ c.char_id = row.leader_char))) ∧
    ((mmo_party_fromsql cfg (some [row.columns])
      (some (links.map char_row.columns))).2.member.filter
        (fun m => decide (m.leader = 1))).length ≤ 1 := by
  have hm : (mmo_party_fromsql cfg (some [row.columns])
      (some (links.map char_row.columns))).2.member
      = (links.take cfg.MAX_PARTY).map (loaded_member row.leader_id row.leader_char) ++
        List.replicate (cfg.MAX_PARTY - min cfg.MAX_PARTY links.length) ⟨0, 0, 0⟩ := by
    simp [mmo_party_fromsql, party_row.columns, Sql_GetData, atoi_fmt_d cfg _ hleader.1,
      atoi_fmt_d cfg _ hleader.2, fromsql_members_rows cfg _ _ _ links hlinks, party.zero]
  refine ⟨rfl, hm, ?_, ?_, ?_⟩
  · rw [hm]
    simp only [List.length_append, List.length_map, List.length_take, List.length_replicate]
    omega
  · intro c
    refine ⟨rfl, rfl, ?_⟩
    by_cases h : c.account_id = row.leader_id ∧ c.char_id = row.leader_char
    · simp [loaded_member, h]
    · simp [loaded_member, h]
  · rw [hm, List.filter_append]
    have hz : (List.replicate (cfg.MAX_PARTY - min cfg.MAX_PARTY links.length)
        (⟨0, 0, 0⟩ : party_member)).filter (fun m => decide (m.leader = 1)) = [] := by
      apply List.filter_eq_nil_iff.mpr
      intro m hmem
      rw [(List.mem_replicate.mp hmem).2]
      decide
    rw [hz, List.append_nil]
    apply one_leader
    rw [List.map_take]
    exact hnodup.sublist (List.take_sublist _ _)

/-- Instance of `fromsql_leader_flag`: party 5 with stored leader (11, 21) and
three linked characters loads with the leader flag on the second member
only. -/
theorem fromsql_leader_flag_witness :
    (linked_chars.map (fun c => c.char_id)).Nodup ∧
    (mmo_party_fromsql upstream (some [party5_row.columns])
      (some (linked_chars.map char_row.columns))).2.member.take 4
      = [⟨10, 20, 0⟩, ⟨11, 21, 1⟩, ⟨10, 22, 0⟩, ⟨0, 0, 0⟩] ∧
    ((mmo_party_fromsql upstream (some [party5_row.columns])
      (some (linked_chars.map char_row.columns))).2.member.filter
        (fun m => decide (m.leader = 1))).length ≤ 1 :=
  ⟨by decide, by decide,
   (fromsql_leader_flag upstream party5_row linked_chars (by decide) (by decide)
      (by decide)).2.2.2.2⟩

/-! ## Lookup by name -/

theorem find_userid_none (s : Str) (m : DBMap) :
    find_userid s m = none ↔ ∀ e ∈ m, e.2.userid ≠ s := by
  induction m with
  | nil => simp [find_userid]
  | cons e es ih =>
    by_cases h : s = e.2.userid
    · simp [find_userid, h]
    · have h2 : ¬ e.2.userid = s := fun h3 => h h3.symm
      simp [find_userid, h, h2, ih]

theorem find_userid_some (s : Str) (m : DBMap) (r : mmo_account) (h : find_userid s m = some r) :
    (∃ e ∈ m, e.2 = r) ∧ r.userid = s := by
  induction m with
  | nil => simp [find_userid] at h
  | cons e es ih =>
    by_cases hs : s = e.2.userid
    · simp only [find_userid, hs, if_true, Option.some.injEq] at h
      subst h
      exact ⟨⟨e, List.mem_cons_self _ _, rfl⟩, hs.symm⟩
    · simp only [find_userid, hs, if_false] at h
      obtain ⟨⟨x, hx, hxr⟩, hu⟩ := ih h
      exact ⟨⟨x, List.mem_cons_of_mem _ hx, hxr⟩, hu⟩

theorem find_userid_first (s : Str) (e : Int × mmo_account) (rest : DBMap)
    (he : e.2.userid = s) :
    ∀ (pre : DBMap), (∀ x ∈ pre, x.2.userid ≠ s) →
      find_userid s (pre ++ e :: rest) = some e.2 := by
  intro pre
  induction pre with
  | nil => intro _; simp [find_userid, he]
  | cons x xs ih =>
    intro hpre
    have hx : ¬ s = x.2.userid := fun h => hpre x (List.mem_cons_self _ _) h.symm
    simp only [List.cons_append, find_userid, hx, if_false]
    exact ih (fun y hy => hpre y (List.mem_cons_of_mem _ hy))

/-- C16 (account lookup by name).  For every backend state and every name,
`account_db_txt_load_str` reports found if and only if the login name of some
stored record equals the name character for character; when found, the record
handed back is a stored record whose login name is the name, namely the first
one that the iterator visits, which may be the last one of the map; when not
found, as for the empty map, the record handed back is all zero. -/
theorem load_str_by_name (db : AccountDB_TXT) (s : Str) :
    ((account_db_txt_load_str db s).1 = true ↔ ∃ e ∈ db.accounts, e.2.userid = s) ∧
    ((account_db_txt_load_str db s).1 = true →
      (∃ e ∈ db.accounts, e.2 = (account_db_txt_load_str db s).2) ∧
      (account_db_txt_load_str db s).2.userid = s) ∧
    ((account_db_txt_load_str db s).1 = false →
      (account_db_txt_load_str db s).2 = mmo_account.zero) ∧
    account_db_txt_load_str { db with accounts := [] } s = (false, mmo_account.zero) ∧
    (∀ (pre rest : DBMap) (e : Int × mmo_account), db.accounts = pre ++ e :: rest →
      (∀ x ∈ pre, x.2.userid ≠ s) → e.2.userid = s →
      account_db_txt_load_str db s = (true, e.2)) := by
  refine ⟨?_, ?_, ?_, rfl, ?_⟩
  · cases hf : find_userid s db.accounts with
    | none =>
      have := (find_userid_none s db.accounts).mp hf
      simp only [account_db_txt_load_str, hf, Bool.false_eq_true, false_iff, not_exists, not_and]
      exact this
    | some r =>
      obtain ⟨⟨e, he, her⟩, hu⟩ := find_userid_some s db.accounts r hf
      simp only [account_db_txt_load_str, hf, true_iff]
      exact ⟨e, he, by rw [her]; exact hu⟩
  · cases hf : find_userid s db.accounts with
    | none => simp [account_db_txt_load_str, hf]
    | some r =>
      intro _
      simp only [account_db_txt_load_str, hf]
      exact find_userid_some s db.accounts r hf
  · cases hf : find_userid s db.accounts with
    | none => simp [account_db_txt_load_str, hf]
    | some r => simp [account_db_txt_load_str, hf]
  · intro pre rest e hacc hpre he
    simp only [account_db_txt_load_str, hacc, find_userid_first s e rest he pre hpre]

/-! ## Duplicate ids in the accounts file -/

theorem init_record_keeps (cfg : Config) (st : AccountDB_TXT × Nat) (line : Str) (k : Int)
    (r : mmo_account) (h : idb_get st.1.accounts k = some r) :
    idb_get (init_record cfg st line).1.accounts k = some r := by
  cases hp : mmo_auth_fromstr cfg line st.2 with
  | none => rw [init_record_none cfg st line hp]; exact h
  | some acc =>
    cases hf : idb_get st.1.accounts acc.account_id with
    | some x =>
      have : init_record cfg st line = st := by
        unfold init_record
        rw [hp]
        simp [hf]
      rw [this]; exact h
    | none =>
      have hk : k ≠ acc.account_id := by
        intro e
        rw [e, hf] at h
        exact Option.noConfusion h
      rw [init_record_some cfg st line acc hp hf]
      split
      · exact (idb_get_put_other _ _ _ _ hk).trans h
      · exact (idb_get_put_other _ _ _ _ hk).trans h

theorem init_line_keeps (cfg : Config) (st : AccountDB_TXT × Nat) (line : Str) (k : Int)
    (r : mmo_account) (h : idb_get st.1.accounts k = some r) :
    idb_get (init_line cfg st line).1.accounts k = some r := by
  rw [init_line_eq]
  split_ifs
  · exact h
  · exact h
  · exact h
  · exact init_record_keeps cfg st line k r h

theorem init_lines_keep (cfg : Config) (lines : List Str) (k : Int) (r : mmo_account) :
    ∀ (st : AccountDB_TXT × Nat), idb_get st.1.accounts k = some r →
      idb_get (init_lines cfg st lines).1.accounts k = some r := by
  induction lines with
  | nil => intro st h; exact h
  | cons l ls ih =>
    intro st h
    rw [init_lines_cons]
    exact ih _ (init_line_keeps cfg st l k r h)

theorem init_lines_append (cfg : Config) (st : AccountDB_TXT × Nat) (l1 l2 : List Str) :
    init_lines cfg st (l1 ++ l2) = init_lines cfg (init_lines cfg st l1) l2 := by
  unfold init_lines
  rw [List.foldl_append]

/-- C17 (first occurrence wins on load).  Let the accounts file consist of the
lines `pre`, then `line`, then `rest`, where `line` is handed to the codec (it
is neither a comment nor a version definition nor a next-id marker above the
counter) and parses to a record whose id is not in the map after `pre`, that
is, `line` is the first line that yields this id.  After
`account_db_txt_init` the map holds under this id the record parsed from
`line`, whatever the lines of `rest` are.  A later line that is handed to the
codec and parses to an id that is already in the map leaves the map, the
counters and the declared version exactly as they are; and no line ever
changes a record that is already in the map. -/
theorem first_occurrence_wins (cfg : Config) (disk : Disk) (content : Str)
    (pre rest : List Str) (line : Str) (acc : mmo_account)
    (hfile : disk.account_txt = some content)
    (hlines : file_lines content.length content = pre ++ line :: rest)
    (hrec : is_comment_line line = false ∧ is_version_line line = false ∧
      is_newid_line (init_lines cfg (init_state cfg, 0) pre).1.next_account_id line = false)
    (hparse : mmo_auth_fromstr cfg line (init_lines cfg (init_state cfg, 0) pre).2 = some acc)
    (hfirst : idb_get (init_lines cfg (init_state cfg, 0) pre).1.accounts acc.account_id = none) :
    (account_db_txt_init cfg disk).1 = true ∧
    idb_get (account_db_txt_init cfg disk).2.accounts acc.account_id = some acc ∧
    (∀ (st : AccountDB_TXT × Nat) (line2 : Str) (acc2 : mmo_account),
      is_comment_line line2 = false → is_version_line line2 = false →
      is_newid_line st.1.next_account_id line2 = false →
      mmo_auth_fromstr cfg line2 st.2 = some acc2 →
      (idb_get st.1.accounts acc2.account_id).isSome = true →
      init_line cfg st line2 = st) ∧
    (∀ (st : AccountDB_TXT × Nat) (lines : List Str) (k : Int) (r : mmo_account),
      idb_get st.1.accounts k = some r →
      idb_get (init_lines cfg st lines).1.accounts k = some r) := by
  refine ⟨?_, ?_, ?_, ?_⟩
  · rw [init_of_file cfg disk content hfile]
  · rw [init_of_file cfg disk content hfile, hlines, init_lines_append, init_lines_cons]
    apply init_lines_keep
    rw [init_line_eq, hrec.1, hrec.2.1, hrec.2.2]
    simp only [Bool.false_eq_true, if_false]
    rw [init_record_some cfg _ line acc hparse hfirst]
    split
    · exact idb_get_put_same _ _ _
    · exact idb_get_put_same _ _ _
  · intro st line2 acc2 h1 h2 h3 hp hocc
    rw [init_line_eq, h1, h2, h3]
    simp only [Bool.false_eq_true, if_false]
    unfold init_record
    rw [hp]
    simp [hocc]
  · intro st lines k r h
    exact init_lines_keep cfg lines k r st h

theorem duplicate_lines :
    file_lines (scenario_version ++ scenario_record ++ duplicate_record).length
      (scenario_version ++ scenario_record ++ duplicate_record)
      = [scenario_version] ++ scenario_record :: [duplicate_record] := by
  decide

/-- Instance of `first_occurrence_wins`: in a file with two record lines for
the id 1001, the first with the login `user1` and the second with the login
`user2`, the backend holds the record of `user1` after `init`. -/
theorem first_occurrence_wins_witness :
    mmo_auth_fromstr upstream duplicate_record 20080409
      = some
        { new_account with
          account_id := 1001
          userid := "user2".toList
          pass := "pass2".toList
          email := "u2@x.com".toList } ∧
    idb_get (account_db_txt_init upstream duplicate_disk).2.accounts 1001
      = some scenario_account :=
  ⟨by decide,
   (first_occurrence_wins upstream duplicate_disk _ [scenario_version] [duplicate_record]
      scenario_record scenario_account rfl duplicate_lines (by decide) (by decide)
      (by decide)).2.1⟩

/-! ## The registry loop -/

theorem group_ok_facts (g : global_reg) (h : group_ok g = true) :
    (g.str ≠ [] → g.str.length ≤ 31 ∧ ∀ c ∈ g.str, (c != '\t' && c != ',') = true) ∧
    g.value ≠ [] ∧ g.value.length ≤ 255 ∧ (∀ c ∈ g.value, (c != '\t' && c != ' ') = true) ∧
    isspace (g.str.headD ',') = false := by
  simp only [group_ok, group_stated_ok, Bool.and_eq_true, Bool.or_eq_true, decide_eq_true_eq,
    List.all_eq_true, Bool.not_eq_true'] at h
  obtain ⟨⟨⟨⟨hk, hv0⟩, hv2⟩, hv1⟩, hsp⟩ := h
  refine ⟨?_, hv0, hv2, ?_, hsp⟩
  · intro hne
    rcases hk with hk | hk
    · exact absurd hk hne
    · refine ⟨hk.1, ?_⟩
      intro c hc
      have := hk.2 c hc
      simp only [Bool.and_eq_true] at this ⊢
      exact ⟨this.1.1, this.2⟩
  · intro c hc
    have := hv1 c hc
    simp only [Bool.and_eq_true] at this ⊢
    exact ⟨this.1.1, this.1.2⟩

theorem groups_text_clean (gs : List global_reg) (hgs : ∀ g ∈ gs, group_ok g = true) :
    ∀ c, (groups_text gs).head? = some c → isspace c = false := by
  cases gs with
  | nil => intro c hc; simp [groups_text] at hc
  | cons g rest =>
    intro c hc
    obtain ⟨_, _, _, _, hsp⟩ := group_ok_facts g (hgs g (List.mem_cons_self _ _))
    cases hk : g.str with
    | nil =>
      simp only [groups_text, hk, List.nil_append, List.cons_append, List.head?_cons,
        Option.some.injEq] at hc
      rw [← hc]; decide
    | cons k ks =>
      simp only [groups_text, hk, List.cons_append, List.head?_cons, Option.some.injEq] at hc
      rw [hk] at hsp
      rw [← hc]
      exact hsp

theorem sscanf_reg_comma (rest : Str) : sscanf_reg (',' :: rest) = none := by
  simp [sscanf_reg, scan_set]

theorem sscanf_void_entry (value tail : Str) (hv0 : value ≠ [])
    (hv1 : ∀ c ∈ value, (c != '\t' && c != ' ') = true) (hv2 : value.length ≤ 255)
    (ht : ∀ c, tail.head? = some c → isspace c = false) :
    sscanf_void (',' :: (value ++ ' ' :: tail))
      = void_scan.stored value ((',' :: (value ++ ' ' :: tail)).length - tail.length) := by
  have s2 : scan_set (fun c => c != '\t' && c != ' ') (value ++ ' ' :: tail).length
      (value ++ ' ' :: tail) = (value, ' ' :: tail) :=
    scan_set_exact _ value _ _ (by simp) hv1 (by intro c hc; simp at hc; subst hc; decide)
  have s3 : (' ' :: tail).dropWhile isspace = tail := by
    have hsp : isspace ' ' = true := by decide
    simp only [List.dropWhile, hsp]
    exact dropWhile_clean tail ht
  obtain ⟨v, vs, rfl⟩ := List.exists_cons_of_ne_nil hv0
  unfold sscanf_void
  simp only [s2, s3, if_pos hv2]

theorem drop_group (front tail : Str) :
    (front ++ tail).drop ((front ++ tail).length - tail.length) = tail := by
  rw [List.length_append, Nat.add_sub_cancel, List.drop_left]

theorem regs_loop_groups (cfg : Config) (gs : List global_reg) :
    ∀ (fuel i : Nat) (acc : List global_reg), (∀ g ∈ gs, group_ok g = true) →
      i ≤ cfg.ACCOUNT_REG2_NUM → (groups_text gs).length < fuel →
      regs_loop cfg fuel i (groups_text gs) acc
        = loop_run.exit (acc ++ (well_formed gs).take (cfg.ACCOUNT_REG2_NUM - i)) := by
  induction gs with
  | nil =>
    intro fuel i acc _ _ hfuel
    obtain ⟨f, rfl⟩ : ∃ f, fuel = f + 1 := ⟨fuel - 1, by omega⟩
    have e : sscanf_reg [] = none := by decide
    rw [regs_loop_succ]
    simp [groups_text, well_formed, e]
  | cons g rest ih =>
    intro fuel i acc hgs hi hfuel
    have hrest : ∀ x ∈ rest, group_ok x = true := fun x hx => hgs x (List.mem_cons_of_mem _ hx)
    obtain ⟨hkey, hv0, hv2, hv1, _⟩ := group_ok_facts g (hgs g (List.mem_cons_self _ _))
    obtain ⟨f, rfl⟩ : ∃ f, fuel = f + 1 := ⟨fuel - 1, by omega⟩
    have htext : groups_text (g :: rest) = g.str ++ ',' :: (g.value ++ ' ' :: groups_text rest) := by
      simp [groups_text]
    rw [htext] at hfuel ⊢
    by_cases hlt : i < cfg.ACCOUNT_REG2_NUM
    · by_cases hk : g.str = []
      · have e2 : well_formed (g :: rest) = well_formed rest := by simp [well_formed, hk]
        have hs := sscanf_void_entry g.value (groups_text rest) hv0 hv1 hv2
          (groups_text_clean rest hrest)
        have hdrop : (',' :: (g.value ++ ' ' :: groups_text rest)).drop
            ((',' :: (g.value ++ ' ' :: groups_text rest)).length - (groups_text rest).length)
            = groups_text rest := by
          have := drop_group (',' :: (g.value ++ [' '])) (groups_text rest)
          simpa using this
        rw [hk] at hfuel ⊢
        rw [List.nil_append, regs_loop_succ, if_pos hlt, sscanf_reg_comma]
        simp only [List.head?_cons, if_true, hs, hdrop]
        rw [e2]
        exact ih f i acc hrest hi
          (by simp only [List.nil_append, List.length_cons, List.length_append] at hfuel; omega)
      · obtain ⟨hk2, hk1⟩ := hkey hk
        have e2 : well_formed (g :: rest) = g :: well_formed rest := by simp [well_formed, hk]
        have hs := sscanf_reg_entry g.str g.value (groups_text rest) hk hk1 hk2 hv0 hv1 hv2
          (groups_text_clean rest hrest)
        have hdrop : (g.str ++ ',' :: (g.value ++ ' ' :: groups_text rest)).drop
            ((g.str ++ ',' :: (g.value ++ ' ' :: groups_text rest)).length
              - (groups_text rest).length) = groups_text rest := by
          have := drop_group (g.str ++ ',' :: (g.value ++ [' '])) (groups_text rest)
          simpa using this
        have hc1 : safestrncpy g.str 32 = g.str := safestrncpy_fits _ _ (by omega)
        have hc2 : safestrncpy g.value 256 = g.value := safestrncpy_fits _ _ (by omega)
        rw [regs_loop_succ, if_pos hlt, hs]
        simp only [hdrop, hc1, hc2]
        rw [ih f (i + 1) _ hrest (by omega)
          (by simp only [List.length_append, List.length_cons] at hfuel; omega), e2]
        have hn : cfg.ACCOUNT_REG2_NUM - i = (cfg.ACCOUNT_REG2_NUM - (i + 1)) + 1 := by omega
        rw [hn, List.take_succ_cons]
        simp
    · have hz : cfg.ACCOUNT_REG2_NUM - i = 0 := by omega
      rw [regs_loop_succ, if_neg hlt, hz]
      simp

theorem example_regs_facts :
    sscanf_reg example_regs = some ("str2".toList, "9".toList, 7) ∧
    example_regs.drop 7 = ",9 str3,1".toList ∧
    sscanf_reg ",9 str3,1".toList = none ∧
    (",9 str3,1".toList).head? = some ',' ∧
    sscanf_void ",9 str3,1".toList = void_scan.stored "9".toList 3 ∧
    (",9 str3,1".toList).drop 3 = "str3,1".toList ∧
    sscanf_reg "str3,1".toList = some ("str3".toList, "1".toList, 6) ∧
    ("str3,1".toList).drop 6 = [] ∧
    sscanf_reg [] = none ∧
    safestrncpy "str2".toList 32 = "str2".toList ∧
    safestrncpy "str3".toList 32 = "str3".toList ∧
    safestrncpy "9".toList 256 = "9".toList ∧
    safestrncpy "1".toList 256 = "1".toList ∧
    example_regs.length + 1 = 13 + 1 + 1 + 1 + 1 := by
  decide

theorem parse_example_regs (cfg : Config) :
    parse_regs cfg example_regs
      = ([⟨"str2".toList, "9".toList⟩, ⟨"str3".toList, "1".toList⟩] : List global_reg).take
          cfg.ACCOUNT_REG2_NUM := by
  obtain ⟨e1, e2, e3, e4, e5, e6, e7, e8, e9, c1, c2, c3, c4, hl⟩ := example_regs_facts
  have h0 := cfg.reg2_pos
  apply parse_regs_exit
  rw [hl, regs_loop_succ, if_pos h0, e1]
  simp only [e2, c1, c3]
  by_cases h1 : 1 < cfg.ACCOUNT_REG2_NUM
  · rw [regs_loop_succ, if_pos h1, e3]
    simp only [e4, if_true, e5, e6]
    rw [regs_loop_succ, if_pos h1, e7]
    simp only [e8, c2, c4]
    rw [regs_loop_succ, e9]
    obtain ⟨n, hn⟩ : ∃ n, cfg.ACCOUNT_REG2_NUM = n + 2 := ⟨cfg.ACCOUNT_REG2_NUM - 2, by omega⟩
    simp [hn]
  · have hn : cfg.ACCOUNT_REG2_NUM = 1 := by omega
    rw [regs_loop_succ, if_neg h1, hn]
    simp

/-- C18 as amended (registry parsing with malformed slots).  For every
sequence of space-terminated groups, each either well-formed (`key,value` with
a non-empty key of at most 31 bytes and a non-empty value of at most 255 bytes,
neither containing tab, space or comma) or malformed with an empty key
(`,value`, the value as before), in which no key begins with a white-space
character, the registry loop of `mmo_auth_fromstr` returns exactly the
well-formed groups in their original order, truncated to the first
`ACCOUNT_REG2_NUM` of them, skipping every malformed group without losing the
groups that follow it; and the text `str2,9 ,9 str3,1` yields the two entries
(`str2`, `9`) and (`str3`, `1`), truncated likewise. -/
theorem registry_groups (cfg : Config) (gs : List global_reg)
    (hgs : ∀ g ∈ gs, group_ok g = true) :
    parse_regs cfg (groups_text gs) = (well_formed gs).take cfg.ACCOUNT_REG2_NUM ∧
    parse_regs cfg example_regs
      = ([⟨"str2".toList, "9".toList⟩, ⟨"str3".toList, "1".toList⟩] : List global_reg).take
          cfg.ACCOUNT_REG2_NUM := by
  refine ⟨?_, parse_example_regs cfg⟩
  apply parse_regs_exit
  rw [regs_loop_groups cfg gs _ 0 [] hgs (Nat.zero_le _) (Nat.lt_succ_self _)]
  simp

/-- Instance of `registry_groups`: the groups `str2,9`, `,9` and `str3,1`, each
followed by a space, yield the entries (`str2`, `9`) and (`str3`, `1`). -/
theorem registry_groups_witness :
    (∀ g ∈ example_groups, group_ok g = true) ∧
    groups_text example_groups = "str2,9 ,9 str3,1 ".toList ∧
    parse_regs upstream (groups_text example_groups)
      = [⟨"str2".toList, "9".toList⟩, ⟨"str3".toList, "1".toList⟩] :=
  ⟨by decide, by decide,
   (registry_groups upstream example_groups (by decide)).1.trans (by decide)⟩

/-- C18 as stated fails.  The groups `a,1` and `<CR>b,2` are well-formed in the
sense of the claim (the key `<CR>b` holds no tab, space or comma), yet the loop
returns the entries (`a`, `1`) and (`b`, `2`): the white-space directive that
ends the first conversion also skips the carriage return at the head of the
second key. -/
theorem registry_groups_counterexample :
    (∀ g ∈ spaced_groups, group_stated_ok g = true) ∧
    well_formed spaced_groups = [⟨"a".toList, "1".toList⟩, ⟨"\rb".toList, "2".toList⟩] ∧
    parse_regs upstream (groups_text spaced_groups)
      = [⟨"a".toList, "1".toList⟩, ⟨"b".toList, "2".toList⟩] ∧
    parse_regs upstream (groups_text spaced_groups)
      ≠ (well_formed spaced_groups).take upstream.ACCOUNT_REG2_NUM := by
  decide

/-! ## The canonical line -/

theorem regs_tostr_flatMap (rs : List global_reg) :
    regs_tostr rs = (rs.filter (fun r => decide (r.str ≠ []))).flatMap
      (fun r => r.str ++ [','] ++ r.value ++ [' ']) := by
  induction rs with
  | nil => rfl
  | cons r rs ih =>
    by_cases hk : r.str = []
    · simp [regs_tostr, hk, ih]
    · simp [regs_tostr, hk, ih]

theorem tostr_canonical (a : mmo_account) (hsex : a.sex ≠ '\x00') :
    mmo_auth_tostr a ++ ['\n'] = canonical_line a := by
  unfold mmo_auth_tostr canonical_line
  rw [if_neg hsex, regs_tostr_flatMap]
  simp

theorem regs_tostr_plain (rs : List global_reg)
    (hrs : ∀ r ∈ rs, (∀ c ∈ r.str, c ≠ '\t') ∧ (∀ c ∈ r.value, c ≠ '\t')) :
    ∀ c ∈ regs_tostr rs, c ≠ '\t' := by
  induction rs with
  | nil => intro c hc; simp [regs_tostr] at hc
  | cons r rest ih =>
    intro c hc
    obtain ⟨h1, h2⟩ := hrs r (List.mem_cons_self _ _)
    have hrest := ih (fun x hx => hrs x (List.mem_cons_of_mem _ hx))
    by_cases hk : r.str = []
    · simp only [regs_tostr, hk, ne_eq, not_true_eq_false, if_false] at hc
      exact hrest c hc
    · simp only [regs_tostr, hk, ne_eq, not_false_eq_true, if_true, List.mem_append,
        List.mem_cons] at hc
      rcases hc with (hc | hc | hc) | hc | hc
      · exact h1 c hc
      · rw [hc]; decide
      · exact h2 c hc
      · rw [hc]; decide
      · exact hrest c hc

theorem tostr_fields (a : mmo_account) (hsex : a.sex ≠ '\x00') (h : tab_free a = true) :
    sv_split '\t' (mmo_auth_tostr a ++ ['\n']) =
      [fmt_d a.account_id, a.userid, a.pass, [a.sex], a.email, fmt_u a.level, fmt_u a.state,
        fmt_d a.unban_time, fmt_d a.expiration_time, fmt_d a.logincount, a.lastlogin, a.last_ip,
        regs_tostr a.account_reg2 ++ ['\n']] := by
  simp only [tab_free, Bool.and_eq_true, List.all_eq_true, bne_iff_ne, ne_eq] at h
  obtain ⟨⟨⟨⟨⟨⟨hu, hp⟩, hs⟩, he⟩, hl⟩, hi⟩, hr⟩ := h
  have hlast : ∀ c ∈ regs_tostr a.account_reg2 ++ ['\n'], c ≠ '\t' := by
    intro c hc
    rcases List.mem_append.mp hc with hc | hc
    · exact regs_tostr_plain _ hr c hc
    · rw [List.mem_singleton.mp hc]; decide
  unfold mmo_auth_tostr
  rw [if_neg hsex]
  simp only [List.append_assoc, List.cons_append]
  rw [sv_split_field _ _ (fmt_d_no_tab _), sv_split_field _ _ hu, sv_split_field _ _ hp,
    sv_split_char _ _ hs, sv_split_field _ _ he, sv_split_field _ _ (fmt_u_no_tab _),
    sv_split_field _ _ (fmt_u_no_tab _), sv_split_field _ _ (fmt_d_no_tab _),
    sv_split_field _ _ (fmt_d_no_tab _), sv_split_field _ _ (fmt_d_no_tab _),
    sv_split_field _ _ hl, sv_split_field _ _ hi,
    sv_split_last _ hlast]

/-- C19 as amended (canonical serialization layout).  For every account record
whose `sex` character is not NUL and whose text fits the buffer of 2048 bytes
that the flush hands to `mmo_auth_tostr`, the line that the flush writes for it
is the twelve fixed fields in the order id, login, password, sex, email, level,
state, unban time, expiration time, login count, last login, last ip, each
followed by a tab, then, for each registry entry whose key is not empty, in
order, the text `key,value` followed by one space, then a newline.  If moreover
no field holds a tab, the line splits into exactly 13 tab-separated fields. -/
theorem canonical_layout (a : mmo_account) (k : Int) (es : DBMap) (hsex : a.sex ≠ '\x00')
    (_hfit : (mmo_auth_tostr a).length < 2048) :
    sync_records ((k, a) :: es) = canonical_line a ++ sync_records es ∧
    (tab_free a = true → (sv_split '\t' (canonical_line a)).length = 13) := by
  refine ⟨?_, ?_⟩
  · rw [← tostr_canonical a hsex]
    simp [sync_records]
  · intro h
    rw [← tostr_canonical a hsex, tostr_fields a hsex h]
    rfl

/-- Instance of `canonical_layout`: the line written for `rich_account`. -/
theorem canonical_layout_witness :
    rich_account.sex ≠ '\x00' ∧ (mmo_auth_tostr rich_account).length < 2048 ∧
    canonical_line rich_account
      = "2000000\talice\tsecret\tF\ta@a.com\t0\t0\t0\t0\t3\t-\t-\tstr2,9 str3,1 \n".toList ∧
    sync_records [(2000000, rich_account)] = canonical_line rich_account ++ sync_records [] :=
  ⟨by decide, by decide, by decide,
   (canonical_layout rich_account 2000000 [] (by decide) (by decide)).1⟩

/-- C19 as stated fails.  For an account whose `sex` character is NUL, the
conversion `%c` writes the terminator of the C string: the line that the flush
writes ends after the third tab and splits into 4 fields, not 13, although no
field of the record holds a tab. -/
theorem canonical_layout_counterexample :
    tab_free sexless_account = true ∧
    sync_records [(2000000, sexless_account)] = "-1\talice\tsecret\t\n".toList ∧
    sync_records [(2000000, sexless_account)] ≠ canonical_line sexless_account ∧
    (sv_split '\t' (sync_records [(2000000, sexless_account)])).length = 4 := by
  decide

/-! ## A failed party create -/

/-- C22 as amended (a failed party create and the entity of the caller).  For
every party passed to `party_db_sql_create` with the unassigned id -1 and every
pattern of statement failures, the party handed back differs from the one
passed in at most in its id: the id is the generated insert id when
`START TRANSACTION` and the insert succeeded, and still -1 otherwise.  So a
call that returns false leaves every other field unchanged, and leaves the id at
-1 unless the insert had succeeded and the link of member 0 or the `COMMIT`
failed, in which case the id is the generated one. -/
theorem failed_create_entity (cfg : Config) (h : Sql) (p : party) (hneg : p.party_id = -1) :
    (party_db_sql_create cfg h p).2.2 =
      (if h.ok h.log.length = true ∧ h.ok (h.log.length + 1) = true then
        { p with party_id := h.insert_id }
       else p) ∧
    ((party_db_sql_create cfg h p).1 = false →
      (party_db_sql_create cfg h p).2.2.name = p.name ∧
      (party_db_sql_create cfg h p).2.2.exp = p.exp ∧
      (party_db_sql_create cfg h p).2.2.item = p.item ∧
      (party_db_sql_create cfg h p).2.2.member = p.member ∧
      ((party_db_sql_create cfg h p).2.2.party_id = -1 ∨
        (h.ok h.log.length = true ∧ h.ok (h.log.length + 1) = true ∧
          (h.ok (h.log.length + 2) = false ∨ h.ok (h.log.length + 3) = false) ∧
          (party_db_sql_create cfg h p).2.2.party_id = h.insert_id))) := by
  have hid : p.party_id ≠ 0 := by rw [hneg]; decide
  obtain ⟨f1, f2, f3, f4, f5⟩ := create_flags
  cases hs : h.ok h.log.length with
  | false =>
    have e : party_db_sql_create cfg h p = (false, (Sql_Query h Stmt.start_transaction).2, p) := by
      simp [party_db_sql_create, mmo_party_tosql, Sql_Query, hid, hs]
    rw [e]
    simp [hneg]
  | true =>
    cases hi : h.ok (h.log.length + 1) with
    | false =>
      have e : (party_db_sql_create cfg h p).2.2 = p := by
        simp [party_db_sql_create, mmo_party_tosql, tosql_try, tosql_create, Sql_Query, hid, hs,
          hi, f1]
      rw [e]
      simp [hneg]
    | true =>
      obtain ⟨e1, _, e3⟩ := (create_trace cfg h p hid hs hi).1 hneg
      rw [e1, e3]
      refine ⟨by simp, ?_⟩
      intro hres
      refine ⟨rfl, rfl, rfl, rfl, Or.inr ⟨rfl, rfl, ?_, rfl⟩⟩
      cases ha : h.ok (h.log.length + 2) <;> cases hc : h.ok (h.log.length + 3) <;>
      simp [ha, hc] at hres ⊢

/-- Instance of `failed_create_entity`: on a handle on which every statement
fails, the creation of a party with id -1 returns false and hands the party
back as it was. -/
theorem failed_create_entity_witness :
    fresh_party.party_id = -1 ∧
    (party_db_sql_create upstream none_ok fresh_party).1 = false ∧
    (party_db_sql_create upstream none_ok fresh_party).2.2 = fresh_party :=
  ⟨rfl, by decide, (failed_create_entity upstream none_ok fresh_party rfl).1.trans (by decide)⟩

/-- C22 as stated fails.  The party has the unassigned id -1;
`START TRANSACTION` and the insert succeed, the store generating the id 7, and
the statement that links member 0 fails: the call issues `ROLLBACK` and returns
false, and the party handed back has the id 7, not -1. -/
theorem failed_create_entity_counterexample :
    fresh_party.party_id = -1 ∧
    (party_db_sql_create upstream (link_fails 7) fresh_party).1 = false ∧
    (party_db_sql_create upstream (link_fails 7) fresh_party).2.1.log
      = [(Stmt.start_transaction, true),
         (Stmt.insert_party none "abc".toList 1 0 10 20, true),
         (Stmt.add_member 7 10 20, false), (Stmt.rollback, true)] ∧
    (party_db_sql_create upstream (link_fails 7) fresh_party).2.2.party_id = 7 := by
  decide

/-! ## Termination of the registry loop -/

set_option maxRecDepth 100000 in
theorem header_unlines : sync_header = unlines ("20080409".toList :: comment_bodies) := by
  rfl

set_option maxRecDepth 100000 in
theorem comment_bodies_ok :
    ∀ b ∈ comment_bodies, line_ok b = true ∧ is_comment_line (b ++ ['\n']) = true := by
  decide

theorem fgets_line (rest : Str) : ∀ (n : Nat) (b : Str), (∀ c ∈ b, c ≠ '\n') → b.length < n →
    fgets n (b ++ '\n' :: rest) = (b ++ ['\n'], rest) := by
  intro n
  induction n with
  | zero => intro b _ h; omega
  | succ n ih =>
    intro b hb hlen
    cases b with
    | nil => simp [fgets]
    | cons c cs =>
      have hc : c ≠ '\n' := hb c (List.mem_cons_self _ _)
      have := ih cs (fun x hx => hb x (List.mem_cons_of_mem _ hx))
        (by simp only [List.length_cons] at hlen; omega)
      simp [fgets, hc, this]

theorem line_ok_iff (b : Str) :
    line_ok b = true ↔ (∀ c ∈ b, c ≠ '\n') ∧ b.length < 2047 := by
  simp [line_ok]

theorem unlines_cons (b : Str) (bs : List Str) :
    unlines (b :: bs) = b ++ '\n' :: unlines bs := by
  simp [unlines]

theorem unlines_append (as bs : List Str) : unlines (as ++ bs) = unlines as ++ unlines bs := by
  simp [unlines]

theorem unlines_length (bs : List Str) : bs.length ≤ (unlines bs).length := by
  induction bs with
  | nil => simp
  | cons b bs ih =>
    rw [unlines_cons]
    simp only [List.length_append, List.length_cons]
    omega

theorem file_lines_unlines (bodies : List Str) : ∀ (fuel : Nat),
    (∀ b ∈ bodies, line_ok b = true) → bodies.length ≤ fuel →
    file_lines fuel (unlines bodies) = bodies.map (fun b => b ++ ['\n']) := by
  induction bodies with
  | nil =>
    intro fuel _ _
    cases fuel <;> simp [unlines, file_lines]
  | cons b bs ih =>
    intro fuel hok hfuel
    obtain ⟨f, rfl⟩ : ∃ f, fuel = f + 1 := ⟨fuel - 1, by simp only [List.length_cons] at hfuel; omega⟩
    obtain ⟨h1, h2⟩ := (line_ok_iff b).mp (hok b (List.mem_cons_self _ _))
    have hg := fgets_line (unlines bs) 2047 b h1 h2
    have hne : ∃ c cs, b ++ '\n' :: unlines bs = c :: cs := by
      cases b with
      | nil => exact ⟨_, _, rfl⟩
      | cons c cs => exact ⟨_, _, rfl⟩
    obtain ⟨c, cs, hcs⟩ := hne
    rw [unlines_cons, hcs, file_lines, ← hcs, hg]
    simp only [List.map_cons]
    rw [ih f (fun x hx => hok x (List.mem_cons_of_mem _ hx))
      (by simp only [List.length_cons] at hfuel; omega)]

theorem sync_records_unlines (m : DBMap) :
    sync_records m = unlines (m.map (fun e => mmo_auth_tostr e.2)) := by
  induction m with
  | nil => rfl
  | cons e es ih => simp [sync_records, unlines_cons, ih]

theorem sync_text_unlines (db : AccountDB_TXT) : sync_text db = unlines (sync_bodies db) := by
  have e : "\t%newid%\n".toList = "\t%newid%".toList ++ ['\n'] := by decide
  unfold sync_text sync_bodies
  rw [header_unlines, sync_records_unlines, e]
  rw [show ("20080409".toList :: comment_bodies ++ db.accounts.map (fun e => mmo_auth_tostr e.2) ++
      [fmt_d db.next_account_id ++ "\t%newid%".toList])
      = ("20080409".toList :: comment_bodies) ++ db.accounts.map (fun e => mmo_auth_tostr e.2) ++
      [fmt_d db.next_account_id ++ "\t%newid%".toList] from rfl]
  rw [unlines_append, unlines_append]
  simp [unlines]

theorem takeWhile_stop (p : Char → Bool) (x : Char) (rest : Str) (hx : p x = false) :
    ∀ (s : Str), (∀ c ∈ s, p c = true) → (s ++ x :: rest).takeWhile p = s := by
  intro s
  induction s with
  | nil => intro _; simp [List.takeWhile, hx]
  | cons c cs ih =>
    intro h
    have hc : p c = true := h c (List.mem_cons_self _ _)
    rw [List.cons_append, List.takeWhile_cons, hc]
    simp only [if_true]
    rw [ih (fun y hy => h y (List.mem_cons_of_mem _ hy))]

theorem scan_number_digits_tab (ds rest : Str) (hne : ds ≠ [])
    (hd : ∀ c ∈ ds, isdigit c = true) :
    scan_number (ds ++ '\t' :: rest) = (false, ds, ds.length) := by
  obtain ⟨c, cs, rfl⟩ := List.exists_cons_of_ne_nil hne
  have hc : isdigit c = true := hd c (List.mem_cons_self _ _)
  obtain ⟨h1, h2, h3, _⟩ := isdigit_props c hc
  have htw : (c :: cs ++ '\t' :: rest).takeWhile isdigit = c :: cs :=
    takeWhile_stop isdigit '\t' rest (by decide) _ hd
  have ht : (c :: cs ++ '\t' :: rest).takeWhile isspace = [] := by
    simp [List.takeWhile, h1]
  have hdr : (c :: cs ++ '\t' :: rest).dropWhile isspace = c :: (cs ++ '\t' :: rest) := by
    simp [List.dropWhile, h1]
  unfold scan_number
  rw [ht, hdr]
  dsimp only
  split
  · next t heq => exact absurd (List.cons.inj heq).1 h2
  · next t heq => exact absurd (List.cons.inj heq).1 h3
  · rw [← List.cons_append, htw]; simp

theorem scan_number_minus_tab (ds rest : Str) (hd : ∀ c ∈ ds, isdigit c = true) :
    scan_number ('-' :: ds ++ '\t' :: rest) = (true, ds, 1 + ds.length) := by
  have htw : (ds ++ '\t' :: rest).takeWhile isdigit = ds :=
    takeWhile_stop isdigit '\t' rest (by decide) _ hd
  have hsp : isspace '-' = false := by decide
  have ht : ('-' :: ds ++ '\t' :: rest).takeWhile isspace = [] := by
    simp [List.takeWhile, hsp]
  have hdr : ('-' :: ds ++ '\t' :: rest).dropWhile isspace = '-' :: (ds ++ '\t' :: rest) := by
    simp [List.dropWhile, hsp]
  unfold scan_number
  rw [ht, hdr]
  simp only [htw, List.length_nil]

theorem scan_d_fmt_d (n : Int) (rest : Str) :
    scan_d (fmt_d n ++ '\t' :: rest) = some (toInt32 n, (fmt_d n).length) := by
  unfold scan_d fmt_d
  by_cases hn : n < 0
  · obtain ⟨e1, e2, e3⟩ := fmt_u_spec n.natAbs
    have hv : -((n.natAbs : Nat) : Int) = n := by omega
    simp only [hn, if_true, scan_number_minus_tab _ rest e2, e3, e1, if_false, List.length_cons,
      hv, Nat.add_comm]
  · obtain ⟨e1, e2, e3⟩ := fmt_u_spec n.toNat
    have hv : ((n.toNat : Nat) : Int) = n := by omega
    simp only [hn, if_false, scan_number_digits_tab _ rest e1 e2, e3, e1, Bool.false_eq_true, hv]

theorem fmt_d_chars (n : Int) :
    fmt_d n ≠ [] ∧ ∀ c ∈ fmt_d n, c = '-' ∨ isdigit c = true := by
  unfold fmt_d
  split
  · refine ⟨by simp, ?_⟩
    intro c hc
    rcases List.mem_cons.mp hc with hc | hc
    · exact Or.inl hc
    · exact Or.inr ((fmt_u_spec _).2.1 c hc)
  · exact ⟨(fmt_u_spec _).1, fun c hc => Or.inr ((fmt_u_spec _).2.1 c hc)⟩

theorem fmt_d_plain (n : Int) :
    ∀ c ∈ fmt_d n, c ≠ '\n' ∧ c ≠ '/' ∧ c ≠ '\t' ∧ isspace c = false := by
  intro c hc
  rcases (fmt_d_chars n).2 c hc with h | h
  · rw [h]; decide
  · unfold isdigit at h
    simp only [Bool.and_eq_true, decide_eq_true_eq] at h
    refine ⟨?_, ?_, ?_, ?_⟩
    · intro e; rw [e] at h; revert h; decide
    · intro e; rw [e] at h; revert h; decide
    · intro e; rw [e] at h; revert h; decide
    · have h2 : isdigit c = true := by
        unfold isdigit; simp only [Bool.and_eq_true, decide_eq_true_eq]; exact h
      exact (isdigit_props c h2).1

theorem utoa_length : ∀ (fuel n k : Nat) (acc : Str), 1 ≤ k → n < 10 ^ k →
    (utoa fuel n acc).length ≤ k + acc.length := by
  intro fuel
  induction fuel with
  | zero => intro n k acc _ _; simp [utoa]
  | succ fuel ih =>
    intro n k acc hk hn
    by_cases h10 : n < 10
    · simp only [utoa, h10, if_true, List.length_cons]; omega
    · obtain ⟨j, rfl⟩ : ∃ j, k = j + 1 := ⟨k - 1, by omega⟩
      have hj : 1 ≤ j := by
        rcases Nat.eq_zero_or_pos j with h0 | h0
        · subst h0; simp at hn; omega
        · exact h0
      have hdiv : n / 10 < 10 ^ j := by
        rw [Nat.div_lt_iff_lt_mul (by decide)]
        rw [pow_succ] at hn
        exact hn
      have := ih (n / 10) j (Char.ofNat (48 + n % 10) :: acc) hj hdiv
      simp only [utoa, h10, if_false]
      simp only [List.length_cons] at this
      omega

theorem fmt_d_length (n : Int) (h : is_int n = true) : (fmt_d n).length ≤ 11 := by
  unfold is_int at h
  simp only [decide_eq_true_eq] at h
  unfold fmt_d fmt_u
  split
  · have := utoa_length (n.natAbs + 1) n.natAbs 10 [] (by decide) (by norm_num; omega)
    simp only [List.length_cons, List.length_nil] at this ⊢
    omega
  · have := utoa_length (n.toNat + 1) n.toNat 10 [] (by decide) (by norm_num; omega)
    simp only [List.length_nil] at this
    omega

theorem sscanf_reg_group (key value tail : Str)
    (hk0 : key ≠ []) (hk1 : ∀ c ∈ key, (c != '\t' && c != ',') = true) (hk2 : key.length ≤ 31)
    (hv0 : value ≠ []) (hv1 : ∀ c ∈ value, (c != '\t' && c != ' ') = true)
    (hv2 : value.length ≤ 255) :
    sscanf_reg (key ++ ',' :: (value ++ ' ' :: tail))
      = some (key, value, (key ++ ',' :: (value ++ ' ' :: tail)).length
          - (tail.dropWhile isspace).length) := by
  have s1 : scan_set (fun c => c != '\t' && c != ',') 31 (key ++ ',' :: (value ++ ' ' :: tail))
      = (key, ',' :: (value ++ ' ' :: tail)) :=
    scan_set_exact _ key _ 31 hk2 hk1 (by intro c hc; simp at hc; subst hc; decide)
  have s2 : scan_set (fun c => c != '\t' && c != ' ') 255 (value ++ ' ' :: tail)
      = (value, ' ' :: tail) :=
    scan_set_exact _ value _ 255 hv2 hv1 (by intro c hc; simp at hc; subst hc; decide)
  have s3 : (' ' :: tail).dropWhile isspace = tail.dropWhile isspace := by
    have hsp : isspace ' ' = true := by decide
    simp only [List.dropWhile, hsp]
  obtain ⟨k, ks, rfl⟩ := List.exists_cons_of_ne_nil hk0
  obtain ⟨v, vs, rfl⟩ := List.exists_cons_of_ne_nil hv0
  unfold sscanf_reg
  rw [s1]
  simp only [s2, s3]

theorem drop_to_dropWhile (front tail : Str) :
    (front ++ tail).drop ((front ++ tail).length - (tail.dropWhile isspace).length)
      = tail.dropWhile isspace := by
  have h := drop_group (front ++ tail.takeWhile isspace) (tail.dropWhile isspace)
  rw [List.append_assoc, List.takeWhile_append_dropWhile] at h
  exact h

theorem regs_tostr_nil_written (rs : List global_reg) (h : regs_tostr rs = []) :
    written_regs rs = [] := by
  induction rs with
  | nil => rfl
  | cons r rest ih =>
    by_cases hk : r.str = []
    · have e1 : regs_tostr (r :: rest) = regs_tostr rest := by simp [regs_tostr, hk]
      rw [e1] at h
      have e2 : written_regs (r :: rest) = written_regs rest := by simp [written_regs, hk]
      rw [e2]
      exact ih h
    · obtain ⟨k, ks, hks⟩ := List.exists_cons_of_ne_nil hk
      simp [regs_tostr, hk, hks] at h

theorem regs_loop_nil (cfg : Config) (fuel i : Nat) (acc : List global_reg) :
    regs_loop cfg (fuel + 1) i [] acc = loop_run.exit acc := by
  have e : sscanf_reg [] = none := by decide
  rw [regs_loop_succ, e]
  simp

theorem regs_tail_dropWhile (rs : List global_reg) (hrs : ∀ r ∈ rs, reg_ok r = true) :
    (regs_tostr rs ++ ['\n']).dropWhile isspace
      = if regs_tostr rs = [] then [] else regs_tostr rs ++ ['\n'] := by
  cases h : regs_tostr rs with
  | nil => simp only [List.nil_append, if_true]; decide
  | cons c t =>
    have hc : isspace c = false := regs_tostr_clean rs hrs c (by rw [h]; rfl)
    simp [List.dropWhile, hc]

theorem regs_loop_tostr_nl (cfg : Config) (rs : List global_reg) :
    ∀ (fuel i : Nat) (acc : List global_reg), (∀ r ∈ rs, reg_ok r = true) →
      i + (written_regs rs).length ≤ cfg.ACCOUNT_REG2_NUM →
      (regs_tostr rs ++ ['\n']).length < fuel →
      regs_loop cfg fuel i (regs_tostr rs ++ ['\n']) acc
        = loop_run.exit (acc ++ written_regs rs) := by
  induction rs with
  | nil =>
    intro fuel i acc _ _ hfuel
    obtain ⟨f, rfl⟩ : ∃ f, fuel = f + 1 := ⟨fuel - 1, by omega⟩
    have e : sscanf_reg ['\n'] = none := by decide
    rw [regs_loop_succ]
    simp [regs_tostr, written_regs, e]
  | cons r rest ih =>
    intro fuel i acc hrs hnum hfuel
    have hr := hrs r (List.mem_cons_self _ _)
    have hrest : ∀ x ∈ rest, reg_ok x = true := fun x hx => hrs x (List.mem_cons_of_mem _ hx)
    by_cases hk : r.str = []
    · have e1 : regs_tostr (r :: rest) = regs_tostr rest := by simp [regs_tostr, hk]
      have e2 : written_regs (r :: rest) = written_regs rest := by simp [written_regs, hk]
      rw [e2] at hnum
      rw [e1] at hfuel
      rw [e1, e2]
      exact ih fuel i acc hrest hnum hfuel
    · have e1 : regs_tostr (r :: rest) ++ ['\n']
          = r.str ++ ',' :: (r.value ++ ' ' :: (regs_tostr rest ++ ['\n'])) := by
        simp [regs_tostr, hk]
      have e2 : written_regs (r :: rest) = r :: written_regs rest := by
        simp [written_regs, hk]
      simp only [reg_ok, hk, decide_False, Bool.false_or, Bool.and_eq_true, List.all_eq_true,
        decide_eq_true_eq, Bool.not_eq_true'] at hr
      obtain ⟨⟨⟨⟨⟨hk1, hk2⟩, _⟩, hv0⟩, hv1⟩, hv2⟩ := hr
      rw [e1] at hfuel ⊢
      rw [e2] at hnum ⊢
      obtain ⟨f, rfl⟩ : ∃ f, fuel = f + 1 := ⟨fuel - 1, by omega⟩
      have hi : i < cfg.ACCOUNT_REG2_NUM := by
        simp only [List.length_cons] at hnum; omega
      have hs := sscanf_reg_group r.str r.value (regs_tostr rest ++ ['\n']) hk
        (fun c hc => (Bool.and_eq_true _ _).mpr (hk1 c hc)) hk2 hv0
        (fun c hc => (Bool.and_eq_true _ _).mpr (hv1 c hc)) hv2
      have hdrop : (r.str ++ ',' :: (r.value ++ ' ' :: (regs_tostr rest ++ ['\n']))).drop
          ((r.str ++ ',' :: (r.value ++ ' ' :: (regs_tostr rest ++ ['\n']))).length
            - ((regs_tostr rest ++ ['\n']).dropWhile isspace).length)
          = (regs_tostr rest ++ ['\n']).dropWhile isspace := by
        have := drop_to_dropWhile (r.str ++ ',' :: (r.value ++ [' '])) (regs_tostr rest ++ ['\n'])
        simpa using this
      have hc1 : safestrncpy r.str 32 = r.str := safestrncpy_fits _ _ (by omega)
      have hc2 : safestrncpy r.value 256 = r.value := safestrncpy_fits _ _ (by omega)
      rw [regs_loop_succ, if_pos hi, hs]
      simp only [hdrop, hc1, hc2]
      rw [regs_tail_dropWhile rest hrest]
      by_cases hnil : regs_tostr rest = []
      · obtain ⟨g, rfl⟩ : ∃ g, f = g + 1 := ⟨f - 1, by
          simp only [List.length_append, List.length_cons] at hfuel; omega⟩
        rw [if_pos hnil, regs_loop_nil, regs_tostr_nil_written rest hnil]
      · rw [if_neg hnil, ih f (i + 1) _ hrest (by simp only [List.length_cons] at hnum; omega)
          (by simp only [List.length_append, List.length_cons] at hfuel ⊢; omega)]
        simp

theorem parse_regs_tostr_nl (cfg : Config) (rs : List global_reg)
    (hrs : ∀ r ∈ rs, reg_ok r = true) (hlen : rs.length ≤ cfg.ACCOUNT_REG2_NUM) :
    parse_regs cfg (regs_tostr rs ++ ['\n']) = written_regs rs := by
  have hw : (written_regs rs).length ≤ rs.length := List.length_filter_le _ _
  apply parse_regs_exit
  rw [regs_loop_tostr_nl cfg rs _ 0 [] hrs (by omega) (by omega)]
  simp

theorem tostr_nl_split (cfg : Config) (a : mmo_account) (h : codec_ok cfg a = true) :
    sv_split '\t' (mmo_auth_tostr a ++ ['\n']) =
      [fmt_d a.account_id, a.userid, a.pass, [a.sex], a.email, fmt_u a.level, fmt_u a.state,
        fmt_d a.unban_time, fmt_d a.expiration_time, fmt_d a.logincount, a.lastlogin, a.last_ip,
        regs_tostr a.account_reg2 ++ ['\n']] := by
  simp only [codec_ok, field_ok, Bool.and_eq_true, decide_eq_true_eq, List.all_eq_true,
    bne_iff_ne, ne_eq] at h
  obtain ⟨⟨⟨⟨⟨⟨⟨⟨⟨⟨⟨⟨⟨⟨⟨hu, _⟩, ⟨hp, _⟩⟩, ⟨he, _⟩⟩, ⟨hl, _⟩⟩, ⟨hi, _⟩⟩, hs1⟩, hs2⟩, _⟩, _⟩, _⟩, _⟩,
    _⟩, _⟩, hr⟩, _⟩ := h
  have hlast : ∀ c ∈ regs_tostr a.account_reg2 ++ ['\n'], c ≠ '\t' := by
    intro c hc
    rcases List.mem_append.mp hc with hc | hc
    · exact regs_tostr_no_tab _ hr c hc
    · rw [List.mem_singleton.mp hc]; decide
  unfold mmo_auth_tostr
  rw [if_neg hs2]
  simp only [List.append_assoc, List.cons_append]
  rw [sv_split_field _ _ (fmt_d_no_tab _), sv_split_field _ _ hu, sv_split_field _ _ hp,
    sv_split_char _ _ hs1, sv_split_field _ _ he, sv_split_field _ _ (fmt_u_no_tab _),
    sv_split_field _ _ (fmt_u_no_tab _), sv_split_field _ _ (fmt_d_no_tab _),
    sv_split_field _ _ (fmt_d_no_tab _), sv_split_field _ _ (fmt_d_no_tab _),
    sv_split_field _ _ hl, sv_split_field _ _ hi,
    sv_split_last _ hlast]

theorem fromstr_line (cfg : Config) (a : mmo_account) (h : codec_ok cfg a = true) :
    mmo_auth_fromstr cfg (mmo_auth_tostr a ++ ['\n']) 20080409 = some (flushed a) := by
  have hsplit := tostr_nl_split cfg a h
  simp only [codec_ok, field_ok, Bool.and_eq_true, decide_eq_true_eq, List.all_eq_true] at h
  obtain ⟨⟨⟨⟨⟨⟨⟨⟨⟨⟨⟨⟨⟨⟨⟨_, hu⟩, ⟨_, hp⟩⟩, ⟨_, he⟩⟩, ⟨_, hl⟩⟩, ⟨_, hi⟩⟩, _⟩, _⟩, hid⟩, hlc⟩, hlv⟩,
    hst⟩, hub⟩, hex⟩, hr⟩, hn⟩ := h
  unfold mmo_auth_fromstr flushed
  rw [hsplit]
  simp only [strtol_fmt_d cfg a.unban_time hub.1 hub.2,
    strtol_fmt_d cfg a.expiration_time hex.1 hex.2,
    strtol_fmt_d cfg a.account_id (by have := cfg.long_range; omega)
      (by have := cfg.long_range; omega),
    strtol_fmt_d cfg a.logincount (by have := cfg.long_range; omega)
      (by have := cfg.long_range; omega),
    toInt32_id a.account_id hid.1 hid.2, toInt32_id a.logincount hlc.1 hlc.2,
    strtoul_fmt_u cfg a.level hlv, strtoul_fmt_u cfg a.state hst,
    safestrncpy_fits _ _ hu, safestrncpy_fits _ _ hp, safestrncpy_fits _ _ he,
    safestrncpy_fits _ _ hl, safestrncpy_fits _ _ hi,
    parse_regs_tostr_nl cfg a.account_reg2 hr hn, List.headD_cons]

theorem char_at_append (p r : Str) : char_at (p ++ r) p.length = char_at r 0 := by
  induction p with
  | nil => rfl
  | cons c cs ih =>
    simp only [char_at, List.cons_append, List.length_cons, List.getD_cons_succ] at ih ⊢
    exact ih

theorem char_at_zero (c : Char) (cs : Str) : char_at (c :: cs) 0 = c := rfl

theorem tostr_head (a : mmo_account) :
    ∃ rest, mmo_auth_tostr a = fmt_d a.account_id ++ '\t' :: rest := by
  unfold mmo_auth_tostr
  simp only [List.append_assoc, List.cons_append]
  exact ⟨_, rfl⟩

theorem newid_pos (line : Str) (id : Int) (k : Nat)
    (h : sscanf_newid line = some (id, some k)) :
    ∃ pre r2, line = pre ++ '%' :: r2 ∧ k = line.length - r2.length := by
  unfold sscanf_newid at h
  split at h
  · exact Option.noConfusion h
  · next account_id n hd =>
    split at h
    · next r hr =>
      split at h
      · next r2 hr2 =>
        simp only [Option.some.injEq, Prod.mk.injEq] at h
        obtain ⟨_, hk⟩ := h
        have s1 : ('%' :: r2) <:+ r := by rw [← hr2]; exact List.dropWhile_suffix _
        have s2 : r <:+ ('%' :: 'n' :: 'e' :: 'w' :: 'i' :: 'd' :: r) :=
          ⟨['%', 'n', 'e', 'w', 'i', 'd'], rfl⟩
        have s3 : ('%' :: 'n' :: 'e' :: 'w' :: 'i' :: 'd' :: r) <:+ line.drop n := by
          rw [← hr]; exact List.dropWhile_suffix _
        have s4 : line.drop n <:+ line := List.drop_suffix _ _
        obtain ⟨pre, hpre⟩ := ((s1.trans s2).trans s3).trans s4
        exact ⟨pre, r2, hpre.symm, hk.symm⟩
      · simp at h
    · simp at h

theorem no_newline_after_percent (body pre r2 : Str) (hb : ∀ c ∈ body, c ≠ '\n')
    (hlast : body.getLast? ≠ some '%') (h : body ++ ['\n'] = pre ++ '%' :: r2) :
    char_at r2 0 ≠ '\n' := by
  intro hc
  cases r2 with
  | nil => revert hc; decide
  | cons x r3 =>
    rw [char_at_zero] at hc
    subst hc
    have h2 : body ++ ['\n'] = (pre ++ ['%']) ++ '\n' :: r3 := by rw [h]; simp
    rcases List.append_eq_append_iff.mp h2 with ⟨a', h3, h4⟩ | ⟨c', h3, h4⟩
    · cases a' with
      | nil =>
        apply hlast
        rw [List.append_nil] at h3
        rw [← h3]
        simp
      | cons y ys =>
        have := congrArg List.length h4
        simp at this
    · cases c' with
      | nil =>
        apply hlast
        rw [List.append_nil] at h3
        rw [h3]
        simp
      | cons y ys =>
        have hy : y = '\n' := by
          simp only [List.cons_append, List.cons.injEq] at h4
          exact h4.1.symm
        apply hb y _ hy
        rw [h3]
        simp

theorem regs_tostr_last (rs : List global_reg) :
    regs_tostr rs = [] ∨ (regs_tostr rs).getLast? = some ' ' := by
  induction rs with
  | nil => exact Or.inl rfl
  | cons r rest ih =>
    by_cases hk : r.str = []
    · have e1 : regs_tostr (r :: rest) = regs_tostr rest := by simp [regs_tostr, hk]
      rw [e1]; exact ih
    · right
      have e1 : regs_tostr (r :: rest)
          = (r.str ++ ',' :: r.value ++ [' ']) ++ regs_tostr rest := by
        simp [regs_tostr, hk]
      rw [e1]
      rcases ih with ih | ih
      · rw [ih, List.append_nil, List.getLast?_append]
        rfl
      · rw [List.getLast?_append, ih]
        rfl

theorem tostr_tail (a : mmo_account) (hsex : a.sex ≠ '\x00') :
    ∃ front, mmo_auth_tostr a = front ++ '\t' :: regs_tostr a.account_reg2 := by
  refine ⟨fmt_d a.account_id ++ '\t' :: a.userid ++ '\t' :: a.pass ++ '\t' :: a.sex :: '\t' ::
    a.email ++ '\t' :: fmt_u a.level ++ '\t' :: fmt_u a.state ++ '\t' :: fmt_d a.unban_time ++
    '\t' :: fmt_d a.expiration_time ++ '\t' :: fmt_d a.logincount ++ '\t' :: a.lastlogin ++
    '\t' :: a.last_ip, ?_⟩
  unfold mmo_auth_tostr
  rw [if_neg hsex]
  simp only [List.append_assoc, List.cons_append]

theorem tostr_last (a : mmo_account) (hsex : a.sex ≠ '\x00') :
    (mmo_auth_tostr a).getLast? ≠ some '%' := by
  obtain ⟨front, hf⟩ := tostr_tail a hsex
  rw [hf, List.getLast?_append]
  rcases regs_tostr_last a.account_reg2 with h | h
  · rw [h]
    simp
  · cases hr : regs_tostr a.account_reg2 with
    | nil => simp
    | cons c t =>
      rw [hr] at h
      rw [List.getLast?_cons_cons, h]
      simp

theorem reload_ok_facts (cfg : Config) (a : mmo_account) (h : reload_ok cfg a = true) :
    codec_ok cfg a = true ∧ a.sex ≠ '\x00' ∧ (∀ c ∈ mmo_auth_tostr a, c ≠ '\n') ∧
    (mmo_auth_tostr a).length < 2047 ∧ is_int a.account_id = true := by
  simp only [reload_ok, Bool.and_eq_true] at h
  obtain ⟨hc, hl⟩ := h
  obtain ⟨l1, l2⟩ := (line_ok_iff _).mp hl
  refine ⟨hc, ?_, l1, l2, ?_⟩
  · simp only [codec_ok, Bool.and_eq_true, bne_iff_ne, ne_eq] at hc
    exact hc.1.1.1.1.1.1.1.1.2
  · simp only [codec_ok, Bool.and_eq_true, decide_eq_true_eq] at hc
    simp only [is_int, decide_eq_true_eq]
    exact hc.1.1.1.1.1.1.1.2

theorem record_line_tests (cfg : Config) (a : mmo_account) (h : reload_ok cfg a = true) :
    is_comment_line (mmo_auth_tostr a ++ ['\n']) = false ∧
    is_version_line (mmo_auth_tostr a ++ ['\n']) = false ∧
    ∀ next, is_newid_line next (mmo_auth_tostr a ++ ['\n']) = false := by
  obtain ⟨_, hsex, hnl, _, _⟩ := reload_ok_facts cfg a h
  obtain ⟨rest, hr⟩ := tostr_head a
  have hL : mmo_auth_tostr a ++ ['\n'] = fmt_d a.account_id ++ '\t' :: (rest ++ ['\n']) := by
    rw [hr]; simp
  have hscan : scan_d (mmo_auth_tostr a ++ ['\n'])
      = some (toInt32 a.account_id, (fmt_d a.account_id).length) := by
    rw [hL]; exact scan_d_fmt_d _ _
  have hchar : char_at (mmo_auth_tostr a ++ ['\n']) (fmt_d a.account_id).length = '\t' := by
    rw [hL, char_at_append]; rfl
  refine ⟨?_, ?_, ?_⟩
  · obtain ⟨c, cs, hcs⟩ := List.exists_cons_of_ne_nil (fmt_d_chars a.account_id).1
    have hc : c ≠ '/' := (fmt_d_plain a.account_id c (by rw [hcs]; exact List.mem_cons_self _ _)).2.1
    rw [hL, hcs]
    simp [is_comment_line, char_at, hc]
  · unfold is_version_line
    rw [hscan]
    simp [hchar]
  · intro next
    unfold is_newid_line
    rw [hscan]
    cases hn : sscanf_newid (mmo_auth_tostr a ++ ['\n']) with
    | none => rfl
    | some q =>
      obtain ⟨id2, n2⟩ := q
      cases n2 with
      | none => simp [hchar]
      | some k =>
        obtain ⟨pre, r2, hpre, hk⟩ := newid_pos _ id2 k hn
        have hne := no_newline_after_percent (mmo_auth_tostr a) pre r2 hnl (tostr_last a hsex) hpre
        have hk2 : k = (pre ++ ['%']).length := by
          rw [hk, hpre]; simp only [List.length_append, List.length_cons, List.length_nil]; omega
        have hc2 : char_at (mmo_auth_tostr a ++ ['\n']) k = char_at r2 0 := by
          rw [hk2]
          have : mmo_auth_tostr a ++ ['\n'] = (pre ++ ['%']) ++ r2 := by rw [hpre]; simp
          rw [this, char_at_append]
        simp [hc2, hne]

theorem idb_put_fresh (m : DBMap) (k : Int) (v : mmo_account) (h : idb_get m k = none) :
    idb_put m k v = m ++ [(k, v)] := by
  induction m with
  | nil => rfl
  | cons e es ih =>
    by_cases he : e.1 = k
    · simp [idb_get, he] at h
    · simp only [idb_get, he, if_false] at h
      simp [idb_put, he, ih h]

theorem record_line_step (cfg : Config) (d : AccountDB_TXT) (a : mmo_account)
    (hok : reload_ok cfg a = true) (hfree : idb_get d.accounts a.account_id = none) :
    init_line cfg (d, 20080409) (mmo_auth_tostr a ++ ['\n'])
      = ({ d with accounts := d.accounts ++ [(a.account_id, flushed a)],
                  next_account_id := bump d.next_account_id a.account_id }, 20080409) := by
  obtain ⟨t1, t2, t3⟩ := record_line_tests cfg a hok
  have hparse : mmo_auth_fromstr cfg (mmo_auth_tostr a ++ ['\n']) (d, 20080409).2
      = some (flushed a) := fromstr_line cfg a (reload_ok_facts cfg a hok).1
  rw [init_line_eq, t1, t2, t3]
  simp only [Bool.false_eq_true, if_false]
  rw [init_record_some cfg _ _ (flushed a) hparse hfree]
  have hid : (flushed a).account_id = a.account_id := rfl
  rw [hid, idb_put_fresh _ _ _ hfree]
  unfold bump
  split <;> rfl

/-! ## The loading loop on the text of a flush -/

theorem version_line_step (cfg : Config) (d : AccountDB_TXT) (v : Nat) :
    init_line cfg (d, v) ("20080409".toList ++ ['\n']) = (d, 20080409) := by
  have e : "20080409".toList ++ ['\n'] = scenario_version := by decide
  rw [e, init_line_eq, version_line_facts.1, version_line_facts.2.1, version_line_facts.2.2]
  simp

theorem comment_lines_step (cfg : Config) (st : AccountDB_TXT × Nat) :
    ∀ (bs : List Str), (∀ b ∈ bs, is_comment_line (b ++ ['\n']) = true) →
      init_lines cfg st (bs.map (fun b => b ++ ['\n'])) = st := by
  intro bs
  induction bs with
  | nil => intro _; rfl
  | cons b bs ih =>
    intro h
    rw [List.map_cons, init_lines_cons, init_line_eq, h b (List.mem_cons_self _ _)]
    simp only [if_true]
    exact ih (fun x hx => h x (List.mem_cons_of_mem _ hx))

theorem idb_get_append_none (m : DBMap) (k j : Int) (v : mmo_account)
    (h : idb_get m j = none) (hj : j ≠ k) : idb_get (m ++ [(k, v)]) j = none := by
  induction m with
  | nil => simp [idb_get, Ne.symm hj]
  | cons e es ih =>
    by_cases he : e.1 = j
    · simp [idb_get, he] at h
    · simp only [idb_get, he, if_false] at h
      simp [idb_get, he, ih h]

theorem record_lines_step (cfg : Config) : ∀ (m : DBMap) (d : AccountDB_TXT),
    (∀ e ∈ m, e.2.account_id = e.1 ∧ reload_ok cfg e.2 = true) →
    (m.map Prod.fst).Nodup → (∀ e ∈ m, idb_get d.accounts e.1 = none) →
    init_lines cfg (d, 20080409) (m.map (fun e => mmo_auth_tostr e.2 ++ ['\n']))
      = ({ d with accounts := d.accounts ++ m.map (fun e => (e.1, flushed e.2)),
                  next_account_id := (m.map Prod.fst).foldl bump d.next_account_id },
         20080409) := by
  intro m
  induction m with
  | nil => intro d _ _ _; simp [init_lines]
  | cons e es ih =>
    intro d hrec hnd hfree
    obtain ⟨hid, hok⟩ := hrec e (List.mem_cons_self _ _)
    rw [List.map_cons, List.nodup_cons] at hnd
    obtain ⟨hne, hnd2⟩ := hnd
    have hf : idb_get d.accounts e.2.account_id = none := by
      rw [hid]; exact hfree e (List.mem_cons_self _ _)
    rw [List.map_cons, init_lines_cons, record_line_step cfg d e.2 hok hf]
    rw [ih _ (fun x hx => hrec x (List.mem_cons_of_mem _ hx)) hnd2]
    · simp [hid]
    · intro x hx
      apply idb_get_append_none
      · exact hfree x (List.mem_cons_of_mem _ hx)
      · intro hxe
        apply hne
        have hx1 : x.1 = e.1 := hxe.trans hid
        rw [← hx1]
        exact List.mem_map.mpr ⟨x, hx, rfl⟩

theorem newid_line_step (cfg : Config) (d : AccountDB_TXT) (n : Int) (hn : is_int n = true) :
    init_line cfg (d, 20080409) (fmt_d n ++ "\t%newid%".toList ++ ['\n'])
      = ({ d with next_account_id :=
            if n > d.next_account_id then n else d.next_account_id }, 20080409) := by
  have e0 : fmt_d n ++ "\t%newid%".toList ++ ['\n']
      = fmt_d n ++ '\t' :: ['%', 'n', 'e', 'w', 'i', 'd', '%', '\n'] := by
    rw [List.append_assoc]
    rfl
  have hint : toInt32 n = n := by
    simp only [is_int, decide_eq_true_eq] at hn
    exact toInt32_id n hn.1 hn.2
  have hscan : scan_d (fmt_d n ++ '\t' :: ['%', 'n', 'e', 'w', 'i', 'd', '%', '\n'])
      = some (n, (fmt_d n).length) := by
    rw [scan_d_fmt_d, hint]
  have hchar : char_at (fmt_d n ++ '\t' :: ['%', 'n', 'e', 'w', 'i', 'd', '%', '\n'])
      (fmt_d n).length = '\t' := by
    rw [char_at_append]; rfl
  have hcomment : is_comment_line (fmt_d n ++ '\t' :: ['%', 'n', 'e', 'w', 'i', 'd', '%', '\n'])
      = false := by
    obtain ⟨c, cs, hcs⟩ := List.exists_cons_of_ne_nil (fmt_d_chars n).1
    have hc : c ≠ '/' := (fmt_d_plain n c (by rw [hcs]; exact List.mem_cons_self _ _)).2.1
    rw [hcs]
    simp [is_comment_line, char_at, hc]
  have hversion : is_version_line (fmt_d n ++ '\t' :: ['%', 'n', 'e', 'w', 'i', 'd', '%', '\n'])
      = false := by
    unfold is_version_line
    rw [hscan]
    simp [hchar]
  have hdw : ('\t' :: ['%', 'n', 'e', 'w', 'i', 'd', '%', '\n']).dropWhile isspace
      = ['%', 'n', 'e', 'w', 'i', 'd', '%', '\n'] := by decide
  have hdw2 : (['%', '\n'] : Str).dropWhile isspace = ['%', '\n'] := by decide
  have hnewid : sscanf_newid (fmt_d n ++ '\t' :: ['%', 'n', 'e', 'w', 'i', 'd', '%', '\n'])
      = some (n, some ((fmt_d n ++ ['\t', '%', 'n', 'e', 'w', 'i', 'd', '%']).length)) := by
    unfold sscanf_newid
    rw [hscan]
    simp only [List.drop_left, hdw, hdw2]
    simp only [List.length_append, List.length_cons, List.length_nil, Option.some.injEq,
      Prod.mk.injEq, true_and]
    omega
  have hlast : char_at (fmt_d n ++ '\t' :: ['%', 'n', 'e', 'w', 'i', 'd', '%', '\n'])
      ((fmt_d n ++ ['\t', '%', 'n', 'e', 'w', 'i', 'd', '%']).length) = '\n' := by
    have : fmt_d n ++ '\t' :: ['%', 'n', 'e', 'w', 'i', 'd', '%', '\n']
        = (fmt_d n ++ ['\t', '%', 'n', 'e', 'w', 'i', 'd', '%']) ++ ['\n'] := by simp
    rw [this, char_at_append]; rfl
  have hmark : is_newid_line d.next_account_id
      (fmt_d n ++ '\t' :: ['%', 'n', 'e', 'w', 'i', 'd', '%', '\n'])
      = decide (n > d.next_account_id) := by
    unfold is_newid_line
    rw [hscan, hnewid]
    dsimp only
    rw [Option.getD_some, hlast]
    simp
  have hsplit : sv_split '\t' (fmt_d n ++ '\t' :: ['%', 'n', 'e', 'w', 'i', 'd', '%', '\n'])
      = [fmt_d n, ['%', 'n', 'e', 'w', 'i', 'd', '%', '\n']] := by
    rw [sv_split_field _ _ (fmt_d_no_tab n), sv_split_last _ (by decide)]
  have hnone : mmo_auth_fromstr cfg (fmt_d n ++ '\t' :: ['%', 'n', 'e', 'w', 'i', 'd', '%', '\n'])
      (d, 20080409).2 = none := by
    show mmo_auth_fromstr cfg _ 20080409 = none
    unfold mmo_auth_fromstr
    rw [hsplit]
  rw [e0, init_line_eq, hcomment, hversion, hmark, hnewid, init_record_none cfg _ _ hnone]
  by_cases h : n > d.next_account_id
  · simp [h]
  · simp [h]

theorem newid_body_ok (n : Int) (hn : is_int n = true) :
    line_ok (fmt_d n ++ "\t%newid%".toList) = true := by
  apply (line_ok_iff _).mpr
  constructor
  · intro c hc
    rcases List.mem_append.mp hc with hc | hc
    · exact (fmt_d_plain n c hc).1
    · have hall : ∀ x ∈ "\t%newid%".toList, x ≠ '\n' := by decide
      exact hall c hc
  · have := fmt_d_length n hn
    have e : ("\t%newid%".toList).length = 8 := by decide
    rw [List.length_append, e]
    omega

theorem sync_bodies_ok (cfg : Config) (db : AccountDB_TXT)
    (hrec : ∀ e ∈ db.accounts, e.2.account_id = e.1 ∧ reload_ok cfg e.2 = true)
    (hint : is_int db.next_account_id = true) :
    ∀ b ∈ sync_bodies db, line_ok b = true := by
  intro b hb
  unfold sync_bodies at hb
  rcases List.mem_append.mp hb with hb | hb
  · rcases List.mem_append.mp hb with hb | hb
    · rcases List.mem_cons.mp hb with hb | hb
      · rw [hb]; decide
      · exact (comment_bodies_ok b hb).1
    · obtain ⟨e, he, rfl⟩ := List.mem_map.mp hb
      obtain ⟨_, _, h1, h2, _⟩ := reload_ok_facts cfg e.2 (hrec e he).2
      exact (line_ok_iff _).mpr ⟨h1, h2⟩
  · rw [List.mem_singleton.mp hb]
    exact newid_body_ok _ hint

theorem sync_lines (db : AccountDB_TXT) :
    (sync_bodies db).map (fun b => b ++ ['\n'])
      = ("20080409".toList ++ ['\n']) ::
        (comment_bodies.map (fun b => b ++ ['\n']) ++
          (db.accounts.map (fun e => mmo_auth_tostr e.2 ++ ['\n']) ++
            [fmt_d db.next_account_id ++ "\t%newid%".toList ++ ['\n']])) := by
  simp only [sync_bodies, List.map_append, List.map_cons, List.map_map, List.cons_append,
    List.append_assoc, List.map_nil, Function.comp_def]

theorem reload_general (cfg : Config) (db : AccountDB_TXT)
    (hrec : ∀ e ∈ db.accounts, e.2.account_id = e.1 ∧ reload_ok cfg e.2 = true)
    (hkeys : (db.accounts.map Prod.fst).Nodup) (hint : is_int db.next_account_id = true) :
    reloaded cfg db
      = ({ accounts := db.accounts.map (fun e => (e.1, flushed e.2)),
           next_account_id := reload_counter cfg db,
           auths_before_save := AUTHS_BEFORE_SAVE }, 20080409) := by
  unfold reloaded
  rw [sync_text_unlines, file_lines_unlines (sync_bodies db) _ (sync_bodies_ok cfg db hrec hint)
    (unlines_length _), sync_lines, init_lines_cons, version_line_step, init_lines_append,
    comment_lines_step cfg _ comment_bodies (fun b hb => (comment_bodies_ok b hb).2),
    init_lines_append, record_lines_step cfg db.accounts (init_state cfg) hrec hkeys
      (fun _ _ => rfl), init_lines_cons, newid_line_step cfg _ _ hint, init_lines_nil]
  simp [init_state, reload_counter]

/-! ## Flush then reload -/

theorem mem_keys_put (m : DBMap) (k x : Int) (v : mmo_account) :
    x ∈ (idb_put m k v).map Prod.fst ↔ x ∈ m.map Prod.fst ∨ x = k := by
  induction m with
  | nil => simp [idb_put]
  | cons e es ih =>
    by_cases he : e.1 = k
    · simp only [idb_put, he, if_true, List.map_cons, List.mem_cons]
      constructor
      · intro h
        rcases h with h | h
        · exact Or.inr h
        · exact Or.inl (Or.inr h)
      · intro h
        rcases h with (h | h) | h
        · exact Or.inl h
        · exact Or.inr h
        · exact Or.inl h
    · simp only [idb_put, he, if_false, List.map_cons, List.mem_cons, ih]
      constructor
      · intro h
        rcases h with h | h | h
        · exact Or.inl (Or.inl h)
        · exact Or.inl (Or.inr h)
        · exact Or.inr h
      · intro h
        rcases h with (h | h) | h
        · exact Or.inl h
        · exact Or.inr (Or.inl h)
        · exact Or.inr (Or.inr h)

theorem nodup_put (m : DBMap) (k : Int) (v : mmo_account) (h : (m.map Prod.fst).Nodup) :
    ((idb_put m k v).map Prod.fst).Nodup := by
  induction m with
  | nil => simp [idb_put]
  | cons e es ih =>
    rw [List.map_cons, List.nodup_cons] at h
    by_cases he : e.1 = k
    · simp only [idb_put, he, if_true, List.map_cons, List.nodup_cons]
      rw [he] at h
      exact h
    · simp only [idb_put, he, if_false, List.map_cons, List.nodup_cons]
      refine ⟨?_, ih h.2⟩
      intro hmem
      rcases (mem_keys_put es k e.1 v).mp hmem with h2 | h2
      · exact h.1 h2
      · exact he h2

theorem mem_keys_erase (m : DBMap) (k x : Int) (h : x ∈ (idb_erase m k).map Prod.fst) :
    x ∈ m.map Prod.fst := by
  induction m with
  | nil => simp [idb_erase] at h
  | cons e es ih =>
    by_cases he : e.1 = k
    · simp only [idb_erase, he, if_true] at h
      exact List.mem_cons_of_mem _ (ih h)
    · simp only [idb_erase, he, if_false, List.map_cons, List.mem_cons] at h
      rcases h with h | h
      · rw [h]; exact List.mem_cons_self _ _
      · exact List.mem_cons_of_mem _ (ih h)

theorem nodup_erase (m : DBMap) (k : Int) (h : (m.map Prod.fst).Nodup) :
    ((idb_erase m k).map Prod.fst).Nodup := by
  induction m with
  | nil => simp [idb_erase]
  | cons e es ih =>
    rw [List.map_cons, List.nodup_cons] at h
    by_cases he : e.1 = k
    · simp only [idb_erase, he, if_true]
      exact ih h.2
    · simp only [idb_erase, he, if_false, List.map_cons, List.nodup_cons]
      exact ⟨fun hmem => h.1 (mem_keys_erase es k e.1 hmem), ih h.2⟩

theorem init_record_inv (cfg : Config) (st : AccountDB_TXT × Nat) (line : Str)
    (h2 : (st.1.accounts.map Prod.fst).Nodup) :
    ((init_record cfg st line).1.accounts.map Prod.fst).Nodup := by
  cases hp : mmo_auth_fromstr cfg line st.2 with
  | none => rw [init_record_none cfg st line hp]; exact h2
  | some acc =>
    cases hf : idb_get st.1.accounts acc.account_id with
    | some x =>
      have : init_record cfg st line = st := by
        unfold init_record
        rw [hp]
        simp [hf]
      rw [this]; exact h2
    | none =>
      rw [init_record_some cfg st line acc hp hf]
      split
      · exact nodup_put _ _ _ h2
      · exact nodup_put _ _ _ h2

theorem init_line_inv (cfg : Config) (st : AccountDB_TXT × Nat) (line : Str)
    (h2 : (st.1.accounts.map Prod.fst).Nodup) :
    ((init_line cfg st line).1.accounts.map Prod.fst).Nodup := by
  rw [init_line_eq]
  split_ifs with hc hv hn
  · exact h2
  · exact h2
  · exact h2
  · exact init_record_inv cfg st line h2

theorem init_lines_inv (cfg : Config) (lines : List Str) : ∀ (st : AccountDB_TXT × Nat),
    (st.1.accounts.map Prod.fst).Nodup →
    ((init_lines cfg st lines).1.accounts.map Prod.fst).Nodup := by
  induction lines with
  | nil => intro st h2; exact h2
  | cons l ls ih =>
    intro st h2
    rw [init_lines_cons]
    exact ih _ (init_line_inv cfg st l h2)

theorem init_inv (cfg : Config) (disk : Disk) :
    ((account_db_txt_init cfg disk).2.accounts.map Prod.fst).Nodup := by
  unfold account_db_txt_init
  split
  · exact List.nodup_nil
  · exact init_lines_inv cfg _ _ List.nodup_nil

theorem run_inv (st : AccountDB_TXT × Disk) (op : Op)
    (h2 : (st.1.accounts.map Prod.fst).Nodup) :
    ((op.run st).1.accounts.map Prod.fst).Nodup := by
  cases op with
  | create acc =>
    simp only [Op.run, account_db_txt_create]
    split
    · exact h2
    · rw [sync_accounts]
      exact nodup_put _ _ _ h2
  | save acc =>
    simp only [Op.run, account_db_txt_save]
    split
    · exact h2
    · split
      · rw [sync_accounts]
        exact nodup_put _ _ _ h2
      · exact nodup_put _ _ _ h2
  | remove k =>
    simp only [Op.run, account_db_txt_remove, idb_remove]
    split
    · exact h2
    · next heq =>
      rw [sync_accounts]
      simp only [Prod.mk.injEq] at heq
      rw [← heq.2]
      exact nodup_erase _ _ h2
  | timer =>
    simp only [Op.run, mmo_auth_sync_timer]
    split
    · rw [sync_accounts]
      exact h2
    · exact h2

theorem reached_keys (cfg : Config) (disk : Disk) (ops : List Op) :
    ((reached cfg disk ops).db.accounts.map Prod.fst).Nodup := by
  have key : ∀ (l : List Op) (t : Tracked),
      (t.db.accounts.map Prod.fst).Nodup →
      ((l.foldl Tracked.step t).db.accounts.map Prod.fst).Nodup := by
    intro l
    induction l with
    | nil => intro t h2; exact h2
    | cons op l ih =>
      intro t h2
      exact ih (t.step op) (run_inv (t.db, t.disk) op h2)
  exact key ops (Tracked.init cfg disk) (init_inv cfg disk)

theorem bump_fold_le (n : Int) (hn : n ≤ 2147483647) : ∀ (ids : List Int) (c : Int),
    (∀ id ∈ ids, -2147483648 ≤ id ∧ id < n) → c ≤ n → ids.foldl bump c ≤ n := by
  intro ids
  induction ids with
  | nil => intro c _ h; exact h
  | cons id ids ih =>
    intro c hids hc
    have hid := hids id (List.mem_cons_self _ _)
    rw [List.foldl_cons]
    apply ih _ (fun x hx => hids x (List.mem_cons_of_mem _ hx))
    unfold bump toInt32
    split <;> omega

theorem idb_get_map (f : mmo_account → mmo_account) (m : DBMap) (k : Int) :
    idb_get (m.map (fun e => (e.1, f e.2))) k = (idb_get m k).map f := by
  induction m with
  | nil => rfl
  | cons e es ih =>
    by_cases he : e.1 = k
    · simp [idb_get, he]
    · simp [idb_get, he, ih]

theorem flushed_id (a : mmo_account) (h : ∀ r ∈ a.account_reg2, r.str ≠ []) : flushed a = a := by
  unfold flushed written_regs
  have : a.account_reg2.filter (fun r => decide (r.str ≠ [])) = a.account_reg2 := by
    apply List.filter_eq_self.mpr
    intro r hr
    simpa using h r hr
  rw [this]

/-- C21 as amended (flush then reload).  Take a state reached from `init` by
a sequence of `create`, `save`, `remove` and timer callbacks, whose counter fits
the type `int` and is not below `START_ACCOUNT_NUM`, and in which every record
is stored under its own id, has an id below the counter, is one that the codec
round-trips (`codec_ok`), and has a line without newline that fits the buffer
of 2048 bytes of `fgets`.  Running the loading loop of `account_db_txt_init`
over the text that `mmo_auth_sync` writes for this state yields the declared
version 20080409, the same auto-increment counter, and under every id the
stored record without its registry slots whose key is empty (which a flush
does not write); it yields the same mapping when no registry slot has an empty
key.  This is the state that `account_db_txt_init` loads from a disk that
holds the text. -/
theorem flush_then_reload (cfg : Config) (disk : Disk) (ops : List Op)
    (hint : is_int (reached cfg disk ops).db.next_account_id = true)
    (hstart : cfg.START_ACCOUNT_NUM ≤ (reached cfg disk ops).db.next_account_id)
    (hrec : ∀ e ∈ (reached cfg disk ops).db.accounts,
      e.2.account_id = e.1 ∧ e.1 < (reached cfg disk ops).db.next_account_id ∧
      reload_ok cfg e.2 = true) :
    reloaded cfg (reached cfg disk ops).db
      = ({ accounts := (reached cfg disk ops).db.accounts.map (fun e => (e.1, flushed e.2)),
           next_account_id := (reached cfg disk ops).db.next_account_id,
           auths_before_save := AUTHS_BEFORE_SAVE }, 20080409) ∧
    (∀ k : Int, idb_get (reloaded cfg (reached cfg disk ops).db).1.accounts k
      = (idb_get (reached cfg disk ops).db.accounts k).map flushed) ∧
    ((∀ e ∈ (reached cfg disk ops).db.accounts, ∀ r ∈ e.2.account_reg2, r.str ≠ []) →
      (reloaded cfg (reached cfg disk ops).db).1.accounts = (reached cfg disk ops).db.accounts) ∧
    (∀ d : Disk, d.account_txt = some (sync_text (reached cfg disk ops).db) →
      account_db_txt_init cfg d = (true, (reloaded cfg (reached cfg disk ops).db).1)) := by
  have hkeys := reached_keys cfg disk ops
  generalize (reached cfg disk ops).db = db at *
  have hgen := reload_general cfg db (fun e he => ⟨(hrec e he).1, (hrec e he).2.2⟩) hkeys hint
  have hmax : db.next_account_id ≤ 2147483647 := by
    have := hint
    simp only [is_int, decide_eq_true_eq] at this
    exact this.2
  have hcount : reload_counter cfg db = db.next_account_id := by
    have hle := bump_fold_le db.next_account_id hmax (db.accounts.map Prod.fst)
      cfg.START_ACCOUNT_NUM
      (by
        intro id hid
        obtain ⟨e, he, rfl⟩ := List.mem_map.mp hid
        obtain ⟨h1, h2, h3⟩ := hrec e he
        have hc := (reload_ok_facts cfg e.2 h3).1
        simp only [codec_ok, Bool.and_eq_true, decide_eq_true_eq] at hc
        have hlow : -2147483648 ≤ e.2.account_id := by tauto
        rw [h1] at hlow
        exact ⟨hlow, h2⟩)
      hstart
    unfold reload_counter
    split <;> omega
  rw [hcount] at hgen
  refine ⟨hgen, ?_, ?_, ?_⟩
  · intro k
    rw [hgen]
    exact idb_get_map flushed db.accounts k
  · intro hall
    rw [hgen]
    simp only
    conv_rhs => rw [← List.map_id db.accounts]
    apply List.map_congr_left
    intro e he
    rw [flushed_id e.2 (hall e he)]
    rfl
  · intro d hd
    rw [init_of_file cfg d _ hd]
    rfl

/-- Instance of `flush_then_reload`: after the creation of `rich_account` on
an empty accounts file, the text of the flush loads back as the counter 2000001
and the account 2000000 without its registry slot whose key is empty. -/
theorem flush_then_reload_witness :
    is_int (reached upstream blank_disk [.create rich_account]).db.next_account_id = true ∧
    (reloaded upstream (reached upstream blank_disk [.create rich_account]).db).1.next_account_id
      = 2000001 ∧
    (reloaded upstream (reached upstream blank_disk [.create rich_account]).db).1.accounts
      = [(2000000, flushed rich_account)] :=
  ⟨by decide,
   (congrArg (fun s => s.1.next_account_id)
      (flush_then_reload upstream blank_disk [.create rich_account] (by decide) (by decide)
        (by decide)).1).trans (by decide),
   (congrArg (fun s => s.1.accounts)
      (flush_then_reload upstream blank_disk [.create rich_account] (by decide) (by decide)
        (by decide)).1).trans (by decide)⟩

/-- C21 as stated fails, in three ways.  First, the accounts file holds the
next-id marker 2000005 before the record of the account 2000005: `init`
succeeds and leaves the counter at 2000005, the record being stored under its
own id and satisfying the preconditions of the codec round trip; the loading
loop, run over the text that a flush writes for this state, reads the record
before the marker and ends with the counter at 2000006, not 2000005.  Second,
after the creation of `rich_account`, which satisfies those preconditions and
is stored under its own id, the loading loop hands back the account without
its registry slot whose key is empty, which is another record.  Third, the
accounts file holds the next-id marker 2147483647: a `create` stores a record
under this id and its increment leaves the counter at -2147483648, and the
removal of the record leaves an empty map; the loading loop, run over the text
of the flush, ignores the marker -2147483648, which is not above
`START_ACCOUNT_NUM`, and ends with the counter at 2000000. -/
theorem flush_then_reload_counterexample :
    (account_db_txt_init upstream marker_first_disk).1 = true ∧
    (reached upstream marker_first_disk []).db.next_account_id = 2000005 ∧
    (reached upstream marker_first_disk []).db.accounts.map Prod.fst = [2000005] ∧
    (∀ e ∈ (reached upstream marker_first_disk []).db.accounts,
      e.2.account_id = e.1 ∧ stated_ok upstream e.2 = true ∧ codec_ok upstream e.2 = true) ∧
    (reloaded upstream (reached upstream marker_first_disk []).db).1.next_account_id
      = 2000006 ∧
    (reached upstream blank_disk [.create rich_account]).db.accounts
      = [(2000000, rich_account)] ∧
    stated_ok upstream rich_account = true ∧ codec_ok upstream rich_account = true ∧
    (reloaded upstream (reached upstream blank_disk [.create rich_account]).db).1.accounts
      = [(2000000, flushed rich_account)] ∧
    flushed rich_account ≠ rich_account ∧
    (reached upstream int_max_disk [.create new_account, .remove 2147483647]).db.accounts = [] ∧
    (reached upstream int_max_disk
      [.create new_account, .remove 2147483647]).db.next_account_id = -2147483648 ∧
    (reloaded upstream (reached upstream int_max_disk
      [.create new_account, .remove 2147483647]).db).1.next_account_id = 2000000 :=
  ⟨by decide, by decide, by decide, by decide,
   (congrArg (fun s => s.1.next_account_id)
      (reload_general upstream (reached upstream marker_first_disk []).db (by decide)
        (by decide) (by decide))).trans (by decide),
   by decide, by decide, by decide,
   (congrArg (fun s => s.1.accounts)
      (reload_general upstream (reached upstream blank_disk [.create rich_account]).db
        (by decide) (by decide) (by decide))).trans (by decide),
   by decide, by decide, by decide,
   (congrArg (fun s => s.1.next_account_id)
      (reload_general upstream
        (reached upstream int_max_disk [.create new_account, .remove 2147483647]).db
        (by decide) (by decide) (by decide))).trans (by decide)⟩

end Eathena
